import Mathlib

/-!
Verification of the order-allocation and reconciliation engine of the
ShopifyInventoryinator repository.  The definitions below are a shallow
embedding of the database operations in the repository (tasks, orders and
order line items stored as row lists, SQL UPDATE/DELETE/INSERT-ON-CONFLICT
rendered as keyed list transformations).  Quantities are modelled as `Int`
(JavaScript numbers on integer inputs), statuses as the literal strings the
code stores.
-/

namespace ShopInv

/-- One row of the `tasks` table. -/
structure Task where
  variantId : String
  variantTitle : String
  productTitle : String
  sku : String
  imageUrl : Option String
  totalQuantity : Int
  madeQuantity : Int
  status : String
deriving DecidableEq

/-- One row of the `orders` table. -/
structure Order where
  orderId : String
  orderName : String
  orderDate : String
  totalItems : Int
  fulfilledItems : Int
  status : String
deriving DecidableEq

/-- One row of the `order_line_items` table. -/
structure LineItem where
  lineItemId : String
  orderId : String
  variantId : String
  productTitle : String
  variantTitle : String
  sku : String
  imageUrl : Option String
  quantity : Int
  fulfilledQuantity : Int
deriving DecidableEq

/-- The three tables the core engine works on, each as the list of its rows
in rowid (insertion) order. -/
structure DBState where
  tasks : List Task
  orders : List Order
  lineItems : List LineItem
deriving DecidableEq

/-- Task status derivation as inlined throughout the source
(`newMade >= total ? 'completed' : newMade > 0 ? 'in_progress' : 'pending'`).
Note the `completed` test comes first. -/
def deriveTaskStatus (made total : Int) : String :=
  if made ≥ total then "completed"
  else if made > 0 then "in_progress"
  else "pending"

/-- Order status derivation as inlined in the source
(`fulfilled >= total ? 'fulfilled' : fulfilled > 0 ? 'in_progress' : 'pending'`). -/
def deriveOrderStatus (fulfilled total : Int) : String :=
  if fulfilled ≥ total then "fulfilled"
  else if fulfilled > 0 then "in_progress"
  else "pending"

/-- `UPDATE ... SET ... WHERE key = k`: apply `f` to every row whose key is `k`. -/
def updWhere (key : α → String) (k : String) (f : α → α) (l : List α) : List α :=
  l.map fun x => if key x == k then f x else x

/-- `DELETE FROM ... WHERE key = k`: drop every row whose key is `k`. -/
def delWhere (key : α → String) (k : String) (l : List α) : List α :=
  l.filter fun x => key x != k

/-- `SELECT * FROM ... WHERE key = k LIMIT 1`: first row with the key. -/
def findBy (key : α → String) (k : String) (l : List α) : Option α :=
  l.find? fun x => key x == k

/-- `getTaskByVariantId` in the source. -/
def getTaskByVariantId (s : DBState) (v : String) : Option Task :=
  findBy Task.variantId v s.tasks

/-- The row-level effect of `upsertTask`: INSERT with
ON CONFLICT(variant_id) DO UPDATE of the display metadata and
`total_quantity` only (`made_quantity` and `status` keep their stored
values on conflict). -/
def upsertTaskRow (ts : List Task) (t : Task) : List Task :=
  if ts.any (fun x => x.variantId == t.variantId) then
    updWhere Task.variantId t.variantId (fun x =>
      { x with variantTitle := t.variantTitle
               productTitle := t.productTitle
               sku := t.sku
               imageUrl := t.imageUrl
               totalQuantity := t.totalQuantity }) ts
  else
    ts ++ [t]

/-- `upsertTask` in the source. -/
def upsertTask (s : DBState) (t : Task) : DBState :=
  { s with tasks := upsertTaskRow s.tasks t }

/-- The record returned by `updateMadeQuantity`. -/
structure MadeResult where
  previousMade : Int
  newMade : Int
  actualAdded : Int
  newStatus : String
deriving DecidableEq

/-- `updateMadeQuantity` in the source: throws when no task exists for the
variant, otherwise clamps the new made quantity at the task total
(`Math.min(made + qty, total)`) and stores the derived status. -/
def updateMadeQuantity (s : DBState) (v : String) (quantityToAdd : Int) :
    Except String (MadeResult × DBState) :=
  match getTaskByVariantId s v with
  | none => .error ("Task not found for variant: " ++ v)
  | some task =>
      let newMade := min (task.madeQuantity + quantityToAdd) task.totalQuantity
      let actualAdded := newMade - task.madeQuantity
      let newStatus := deriveTaskStatus newMade task.totalQuantity
      let ts := updWhere Task.variantId v
        (fun t => { t with madeQuantity := newMade, status := newStatus }) s.tasks
      .ok ({ previousMade := task.madeQuantity
             newMade := newMade
             actualAdded := actualAdded
             newStatus := newStatus },
           { s with tasks := ts })

/-- `resetTask` in the source: an unconditional UPDATE keyed on the variant
id; it matches no row when the task is absent, and always returns `true`. -/
def resetTask (s : DBState) (v : String) : Bool × DBState :=
  let ts := updWhere Task.variantId v
    (fun t => { t with madeQuantity := 0, status := "pending" }) s.tasks
  (true, { s with tasks := ts })

/-- `upsertOrder` in the source: ON CONFLICT(order_id) updates
`order_name`, `order_date` and `total_items` only; `fulfilled_items`
and `status` keep their stored values. -/
def upsertOrder (s : DBState) (o : Order) : DBState :=
  if s.orders.any (fun x => x.orderId == o.orderId) then
    { s with orders := updWhere Order.orderId o.orderId (fun x =>
        { x with orderName := o.orderName
                 orderDate := o.orderDate
                 totalItems := o.totalItems }) s.orders }
  else
    { s with orders := s.orders ++ [o] }

/-- `upsertOrderLineItem` in the source: ON CONFLICT(line_item_id) updates
`quantity` only; every other stored column, in particular
`fulfilled_quantity`, keeps its value. -/
def upsertOrderLineItem (s : DBState) (li : LineItem) : DBState :=
  if s.lineItems.any (fun x => x.lineItemId == li.lineItemId) then
    { s with lineItems := updWhere LineItem.lineItemId li.lineItemId (fun x =>
        { x with quantity := li.quantity }) s.lineItems }
  else
    { s with lineItems := s.lineItems ++ [li] }

/-- `getOrderByOrderId` in the source. -/
def getOrderByOrderId (s : DBState) (oid : String) : Option Order :=
  findBy Order.orderId oid s.orders

/-- `getOrderLineItems` in the source. -/
def getOrderLineItems (s : DBState) (oid : String) : List LineItem :=
  s.lineItems.filter fun li => li.orderId == oid

/-- Result of `archiveOrder`. -/
inductive ArchiveOutcome where
  | alreadyArchived
  | archived
deriving DecidableEq

/-- One iteration of the deallocation loop in `archiveOrder`: subtract the
line item quantities from the matching task (floored at 0), deleting the
task when its new total is 0. -/
def archiveDeallocStep (ts : List Task) (item : LineItem) : List Task :=
  match findBy Task.variantId item.variantId ts with
  | none => ts
  | some task =>
      let newMade := max 0 (task.madeQuantity - item.fulfilledQuantity)
      let newTotal := max 0 (task.totalQuantity - item.quantity)
      if newTotal = 0 then
        delWhere Task.variantId item.variantId ts
      else
        updWhere Task.variantId item.variantId (fun t =>
          { t with madeQuantity := newMade
                   totalQuantity := newTotal
                   status := deriveTaskStatus newMade newTotal }) ts

/-- `archiveOrder` in the source. -/
def archiveOrder (s : DBState) (oid : String) :
    Except String (ArchiveOutcome × DBState) :=
  match getOrderByOrderId s oid with
  | none => .error ("Order not found: " ++ oid)
  | some order =>
      if order.status == "archived" then .ok (.alreadyArchived, s)
      else
        let items := getOrderLineItems s oid
        let os := updWhere Order.orderId oid
          (fun o => { o with status := "archived" }) s.orders
        .ok (.archived,
             { s with tasks := items.foldl archiveDeallocStep s.tasks, orders := os })

/-- Result of `unarchiveOrder`. -/
inductive UnarchiveOutcome where
  | notArchived
  | unarchived (newStatus : String)
deriving DecidableEq

/-- One iteration of the reallocation loop in `unarchiveOrder`: add the line
item quantities back onto the matching task, or recreate the task from the
line item metadata when it was deleted. -/
def unarchiveReallocStep (ts : List Task) (item : LineItem) : List Task :=
  match findBy Task.variantId item.variantId ts with
  | some task =>
      let newTotal := task.totalQuantity + item.quantity
      let newMade := task.madeQuantity + item.fulfilledQuantity
      updWhere Task.variantId item.variantId (fun t =>
        { t with madeQuantity := newMade
                 totalQuantity := newTotal
                 status := deriveTaskStatus newMade newTotal }) ts
  | none =>
      upsertTaskRow ts
        { variantId := item.variantId
          variantTitle := item.variantTitle
          productTitle := item.productTitle
          sku := item.sku
          imageUrl := item.imageUrl
          totalQuantity := item.quantity
          madeQuantity := item.fulfilledQuantity
          status := deriveTaskStatus item.fulfilledQuantity item.quantity }

/-- `unarchiveOrder` in the source: re-adds quantities to tasks and restores
the order status derived from the stored counters. -/
def unarchiveOrder (s : DBState) (oid : String) :
    Except String (UnarchiveOutcome × DBState) :=
  match getOrderByOrderId s oid with
  | none => .error ("Order not found: " ++ oid)
  | some order =>
      if order.status != "archived" then .ok (.notArchived, s)
      else
        let items := getOrderLineItems s oid
        let newStatus := deriveOrderStatus order.fulfilledItems order.totalItems
        let os := updWhere Order.orderId oid
          (fun o => { o with status := newStatus }) s.orders
        .ok (.unarchived newStatus,
             { s with tasks := items.foldl unarchiveReallocStep s.tasks, orders := os })

/-- True when some order row with this id is not archived (the JOIN filter
`o.status != 'archived'` on `li.order_id = o.order_id`). -/
def anyNonArchived (orders : List Order) (oid : String) : Bool :=
  orders.any fun o => o.orderId == oid && o.status != "archived"

/-- One iteration of the loop in `resetVariantInOrders`: when the snapshot
line item has progress, zero its fulfilled quantity and subtract it from the
parent order counters (floored at 0), re-deriving the order status. -/
def resetItemStep (s : DBState) (item : LineItem) : DBState :=
  if item.fulfilledQuantity > 0 then
    let lis := updWhere LineItem.lineItemId item.lineItemId
      (fun li => { li with fulfilledQuantity := 0 }) s.lineItems
    let s1 := { s with lineItems := lis }
    match getOrderByOrderId s1 item.orderId with
    | none => s1
    | some order =>
        let newFulfilled := max 0 (order.fulfilledItems - item.fulfilledQuantity)
        let newStatus := deriveOrderStatus newFulfilled order.totalItems
        let os := updWhere Order.orderId item.orderId (fun o =>
          { o with fulfilledItems := newFulfilled, status := newStatus }) s1.orders
        { s1 with orders := os }
  else s

/-- `resetVariantInOrders` in the source: snapshot the non-archived line
items of the variant, then walk them resetting progress. -/
def resetVariantInOrders (s : DBState) (v : String) : DBState :=
  let items := s.lineItems.filter fun li =>
    li.variantId == v && anyNonArchived s.orders li.orderId
  items.foldl resetItemStep s

/-- The `reset-task` IPC operation: `resetTask` followed by
`resetVariantInOrders` on the same variant. -/
def resetTaskAndOrders (s : DBState) (v : String) : DBState :=
  resetVariantInOrders ((resetTask s v).2) v

/-- `clearOrdersWithoutProgress` in the source: returns the ids of orders
with progress and deletes every non-archived order with
`fulfilled_items = 0` together with its line items. -/
def clearOrdersWithoutProgress (s : DBState) : List String × DBState :=
  let progressOrderIds := (s.orders.filter fun o =>
    o.status != "archived" && o.fulfilledItems > 0).map Order.orderId
  let deleteIds := (s.orders.filter fun o =>
    o.status != "archived" && o.fulfilledItems == 0).map Order.orderId
  (progressOrderIds,
   { s with lineItems := s.lineItems.filter (fun li => !(deleteIds.contains li.orderId))
            orders := s.orders.filter fun o =>
              !(o.status != "archived" && o.fulfilledItems == 0) })

/-- `getOrderIdsToSkipDuringSync` in the source: archived orders and orders
with progress. -/
def getOrderIdsToSkipDuringSync (s : DBState) : List String :=
  (s.orders.filter fun o => o.status == "archived" || o.fulfilledItems > 0).map
    Order.orderId

/-- The `order_date` of the parent order of a line item, used by the
`ORDER BY o.order_date ASC` in the allocation query. -/
def itemDate (s : DBState) (li : LineItem) : String :=
  match getOrderByOrderId s li.orderId with
  | some o => o.orderDate
  | none => ""

/-- The snapshot the allocation query returns: all non-archived line items
of the variant, ordered by parent order date ascending; the sort is stable,
so ties keep insertion order. -/
def allocItems (s : DBState) (v : String) : List LineItem :=
  (s.lineItems.filter fun li =>
    li.variantId == v && anyNonArchived s.orders li.orderId).insertionSort
    fun a b => itemDate s a ≤ itemDate s b

/-- An entry of the list `allocateMadeQuantityToOrders` returns. -/
structure FulfilledOrderRef where
  orderId : String
  orderName : String
deriving DecidableEq

/-- The body of one productive iteration of the allocation loop: update the
line item to its snapshot fulfilled quantity plus `toFulfill`, add the same
amount to the parent order counters re-deriving the order status, and return
the (possibly empty) newly-fulfilled record for this step. -/
def allocateOne (s : DBState) (item : LineItem) (toFulfill : Int) :
    DBState × List FulfilledOrderRef :=
  let newFulfilled := item.fulfilledQuantity + toFulfill
  let lis := updWhere LineItem.lineItemId item.lineItemId
    (fun li => { li with fulfilledQuantity := newFulfilled }) s.lineItems
  let s1 := { s with lineItems := lis }
  match getOrderByOrderId s1 item.orderId with
  | none => (s1, [])
  | some order =>
      let newOrderFulfilled := order.fulfilledItems + toFulfill
      let newOrderStatus := deriveOrderStatus newOrderFulfilled order.totalItems
      let os := updWhere Order.orderId item.orderId (fun o =>
        { o with fulfilledItems := newOrderFulfilled
                 status := newOrderStatus }) s1.orders
      let s2 := { s1 with orders := os }
      (s2,
       if newOrderStatus == "fulfilled" && order.status != "fulfilled"
       then [{ orderId := order.orderId, orderName := order.orderName }]
       else [])

/-- The allocation loop of `allocateMadeQuantityToOrders`, walking the
snapshot: stop when nothing remains, skip items without room, otherwise
consume `min(room, remaining)` via `allocateOne` and record orders that
newly become fulfilled. -/
def allocateLoop (s : DBState) (remaining : Int) (acc : List FulfilledOrderRef) :
    List LineItem → DBState × Int × List FulfilledOrderRef
  | [] => (s, remaining, acc)
  | item :: rest =>
      if remaining ≤ 0 then (s, remaining, acc)
      else if item.quantity - item.fulfilledQuantity ≤ 0 then
        allocateLoop s remaining acc rest
      else
        let r1 := allocateOne s item (min (item.quantity - item.fulfilledQuantity) remaining)
        allocateLoop r1.1 (remaining - min (item.quantity - item.fulfilledQuantity) remaining)
          (acc ++ r1.2) rest

/-- `allocateMadeQuantityToOrders` in the source. -/
def allocateMadeQuantityToOrders (s : DBState) (v : String) (quantityToAllocate : Int) :
    List FulfilledOrderRef × DBState :=
  let r := allocateLoop s quantityToAllocate [] (allocItems s v)
  (r.2.2, r.1)

/-- The `mark-made` IPC operation: `updateMadeQuantity`, then allocation of
the same requested quantity to orders. -/
def markMade (s : DBState) (v : String) (qty : Int) :
    Except String (List FulfilledOrderRef × DBState) :=
  match updateMadeQuantity s v qty with
  | .error e => .error e
  | .ok (_, s1) => .ok (allocateMadeQuantityToOrders s1 v qty)

/-- `recalculateTaskTotalsFromOrders` in the source: one GROUP BY row per
variant that has at least one non-archived line item; each such row drives
an UPDATE of the task with that variant id (a task without such a row is
not touched, and no task is deleted). -/
def recalculateTaskTotalsFromOrders (s : DBState) : DBState :=
  let items := s.lineItems.filter fun li => anyNonArchived s.orders li.orderId
  let variants := (items.map LineItem.variantId).dedup
  variants.foldl (fun st v =>
    let tq := ((items.filter fun li => li.variantId == v).map LineItem.quantity).sum
    let mq := ((items.filter fun li => li.variantId == v).map
      LineItem.fulfilledQuantity).sum
    let ts := updWhere Task.variantId v (fun t =>
      { t with totalQuantity := tq
               madeQuantity := mq
               status := deriveTaskStatus mq tq }) st.tasks
    { st with tasks := ts }) s

/-- `updateAllOrderStatuses` in the source: re-derive the status of every
non-archived order from its stored counters. -/
def updateAllOrderStatuses (s : DBState) : DBState :=
  (s.orders.filter fun o => o.status != "archived").foldl (fun st o =>
    let ns := deriveOrderStatus o.fulfilledItems o.totalItems
    if ns != o.status then
      let os := updWhere Order.orderId o.orderId (fun x => { x with status := ns }) st.orders
      { st with orders := os }
    else st) s

/-- A variant aggregate as produced by `aggregateByVariant` and passed to
`upsertTask` during a sync; `madeQuantity` and `status` are absent from the
payload and default to `0` and `pending` at the insert. -/
structure AggregatedVariant where
  variantId : String
  variantTitle : String
  productTitle : String
  sku : String
  imageUrl : Option String
  totalQuantity : Int
deriving DecidableEq

/-- The task record `upsertTask` receives for an aggregate (defaulted
progress fields). -/
def AggregatedVariant.toTask (a : AggregatedVariant) : Task :=
  { variantId := a.variantId
    variantTitle := a.variantTitle
    productTitle := a.productTitle
    sku := a.sku
    imageUrl := a.imageUrl
    totalQuantity := a.totalQuantity
    madeQuantity := 0
    status := "pending" }

/-- One order of `ordersForStorage` as produced by `extractOrdersForStorage`:
no fulfilled counters in the payload, so `upsertOrder` sees
`fulfilledItems = 0` and `status = pending`, and each payload line item has
`fulfilledQuantity = 0`. -/
structure SyncOrder where
  orderId : String
  orderName : String
  orderDate : String
  totalItems : Int
  lineItems : List LineItem
deriving DecidableEq

/-- The order record `upsertOrder` receives for a payload order. -/
def SyncOrder.toOrder (so : SyncOrder) : Order :=
  { orderId := so.orderId
    orderName := so.orderName
    orderDate := so.orderDate
    totalItems := so.totalItems
    fulfilledItems := 0
    status := "pending" }

/-- The `sync-shopify` IPC handler after the fetch phase: compute the skip
set, clear zero-progress orders, store the payload orders that are not
skipped, upsert the variant aggregates, recalculate task totals when any
order was skipped, and finally re-derive all order statuses. -/
def syncShopify (s : DBState) (ordersForStorage : List SyncOrder)
    (aggregated : List AggregatedVariant) : DBState :=
  let skipOrderIds := getOrderIdsToSkipDuringSync s
  let s1 := (clearOrdersWithoutProgress s).2
  let s2 := ordersForStorage.foldl (fun st so =>
    if skipOrderIds.contains so.orderId then st
    else so.lineItems.foldl upsertOrderLineItem (upsertOrder st so.toOrder)) s1
  let s3 := aggregated.foldl (fun st a => upsertTask st a.toTask) s2
  let s4 := if skipOrderIds.isEmpty then s3 else recalculateTaskTotalsFromOrders s3
  updateAllOrderStatuses s4

/-! ## Specification-level definitions and invariants -/

/-- Sum of `quantity` over the non-archived line items of a variant. -/
def sumQty (s : DBState) (v : String) : Int :=
  ((s.lineItems.filter fun li =>
    li.variantId == v && anyNonArchived s.orders li.orderId).map
    LineItem.quantity).sum

/-- Sum of `fulfilled_quantity` over the non-archived line items of a
variant. -/
def sumFul (s : DBState) (v : String) : Int :=
  ((s.lineItems.filter fun li =>
    li.variantId == v && anyNonArchived s.orders li.orderId).map
    LineItem.fulfilledQuantity).sum

/-- The core consistency invariant of the spec: every task row carries
exactly the sums of its variant over non-archived line items. -/
def taskInv (s : DBState) : Prop :=
  ∀ t ∈ s.tasks, t.totalQuantity = sumQty s t.variantId ∧
    t.madeQuantity = sumFul s t.variantId

instance : DecidablePred taskInv := fun s => by
  unfold taskInv; infer_instance

/-- Structural well-formedness: unique natural keys (the UNIQUE columns of
the schema), line item bounds `0 ≤ fulfilled ≤ quantity`, and at most one
line item per variant within one order. -/
def wf (s : DBState) : Prop :=
  (s.tasks.map Task.variantId).Nodup ∧
  (s.orders.map Order.orderId).Nodup ∧
  (s.lineItems.map LineItem.lineItemId).Nodup ∧
  (∀ li ∈ s.lineItems, 0 ≤ li.fulfilledQuantity ∧ li.fulfilledQuantity ≤ li.quantity) ∧
  s.lineItems.Pairwise fun a b => a.orderId = b.orderId → a.variantId ≠ b.variantId

instance : DecidablePred wf := fun s => by
  unfold wf; infer_instance

/-- The FIFO walk of the spec over the snapshot list: for each visited line
item compute `room = quantity - fulfilledQuantity`, consume
`min(room, remaining)`, stop when nothing remains; returns the visited items
paired with the amount consumed from each. -/
def fifoPlan (remaining : Int) : List LineItem → List (LineItem × Int)
  | [] => []
  | item :: rest =>
      if remaining ≤ 0 then []
      else
        let room := item.quantity - item.fulfilledQuantity
        if room ≤ 0 then fifoPlan remaining rest
        else (item, min room remaining) :: fifoPlan (remaining - min room remaining) rest

/-- Apply one plan entry to the line item table: the visited item gets its
snapshot fulfilled quantity plus the consumed amount. -/
def applyPlanRow (lis : List LineItem) (p : LineItem × Int) : List LineItem :=
  updWhere LineItem.lineItemId p.1.lineItemId
    (fun li => { li with fulfilledQuantity := p.1.fulfilledQuantity + p.2 }) lis

/-- Apply a whole plan to the line item table. -/
def applyPlan (plan : List (LineItem × Int)) (lis : List LineItem) : List LineItem :=
  plan.foldl applyPlanRow lis

/-- Apply one plan entry to the order table: add the consumed amount to the
parent order counters and re-derive its status. -/
def applyPlanOrderRow (os : List Order) (p : LineItem × Int) : List Order :=
  match findBy Order.orderId p.1.orderId os with
  | none => os
  | some o =>
      updWhere Order.orderId p.1.orderId (fun x =>
        { x with fulfilledItems := o.fulfilledItems + p.2
                 status := deriveOrderStatus (o.fulfilledItems + p.2) o.totalItems }) os

/-- Apply a whole plan to the order table. -/
def applyPlanOrders (plan : List (LineItem × Int)) (os : List Order) : List Order :=
  plan.foldl applyPlanOrderRow os

/-- Total quantity a plan consumes. -/
def planSum (plan : List (LineItem × Int)) : Int :=
  (plan.map Prod.snd).sum

/-- Total outstanding room of a snapshot list. -/
def roomSum (items : List LineItem) : Int :=
  (items.map fun li => li.quantity - li.fulfilledQuantity).sum

/-- The plan a call `allocateMadeQuantityToOrders s v q` follows: the FIFO
walk of the spec over the date-sorted snapshot of non-archived line items of
the variant. -/
def allocPlan (s : DBState) (v : String) (q : Int) : List (LineItem × Int) :=
  fifoPlan q (allocItems s v)

/-- The archive-then-unarchive cycle on one order (identity on error). -/
def archiveUnarchiveCycle (s : DBState) (oid : String) : DBState :=
  match archiveOrder s oid with
  | .error _ => s
  | .ok (_, s1) =>
      match unarchiveOrder s1 oid with
      | .error _ => s1
      | .ok (_, s2) => s2

/-- The effect of one archive deallocation on a single task row: subtract the
line item quantities (floored at 0), `none` when the new total reaches 0
(row deleted). -/
def deallocTask1 (t : Task) (i : LineItem) : Option Task :=
  let newMade := max 0 (t.madeQuantity - i.fulfilledQuantity)
  let newTotal := max 0 (t.totalQuantity - i.quantity)
  if newTotal = 0 then none
  else some { t with madeQuantity := newMade
                     totalQuantity := newTotal
                     status := deriveTaskStatus newMade newTotal }

/-- The effect of one unarchive reallocation on a single existing task row:
add the line item quantities back and re-derive the status. -/
def reallocTask1 (t : Task) (i : LineItem) : Task :=
  let newTotal := t.totalQuantity + i.quantity
  let newMade := t.madeQuantity + i.fulfilledQuantity
  { t with madeQuantity := newMade
           totalQuantity := newTotal
           status := deriveTaskStatus newMade newTotal }

/-- The task `unarchiveOrder` recreates from a line item whose task row was
deleted. -/
def taskFromLineItem (i : LineItem) : Task :=
  { variantId := i.variantId
    variantTitle := i.variantTitle
    productTitle := i.productTitle
    sku := i.sku
    imageUrl := i.imageUrl
    totalQuantity := i.quantity
    madeQuantity := i.fulfilledQuantity
    status := deriveTaskStatus i.fulfilledQuantity i.quantity }

/-- The newly-fulfilled record one plan step produces against the current
order table. -/
def reportOne (os : List Order) (p : LineItem × Int) : List FulfilledOrderRef :=
  match findBy Order.orderId p.1.orderId os with
  | none => []
  | some o =>
      if deriveOrderStatus (o.fulfilledItems + p.2) o.totalItems == "fulfilled" &&
          o.status != "fulfilled" then
        [{ orderId := o.orderId, orderName := o.orderName }]
      else []

/-- The orders a plan walk reports as newly fulfilled: walking the plan over
the order table, an order is recorded at the step whose update first makes
its derived status `fulfilled` while its current stored status is not
`fulfilled`. -/
def planReport (os : List Order) : List (LineItem × Int) → List FulfilledOrderRef
  | [] => []
  | p :: ps => reportOne os p ++ planReport (applyPlanOrderRow os p) ps

/-- Every non-archived order stores exactly its derived status (the second
invariant of the spec, section 8). -/
def ordersConsistent (s : DBState) : Prop :=
  ∀ o ∈ s.orders, o.status ≠ "archived" →
    o.status = deriveOrderStatus o.fulfilledItems o.totalItems

instance : DecidablePred ordersConsistent := fun s => by
  unfold ordersConsistent; infer_instance

/-- The ids of the snapshot rows `resetVariantInOrders` actually touches:
those with positive fulfilled quantity. -/
def zeroIds (items : List LineItem) : List String :=
  (items.filter fun i => i.fulfilledQuantity > 0).map LineItem.lineItemId

/-- Zero the fulfilled quantity of every row whose id is listed. -/
def zeroFulfilled (ids : List String) (lis : List LineItem) : List LineItem :=
  lis.map fun li =>
    if ids.contains li.lineItemId then { li with fulfilledQuantity := 0 } else li

/-- The order-row update `resetVariantInOrders` performs for one item. -/
def resetOrderUpd (newFulfilled totalItems : Int) (x : Order) : Order :=
  { x with fulfilledItems := newFulfilled
           status := deriveOrderStatus newFulfilled totalItems }

/-- One step of `updateAllOrderStatuses`: re-derive the status of a
snapshot row. -/
def statusStep (st : DBState) (o : Order) : DBState :=
  let ns := deriveOrderStatus o.fulfilledItems o.totalItems
  if ns != o.status then
    { st with orders := updWhere Order.orderId o.orderId
                          (fun x => { x with status := ns }) st.orders }
  else st

/-- The sync-relevant core of an order row: id and the two counters the
status update never touches. -/
def orderCore (o : Order) : String × Int × Int :=
  (o.orderId, o.fulfilledItems, o.totalItems)

/-- The state after the clear and store steps of `syncShopify`. -/
def syncStores (s : DBState) (ordersForStorage : List SyncOrder) : DBState :=
  ordersForStorage.foldl (fun st so =>
    if (getOrderIdsToSkipDuringSync s).contains so.orderId then st
    else so.lineItems.foldl upsertOrderLineItem (upsertOrder st so.toOrder))
    (clearOrdersWithoutProgress s).2

/-- The state after the clear, store and task-upsert steps of
`syncShopify`. -/
def syncTasks (s : DBState) (ordersForStorage : List SyncOrder)
    (aggregated : List AggregatedVariant) : DBState :=
  aggregated.foldl (fun st a => upsertTask st a.toTask)
    (syncStores s ordersForStorage)

/-- The state `archiveOrder` produces on success (deallocation fold plus the
status flip). -/
def archivedState (s : DBState) (oid : String) : DBState :=
  { s with tasks := (getOrderLineItems s oid).foldl archiveDeallocStep s.tasks
           orders := updWhere Order.orderId oid
             (fun x => { x with status := "archived" }) s.orders }

/-- The state `unarchiveOrder` produces on success (reallocation fold plus
the derived status). -/
def unarchivedState (s : DBState) (oid : String) (ns : String) : DBState :=
  { s with tasks := (getOrderLineItems s oid).foldl unarchiveReallocStep s.tasks
           orders := updWhere Order.orderId oid
             (fun x => { x with status := ns }) s.orders }

/-- The non-archived line items, the JOIN `recalculateTaskTotalsFromOrders`
groups over. -/
def recalcItems (s : DBState) : List LineItem :=
  s.lineItems.filter fun li => anyNonArchived s.orders li.orderId

/-- The distinct variant ids of the GROUP BY rows of
`recalculateTaskTotalsFromOrders`. -/
def recalcVariants (s : DBState) : List String :=
  ((recalcItems s).map LineItem.variantId).dedup

/-- The task-row update one GROUP BY row of
`recalculateTaskTotalsFromOrders` performs. -/
def recalcUpd (items : List LineItem) (v : String) (t : Task) : Task :=
  let tq := ((items.filter fun li => li.variantId == v).map LineItem.quantity).sum
  let mq := ((items.filter fun li => li.variantId == v).map
    LineItem.fulfilledQuantity).sum
  { t with totalQuantity := tq
           madeQuantity := mq
           status := deriveTaskStatus mq tq }

/-! ## Concrete states used as witnesses and counterexamples -/

/-- A line item of the two-order FIFO example of the spec. -/
def li0 : LineItem :=
  { lineItemId := "L1", orderId := "O1", variantId := "V", productTitle := "T",
    variantTitle := "R", sku := "", imageUrl := none, quantity := 5,
    fulfilledQuantity := 0 }

/-- The second line item of the FIFO example. -/
def li1 : LineItem :=
  { li0 with lineItemId := "L2", orderId := "O2" }

/-- The 2025-01-01 order of the FIFO example. -/
def o0 : Order :=
  { orderId := "O1", orderName := "#1001", orderDate := "2025-01-01T10:00:00Z",
    totalItems := 5, fulfilledItems := 0, status := "pending" }

/-- The 2025-01-10 order of the FIFO example. -/
def o1 : Order :=
  { o0 with orderId := "O2", orderName := "#1002",
            orderDate := "2025-01-10T10:00:00Z" }

/-- The task of the FIFO example. -/
def t0 : Task :=
  { variantId := "V", variantTitle := "R", productTitle := "T", sku := "",
    imageUrl := none, totalQuantity := 10, madeQuantity := 0, status := "pending" }

/-- The FIFO example state: two orders dated 2025-01-01 and 2025-01-10, five
units each, same variant. -/
def s0 : DBState := { tasks := [t0], orders := [o0, o1], lineItems := [li0, li1] }

/-- The first line item of the FIFO example after the 3-unit allocation. -/
def li0a : LineItem := { li0 with fulfilledQuantity := 3 }

/-- The 2025-01-01 order of the FIFO example after the 3-unit allocation. -/
def o0a : Order := { o0 with fulfilledItems := 3, status := "in_progress" }

/-- The FIFO example state after allocating 3 units. -/
def s0a : DBState :=
  { tasks := [t0], orders := [o0a, o1], lineItems := [li0a, li1] }

/-- A stale task for a variant without line items, next to a live one. -/
def c1TaskW : Task := { t0 with variantId := "W", totalQuantity := 4 }

/-- The live task of the sync counterexample. -/
def c1TaskV : Task :=
  { t0 with totalQuantity := 5, madeQuantity := 3, status := "in_progress" }

/-- The progressed order of the sync counterexample. -/
def c1OrdA : Order :=
  { o0 with orderId := "A", fulfilledItems := 3, totalItems := 5,
            status := "in_progress" }

/-- The zero-progress order of the sync counterexample. -/
def c1OrdB : Order := { o0 with orderId := "B", fulfilledItems := 0, totalItems := 4 }

/-- The line item of the progressed order. -/
def c1ItemA : LineItem :=
  { li0 with lineItemId := "LA", orderId := "A", quantity := 5,
             fulfilledQuantity := 3 }

/-- The line item of the zero-progress order, variant of the stale task. -/
def c1ItemB : LineItem :=
  { li0 with lineItemId := "LB", orderId := "B", variantId := "W", quantity := 4 }

/-- A consistent state which an empty sync drives out of the invariant. -/
def c1s : DBState :=
  { tasks := [c1TaskW, c1TaskV], orders := [c1OrdA, c1OrdB],
    lineItems := [c1ItemA, c1ItemB] }

/-- A task with 8 of 10 made: the clamping counterexample input. -/
def c2s : DBState :=
  { tasks := [{ t0 with totalQuantity := 10, madeQuantity := 8 }], orders := [],
    lineItems := [] }

/-- The result record the clamped call returns. -/
def c2mr : MadeResult :=
  { previousMade := 8, newMade := 10, actualAdded := 2, newStatus := "completed" }

/-- The state after the clamped call. -/
def c2after : DBState :=
  { tasks := [{ t0 with totalQuantity := 10, madeQuantity := 10,
                        status := "completed" }], orders := [], lineItems := [] }

/-- A state with only a stale task (variant without any line item). -/
def c8s : DBState :=
  { tasks := [{ t0 with totalQuantity := 5, madeQuantity := 2 }], orders := [],
    lineItems := [] }

/-- The completed task of the archive round-trip witness. -/
def c4Task : Task :=
  { t0 with totalQuantity := 5, madeQuantity := 5, status := "completed" }

/-- The fulfilled order of the archive round-trip witness. -/
def c4Ord : Order :=
  { orderId := "F", orderName := "#9", orderDate := "2025-02-01", totalItems := 5,
    fulfilledItems := 5, status := "fulfilled" }

/-- The fully fulfilled line item of the archive round-trip witness. -/
def c4Item : LineItem :=
  { li0 with lineItemId := "LF", orderId := "F", quantity := 5,
             fulfilledQuantity := 5 }

/-- The archive round-trip witness state: one order, 5 of 5 fulfilled. -/
def c4s : DBState :=
  { tasks := [c4Task], orders := [c4Ord], lineItems := [c4Item] }

/-! ## Generic lemmas about keyed row lists -/

theorem findBy_eq_none {key : α → String} {k : String} {l : List α} :
    findBy key k l = none ↔ ∀ x ∈ l, key x ≠ k := by
  simp [findBy, List.find?_eq_none]

theorem findBy_isSome {key : α → String} {k : String} {l : List α} {x : α}
    (hx : x ∈ l) (hk : key x = k) : (findBy key k l).isSome := by
  rcases h : findBy key k l with _ | y
  · exact absurd hk (findBy_eq_none.1 h x hx)
  · rfl

theorem findBy_key {key : α → String} {k : String} {l : List α} {x : α}
    (h : findBy key k l = some x) : key x = k := by
  have := List.find?_some h
  simpa using this

theorem findBy_mem {key : α → String} {k : String} {l : List α} {x : α}
    (h : findBy key k l = some x) : x ∈ l :=
  List.mem_of_find?_eq_some h

theorem updWhere_of_none {key : α → String} {k : String} {f : α → α} {l : List α}
    (h : ∀ x ∈ l, key x ≠ k) : updWhere key k f l = l := by
  induction l with
  | nil => rfl
  | cons a l ih =>
      have ha : key a ≠ k := h a (by simp)
      have hl : ∀ x ∈ l, key x ≠ k := fun x hx => h x (by simp [hx])
      simp [updWhere] at ih ⊢
      exact ⟨by simp [ha], ih hl⟩

theorem findBy_updWhere_self (key : α → String) (k : String) (f : α → α) (l : List α)
    (hf : ∀ x, key (f x) = key x) :
    findBy key k (updWhere key k f l) = (findBy key k l).map f := by
  induction l with
  | nil => rfl
  | cons a l ih =>
      by_cases ha : key a = k
      · simp [updWhere, findBy, List.find?_cons, ha, hf] at ih ⊢
      · simp [updWhere, findBy, List.find?_cons, ha] at ih ⊢
        exact ih

theorem findBy_updWhere_ne (key : α → String) (k k2 : String) (f : α → α) (l : List α)
    (hf : ∀ x, key (f x) = key x) (hne : k2 ≠ k) :
    findBy key k2 (updWhere key k f l) = findBy key k2 l := by
  have hne2 : k ≠ k2 := fun h => hne h.symm
  induction l with
  | nil => rfl
  | cons a l ih =>
      by_cases ha : key a = k
      · simp [updWhere, findBy, List.find?_cons, ha, hf, hne, hne2] at ih ⊢
        exact ih
      · by_cases ha2 : key a = k2
        · simp [updWhere, findBy, List.find?_cons, ha, ha2, hne, hne2]
        · simp [updWhere, findBy, List.find?_cons, ha, ha2, hne, hne2] at ih ⊢
          exact ih

theorem findBy_delWhere_self {key : α → String} {k : String} {l : List α} :
    findBy key k (delWhere key k l) = none := by
  rw [findBy_eq_none]
  intro x hx
  simp [delWhere, List.mem_filter] at hx
  exact hx.2

theorem findBy_delWhere_ne {key : α → String} {k k2 : String} {l : List α}
    (hne : k2 ≠ k) : findBy key k2 (delWhere key k l) = findBy key k2 l := by
  have hne2 : k ≠ k2 := fun h => hne h.symm
  induction l with
  | nil => rfl
  | cons a l ih =>
      by_cases ha : key a = k
      · simp [delWhere, findBy, List.find?_cons, ha, hne, hne2] at ih ⊢
        exact ih
      · by_cases ha2 : key a = k2
        · simp [delWhere, findBy, List.find?_cons, ha, ha2, hne, hne2]
        · simp [delWhere, findBy, List.find?_cons, ha, ha2, hne, hne2] at ih ⊢
          exact ih

theorem findBy_append {key : α → String} {k : String} {l1 l2 : List α} :
    findBy key k (l1 ++ l2) =
      (findBy key k l1).elim (findBy key k l2) some := by
  induction l1 with
  | nil => simp [findBy]
  | cons a l ih =>
      by_cases ha : key a = k
      · simp [findBy, List.find?_cons, ha]
      · simp [findBy, List.find?_cons, ha] at ih ⊢
        exact ih

theorem map_key_updWhere {key : α → String} {k : String} {f : α → α} {l : List α}
    (hf : ∀ x, key (f x) = key x) :
    (updWhere key k f l).map key = l.map key := by
  induction l with
  | nil => rfl
  | cons a l ih =>
      by_cases ha : key a = k
      · simp [updWhere, ha, hf] at ih ⊢
        exact ih
      · simp [updWhere, ha] at ih ⊢
        exact ih

theorem filter_congr_mem {p q : α → Bool} {l : List α}
    (h : ∀ x ∈ l, p x = q x) : l.filter p = l.filter q := by
  induction l with
  | nil => rfl
  | cons a l ih =>
      have ha := h a (by simp)
      have hl : ∀ x ∈ l, p x = q x := fun x hx => h x (by simp [hx])
      by_cases hp : p a
      · rw [List.filter_cons_of_pos hp, List.filter_cons_of_pos (ha ▸ hp), ih hl]
      · rw [List.filter_cons_of_neg hp, List.filter_cons_of_neg (by rw [← ha]; exact hp),
          ih hl]

theorem sum_filter_split (g : α → Int) (p c : α → Bool) (l : List α) :
    ((l.filter p).map g).sum =
      ((l.filter fun x => p x && c x).map g).sum +
      ((l.filter fun x => p x && !c x).map g).sum := by
  induction l with
  | nil => simp
  | cons a l ih =>
      by_cases hp : p a
      · by_cases hc : c a
        · simp [hp, hc, ih]; ring
        · simp [hp, hc, ih]; ring
      · simp [hp, ih]

/-! ## Status derivation facts -/

theorem deriveOrderStatus_ne_archived (f t : Int) :
    deriveOrderStatus f t ≠ "archived" := by
  unfold deriveOrderStatus
  split
  · decide
  · split <;> decide

theorem deriveTaskStatus_ne_archived (m t : Int) :
    deriveTaskStatus m t ≠ "archived" := by
  unfold deriveTaskStatus
  split
  · decide
  · split <;> decide

theorem deriveOrderStatus_eq_fulfilled_iff (f t : Int) :
    deriveOrderStatus f t = "fulfilled" ↔ t ≤ f := by
  unfold deriveOrderStatus
  split
  · simpa using by omega
  · split <;> simp <;> omega

/-! ## Characterization of the allocation loop -/

theorem allocateOne_eq (s : DBState) (item : LineItem) (c : Int) :
    allocateOne s item c =
      ({ tasks := s.tasks
         orders := applyPlanOrderRow s.orders (item, c)
         lineItems := applyPlanRow s.lineItems (item, c) },
       reportOne s.orders (item, c)) := by
  have hgo : ∀ lis : List LineItem,
      getOrderByOrderId { s with lineItems := lis } item.orderId =
        findBy Order.orderId item.orderId s.orders := fun _ => rfl
  unfold allocateOne applyPlanOrderRow applyPlanRow reportOne
  rcases hfind : findBy Order.orderId item.orderId s.orders with _ | o
  · simp only [hgo, hfind]
  · simp only [hgo, hfind]

theorem allocateLoop_spec (items : List LineItem) :
    ∀ (s : DBState) (r : Int) (acc : List FulfilledOrderRef),
      allocateLoop s r acc items =
        ({ tasks := s.tasks
           orders := applyPlanOrders (fifoPlan r items) s.orders
           lineItems := applyPlan (fifoPlan r items) s.lineItems },
         r - planSum (fifoPlan r items),
         acc ++ planReport s.orders (fifoPlan r items)) := by
  induction items with
  | nil =>
      intro s r acc
      simp [allocateLoop, fifoPlan, applyPlan, applyPlanOrders, planSum, planReport]
  | cons item rest ih =>
      intro s r acc
      rw [allocateLoop, fifoPlan]
      by_cases h1 : r ≤ 0
      · simp [h1, applyPlan, applyPlanOrders, planSum, planReport]
      · simp only [h1, if_false]
        by_cases h2 : item.quantity - item.fulfilledQuantity ≤ 0
        · simpa [h2] using ih s r acc
        · simp only [h2, if_false, allocateOne_eq]
          rw [ih]
          simp only [applyPlan, applyPlanOrders, planSum, planReport, List.foldl_cons,
            List.map_cons, List.sum_cons, List.append_assoc, Prod.mk.injEq]
          exact ⟨trivial, by ring, trivial⟩

theorem allocate_eq (s : DBState) (v : String) (q : Int) :
    allocateMadeQuantityToOrders s v q =
      (planReport s.orders (allocPlan s v q),
       { tasks := s.tasks
         orders := applyPlanOrders (allocPlan s v q) s.orders
         lineItems := applyPlan (allocPlan s v q) s.lineItems }) := by
  simp only [allocateMadeQuantityToOrders, allocPlan, allocateLoop_spec, List.nil_append]

theorem findBy_unique {key : α → String} {k : String} {l : List α}
    (hnd : (l.map key).Nodup) {x y : α} (hx : x ∈ l) (hk : key x = k)
    (hf : findBy key k l = some y) : x = y := by
  induction l with
  | nil => cases hx
  | cons a l ih =>
      rw [List.map_cons, List.nodup_cons] at hnd
      by_cases ha : key a = k
      · have hy : y = a := by
          simp [findBy, List.find?_cons, ha] at hf
          exact hf.symm
        subst hy
        rcases List.mem_cons.1 hx with rfl | hx2
        · rfl
        · exfalso
          have hmem : key x ∈ l.map key := List.mem_map_of_mem key hx2
          rw [hk, ← ha] at hmem
          exact hnd.1 hmem
      · have hf2 : findBy key k l = some y := by
          simp [findBy, List.find?_cons, ha] at hf ⊢
          exact hf
        rcases List.mem_cons.1 hx with rfl | hx2
        · exact absurd hk ha
        · exact ih hnd.2 hx2 hf2

theorem mem_updWhere {key : α → String} {k : String} {f : α → α} {l : List α} {y : α}
    (hy : y ∈ updWhere key k f l) :
    (y ∈ l) ∨ ∃ x ∈ l, key x = k ∧ y = f x := by
  rcases List.mem_map.1 hy with ⟨x, hx, hxy⟩
  by_cases hk : key x = k
  · right
    exact ⟨x, hx, hk, by simpa [hk] using hxy.symm⟩
  · left
    simp [hk] at hxy
    exact hxy ▸ hx

theorem fifoPlan_mem {r : Int} {items : List LineItem} {p : LineItem × Int}
    (hp : p ∈ fifoPlan r items) :
    p.1 ∈ items ∧ 0 < p.2 ∧ p.2 ≤ p.1.quantity - p.1.fulfilledQuantity ∧ 0 < r := by
  induction items generalizing r with
  | nil => simp [fifoPlan] at hp
  | cons item rest ih =>
      rw [fifoPlan] at hp
      by_cases h1 : r ≤ 0
      · simp [h1] at hp
      · simp only [h1, if_false] at hp
        by_cases h2 : item.quantity - item.fulfilledQuantity ≤ 0
        · simp only [h2, if_true] at hp
          obtain ⟨hm, hc, hb, hr⟩ := ih hp
          exact ⟨List.mem_cons_of_mem _ hm, hc, hb, by omega⟩
        · simp only [h2, if_false, List.mem_cons] at hp
          rcases hp with rfl | hp
          · refine ⟨List.mem_cons_self _ _, ?_, min_le_left _ _, by omega⟩
            exact lt_min (by omega) (by omega)
          · obtain ⟨hm, hc, hb, hr⟩ := ih hp
            exact ⟨List.mem_cons_of_mem _ hm, hc, hb, by omega⟩

theorem fifoPlan_sum {r : Int} (hr : 0 ≤ r) (items : List LineItem) :
    planSum (fifoPlan r items) =
      min r ((items.map fun i => max (i.quantity - i.fulfilledQuantity) 0).sum) := by
  induction items generalizing r with
  | nil =>
      simp [fifoPlan, planSum]
      omega
  | cons item rest ih =>
      have hS : 0 ≤ ((rest.map fun i => max (i.quantity - i.fulfilledQuantity) 0).sum) :=
        List.sum_nonneg (by
          intro x hx
          rcases List.mem_map.1 hx with ⟨i, _, rfl⟩
          exact le_max_right _ _)
      rw [fifoPlan]
      by_cases h1 : r ≤ 0
      · have hr0 : r = 0 := le_antisymm h1 hr
        subst hr0
        simp only [if_pos le_rfl, planSum, List.map_nil, List.sum_nil]
        rw [List.map_cons, List.sum_cons]
        have : 0 ≤ max (item.quantity - item.fulfilledQuantity) 0 := le_max_right _ _
        omega
      · simp only [h1, if_false]
        by_cases h2 : item.quantity - item.fulfilledQuantity ≤ 0
        · simp only [h2, if_true]
          rw [ih hr, List.map_cons, List.sum_cons]
          have : max (item.quantity - item.fulfilledQuantity) 0 = 0 := by omega
          rw [this, zero_add]
        · simp only [h2, if_false]
          have hroom : 0 < item.quantity - item.fulfilledQuantity := by omega
          set room := item.quantity - item.fulfilledQuantity with hroomdef
          have hc : 0 ≤ r - min room r := by
            have := min_le_right room r
            omega
          rw [planSum, List.map_cons, List.sum_cons]
          have ihr := ih hc
          rw [planSum] at ihr
          rw [ihr, List.map_cons, List.sum_cons]
          have hmax : max room 0 = room := by omega
          rw [hmax]
          rcases le_total room r with hcase | hcase
          · rw [min_eq_left hcase]
            rcases le_total (r - room) ((rest.map
                fun i => max (i.quantity - i.fulfilledQuantity) 0).sum) with h3 | h3
            · rw [min_eq_left h3, min_eq_left (by omega)]
              omega
            · rw [min_eq_right h3, min_eq_right (by omega)]
          · rw [min_eq_right hcase]
            have : r - r = 0 := by omega
            rw [this, min_eq_left hS, min_eq_left (by omega)]
            omega

theorem allocItems_perm (s : DBState) (v : String) :
    (allocItems s v).Perm (s.lineItems.filter fun li =>
      li.variantId == v && anyNonArchived s.orders li.orderId) :=
  List.perm_insertionSort _ _

theorem allocItems_mem {s : DBState} {v : String} {li : LineItem} :
    li ∈ allocItems s v ↔
      li ∈ s.lineItems ∧ li.variantId = v ∧ anyNonArchived s.orders li.orderId = true := by
  rw [(allocItems_perm s v).mem_iff, List.mem_filter]
  simp

theorem allocItems_sorted (s : DBState) (v : String) :
    (allocItems s v).Sorted fun a b => itemDate s a ≤ itemDate s b := by
  haveI : IsTotal LineItem fun a b => itemDate s a ≤ itemDate s b :=
    ⟨fun a b => le_total _ _⟩
  haveI : IsTrans LineItem fun a b => itemDate s a ≤ itemDate s b :=
    ⟨fun _ _ _ h1 h2 => le_trans h1 h2⟩
  exact List.sorted_insertionSort _ _

/-! ## Effect of a plan on the line item table -/

theorem map_proj_updWhere (key : α → String) (k : String) (f : α → α) (g : α → β)
    (hg : ∀ x, g (f x) = g x) (l : List α) :
    (updWhere key k f l).map g = l.map g := by
  induction l with
  | nil => rfl
  | cons a l ih =>
      by_cases ha : key a = k
      · simp [updWhere, ha, hg] at ih ⊢
        exact ih
      · simp [updWhere, ha] at ih ⊢
        exact ih

theorem applyPlanRow_qty (pr : LineItem → Bool)
    (hpr : ∀ li x, pr { li with fulfilledQuantity := x } = pr li)
    (lis : List LineItem) (p : LineItem × Int) :
    ((applyPlanRow lis p).filter pr).map LineItem.quantity =
      (lis.filter pr).map LineItem.quantity := by
  induction lis with
  | nil => rfl
  | cons a l ih =>
      unfold applyPlanRow updWhere at ih ⊢
      rw [List.map_cons]
      by_cases ha : (a.lineItemId == p.1.lineItemId) = true
      · rw [if_pos ha]
        by_cases hp : pr a
        · rw [List.filter_cons_of_pos (by rw [hpr]; exact hp),
            List.filter_cons_of_pos hp, List.map_cons, List.map_cons, ih]
        · rw [List.filter_cons_of_neg (by rw [hpr]; exact hp),
            List.filter_cons_of_neg hp, ih]
      · rw [if_neg ha]
        by_cases hp : pr a
        · rw [List.filter_cons_of_pos hp, List.filter_cons_of_pos hp,
            List.map_cons, List.map_cons, ih]
        · rw [List.filter_cons_of_neg hp, List.filter_cons_of_neg hp, ih]

theorem applyPlan_qty (pr : LineItem → Bool)
    (hpr : ∀ li x, pr { li with fulfilledQuantity := x } = pr li)
    (plan : List (LineItem × Int)) :
    ∀ lis : List LineItem,
      ((applyPlan plan lis).filter pr).map LineItem.quantity =
        (lis.filter pr).map LineItem.quantity := by
  induction plan with
  | nil => intro lis; rfl
  | cons p ps ih =>
      intro lis
      rw [applyPlan, List.foldl_cons]
      have := ih (applyPlanRow lis p)
      rw [applyPlan] at this
      rw [this, applyPlanRow_qty pr hpr]

theorem applyPlanRow_ful_sum (pr : LineItem → Bool)
    (hpr : ∀ li x, pr { li with fulfilledQuantity := x } = pr li)
    {lis : List LineItem} (hnd : (lis.map LineItem.lineItemId).Nodup)
    {p : LineItem × Int} (hf : findBy LineItem.lineItemId p.1.lineItemId lis = some p.1) :
    (((applyPlanRow lis p).filter pr).map LineItem.fulfilledQuantity).sum =
      ((lis.filter pr).map LineItem.fulfilledQuantity).sum +
        (if pr p.1 then p.2 else 0) := by
  induction lis with
  | nil => simp [findBy] at hf
  | cons a l ih =>
      rw [List.map_cons, List.nodup_cons] at hnd
      by_cases ha : a.lineItemId = p.1.lineItemId
      · have hap : a = p.1 := by
          simp [findBy, List.find?_cons, ha] at hf
          exact hf
        have hl : updWhere LineItem.lineItemId p.1.lineItemId
            (fun li => { li with fulfilledQuantity := p.1.fulfilledQuantity + p.2 }) l
              = l := by
          apply updWhere_of_none
          intro x hx hxk
          apply hnd.1
          rw [ha, ← hxk]
          exact List.mem_map_of_mem _ hx
        unfold applyPlanRow updWhere
        rw [List.map_cons, if_pos (by simp [ha])]
        have hupd : updWhere LineItem.lineItemId p.1.lineItemId
            (fun li => { li with fulfilledQuantity := p.1.fulfilledQuantity + p.2 }) l
              = l := hl
        rw [show l.map (fun x => if (x.lineItemId == p.1.lineItemId) = true then
          { x with fulfilledQuantity := p.1.fulfilledQuantity + p.2 } else x) = l from hupd]
        by_cases hp : pr a
        · rw [List.filter_cons_of_pos (by rw [hpr]; exact hp),
            List.filter_cons_of_pos hp, List.map_cons, List.map_cons,
            List.sum_cons, List.sum_cons]
          rw [if_pos (by rw [← hap]; exact hp)]
          subst hap
          ring
        · rw [List.filter_cons_of_neg (by rw [hpr]; exact hp),
            List.filter_cons_of_neg hp]
          rw [if_neg (by rw [← hap]; exact hp)]
          ring
      · have hf2 : findBy LineItem.lineItemId p.1.lineItemId l = some p.1 := by
          simp [findBy, List.find?_cons, ha] at hf ⊢
          exact hf
        have ihl := ih hnd.2 hf2
        unfold applyPlanRow updWhere at ihl ⊢
        rw [List.map_cons, if_neg (by simp [ha])]
        by_cases hp : pr a
        · rw [List.filter_cons_of_pos hp, List.filter_cons_of_pos hp,
            List.map_cons, List.map_cons, List.sum_cons, List.sum_cons, ihl]
          ring
        · rw [List.filter_cons_of_neg hp, List.filter_cons_of_neg hp, ihl]

theorem applyPlan_ful_sum (pr : LineItem → Bool)
    (hpr : ∀ li x, pr { li with fulfilledQuantity := x } = pr li) :
    ∀ (plan : List (LineItem × Int)) (lis : List LineItem),
      (lis.map LineItem.lineItemId).Nodup →
      ((plan.map fun p => p.1.lineItemId).Nodup) →
      (∀ p ∈ plan, findBy LineItem.lineItemId p.1.lineItemId lis = some p.1) →
      (((applyPlan plan lis).filter pr).map LineItem.fulfilledQuantity).sum =
        ((lis.filter pr).map LineItem.fulfilledQuantity).sum +
          (plan.map fun p => if pr p.1 then p.2 else 0).sum := by
  intro plan
  induction plan with
  | nil => intro lis _ _ _; simp [applyPlan]
  | cons p ps ih =>
      intro lis hnd hpnd hfa
      rw [List.map_cons, List.nodup_cons] at hpnd
      have hrow := applyPlanRow_ful_sum pr hpr hnd (hfa p (List.mem_cons_self _ _))
      have hnd1 : ((applyPlanRow lis p).map LineItem.lineItemId).Nodup := by
        rw [applyPlanRow, map_proj_updWhere LineItem.lineItemId p.1.lineItemId
          (fun li => { li with fulfilledQuantity := p.1.fulfilledQuantity + p.2 })
          LineItem.lineItemId (fun _ => rfl)]
        exact hnd
      have hfa1 : ∀ q ∈ ps, findBy LineItem.lineItemId q.1.lineItemId
          (applyPlanRow lis p) = some q.1 := by
        intro q hq
        have hne : q.1.lineItemId ≠ p.1.lineItemId := by
          intro h
          have hmem : q.1.lineItemId ∈ ps.map fun x : LineItem × Int => x.1.lineItemId :=
            List.mem_map_of_mem _ hq
          rw [h] at hmem
          exact hpnd.1 hmem
        rw [applyPlanRow, @findBy_updWhere_ne _ LineItem.lineItemId p.1.lineItemId
          q.1.lineItemId
          (fun li => { li with fulfilledQuantity := p.1.fulfilledQuantity + p.2 }) lis
          (fun _ => rfl) hne]
        exact hfa q (List.mem_cons_of_mem _ hq)
      rw [applyPlan, List.foldl_cons]
      have := ih (applyPlanRow lis p) hnd1 hpnd.2 hfa1
      rw [applyPlan] at this
      rw [this, hrow, List.map_cons, List.sum_cons]
      ring

theorem applyPlan_itemOk :
    ∀ (plan : List (LineItem × Int)) (lis : List LineItem),
      (lis.map LineItem.lineItemId).Nodup →
      ((plan.map fun p => p.1.lineItemId).Nodup) →
      (∀ p ∈ plan, findBy LineItem.lineItemId p.1.lineItemId lis = some p.1) →
      (∀ p ∈ plan, 0 ≤ p.2 ∧ p.2 ≤ p.1.quantity - p.1.fulfilledQuantity) →
      (∀ li ∈ lis, 0 ≤ li.fulfilledQuantity ∧ li.fulfilledQuantity ≤ li.quantity) →
      ∀ li ∈ applyPlan plan lis, 0 ≤ li.fulfilledQuantity ∧ li.fulfilledQuantity ≤ li.quantity := by
  intro plan
  induction plan with
  | nil => intro lis _ _ _ _ hok li hli; exact hok li hli
  | cons p ps ih =>
      intro lis hnd hpnd hfa hpc hok
      rw [List.map_cons, List.nodup_cons] at hpnd
      have hfind := hfa p (List.mem_cons_self _ _)
      have hok1 : ∀ li ∈ applyPlanRow lis p,
          0 ≤ li.fulfilledQuantity ∧ li.fulfilledQuantity ≤ li.quantity := by
        intro li hli
        rcases mem_updWhere hli with hmem | ⟨x, hx, hk, rfl⟩
        · exact hok li hmem
        · have hxp : x = p.1 := findBy_unique hnd hx hk hfind
          have h1 := hok x hx
          have h2 := hpc p (List.mem_cons_self _ _)
          rw [hxp] at h1
          constructor
          · show 0 ≤ p.1.fulfilledQuantity + p.2
            omega
          · show p.1.fulfilledQuantity + p.2 ≤ x.quantity
            rw [hxp]
            omega
      have hnd1 : ((applyPlanRow lis p).map LineItem.lineItemId).Nodup := by
        rw [applyPlanRow, map_proj_updWhere LineItem.lineItemId p.1.lineItemId
          (fun li => { li with fulfilledQuantity := p.1.fulfilledQuantity + p.2 })
          LineItem.lineItemId (fun _ => rfl)]
        exact hnd
      have hfa1 : ∀ q ∈ ps, findBy LineItem.lineItemId q.1.lineItemId
          (applyPlanRow lis p) = some q.1 := by
        intro q hq
        have hne : q.1.lineItemId ≠ p.1.lineItemId := by
          intro h
          have hmem : q.1.lineItemId ∈ ps.map fun x : LineItem × Int => x.1.lineItemId :=
            List.mem_map_of_mem _ hq
          rw [h] at hmem
          exact hpnd.1 hmem
        rw [applyPlanRow, @findBy_updWhere_ne _ LineItem.lineItemId p.1.lineItemId
          q.1.lineItemId
          (fun li => { li with fulfilledQuantity := p.1.fulfilledQuantity + p.2 }) lis
          (fun _ => rfl) hne]
        exact hfa q (List.mem_cons_of_mem _ hq)
      intro li hli
      rw [applyPlan, List.foldl_cons] at hli
      exact ih (applyPlanRow lis p) hnd1 hpnd.2 hfa1
        (fun q hq => hpc q (List.mem_cons_of_mem _ hq)) hok1 li hli

theorem pairwise_ov_updWhere (k : String) (upd : LineItem → LineItem)
    (hupd : ∀ li, (upd li).orderId = li.orderId ∧ (upd li).variantId = li.variantId)
    {lis : List LineItem}
    (hp : lis.Pairwise fun a b => a.orderId = b.orderId → a.variantId ≠ b.variantId) :
    (updWhere LineItem.lineItemId k upd lis).Pairwise
      fun a b => a.orderId = b.orderId → a.variantId ≠ b.variantId := by
  unfold updWhere
  refine List.Pairwise.map _ ?_ hp
  intro a b hab
  by_cases ha : (a.lineItemId == k) = true <;> by_cases hb : (b.lineItemId == k) = true <;>
    simp only [ha, hb, if_true, if_false, (hupd a).1, (hupd a).2, (hupd b).1, (hupd b).2] <;>
    exact hab

theorem pairwise_ov_applyPlan :
    ∀ (plan : List (LineItem × Int)) (lis : List LineItem),
      (lis.Pairwise fun a b => a.orderId = b.orderId → a.variantId ≠ b.variantId) →
      (applyPlan plan lis).Pairwise
        fun a b => a.orderId = b.orderId → a.variantId ≠ b.variantId := by
  intro plan
  induction plan with
  | nil => intro lis hp; exact hp
  | cons p ps ih =>
      intro lis hp
      rw [applyPlan, List.foldl_cons]
      have hrow : (applyPlanRow lis p).Pairwise
          fun a b => a.orderId = b.orderId → a.variantId ≠ b.variantId := by
        unfold applyPlanRow
        exact pairwise_ov_updWhere p.1.lineItemId
          (fun li => { li with fulfilledQuantity := p.1.fulfilledQuantity + p.2 })
          (fun _ => ⟨rfl, rfl⟩) hp
      exact ih _ hrow

/-! ## Effect of a plan on the order table -/

theorem anyNonArchived_iff {orders : List Order} {oid : String} :
    anyNonArchived orders oid = true ↔
      ∃ o ∈ orders, o.orderId = oid ∧ o.status ≠ "archived" := by
  simp [anyNonArchived, List.any_eq_true]

theorem anyNonArchived_updWhere_nonarch {os : List Order} {k : String} {f : Order → Order}
    (hid : ∀ o, (f o).orderId = o.orderId)
    (hst : ∀ o, (f o).status ≠ "archived")
    (hpar : anyNonArchived os k = true) (oid : String) :
    anyNonArchived (updWhere Order.orderId k f os) oid = anyNonArchived os oid := by
  by_cases hk : oid = k
  · subst hk
    rw [hpar]
    rw [anyNonArchived_iff]
    rw [anyNonArchived_iff] at hpar
    obtain ⟨o, ho, hido, _⟩ := hpar
    refine ⟨if (o.orderId == oid) = true then f o else o, List.mem_map_of_mem _ ho, ?_, ?_⟩
    · simp [hido, hid]
    · simp [hido, hst]
  · have hiff : anyNonArchived (updWhere Order.orderId k f os) oid = true ↔
        anyNonArchived os oid = true := by
      rw [anyNonArchived_iff, anyNonArchived_iff]
      constructor
      · rintro ⟨y, hy, hidy, hsty⟩
        rcases mem_updWhere hy with hmem | ⟨x, hx, hkx, rfl⟩
        · exact ⟨y, hmem, hidy, hsty⟩
        · rw [hid, hkx] at hidy
          exact absurd hidy.symm hk
      · rintro ⟨x, hx, hidx, hstx⟩
        have hcond : (x.orderId == k) = false := by
          rw [hidx]
          exact beq_eq_false_iff_ne.2 hk
        refine ⟨if (x.orderId == k) = true then f x else x, List.mem_map_of_mem _ hx, ?_, ?_⟩
        · rw [hcond]
          simpa using hidx
        · rw [hcond]
          simpa using hstx
    rcases h1 : anyNonArchived (updWhere Order.orderId k f os) oid with _ | _ <;>
      rcases h2 : anyNonArchived os oid with _ | _
    · rfl
    · rw [h1] at hiff
      rw [h2] at hiff
      exact absurd (hiff.2 rfl) (fun h => by cases h)
    · rw [h1] at hiff
      rw [h2] at hiff
      exact absurd (hiff.1 rfl) (fun h => by cases h)
    · rfl

theorem applyPlanOrderRow_none {os : List Order} {p : LineItem × Int}
    (h : findBy Order.orderId p.1.orderId os = none) : applyPlanOrderRow os p = os := by
  unfold applyPlanOrderRow
  rw [h]

theorem applyPlanOrderRow_some {os : List Order} {p : LineItem × Int} {o : Order}
    (h : findBy Order.orderId p.1.orderId os = some o) :
    applyPlanOrderRow os p = updWhere Order.orderId p.1.orderId (fun x =>
      { x with fulfilledItems := o.fulfilledItems + p.2
               status := deriveOrderStatus (o.fulfilledItems + p.2) o.totalItems }) os := by
  unfold applyPlanOrderRow
  rw [h]

theorem anyNonArchived_applyPlanOrderRow {os : List Order} {p : LineItem × Int}
    (hpar : anyNonArchived os p.1.orderId = true) (oid : String) :
    anyNonArchived (applyPlanOrderRow os p) oid = anyNonArchived os oid := by
  rcases hfind : findBy Order.orderId p.1.orderId os with _ | o
  · rw [applyPlanOrderRow_none hfind]
  · rw [applyPlanOrderRow_some hfind]
    apply anyNonArchived_updWhere_nonarch
    · exact fun _ => rfl
    · exact fun x => deriveOrderStatus_ne_archived _ _
    · exact hpar

theorem anyNonArchived_applyPlanOrders :
    ∀ (plan : List (LineItem × Int)) (os : List Order),
      (∀ p ∈ plan, anyNonArchived os p.1.orderId = true) → ∀ oid,
        anyNonArchived (applyPlanOrders plan os) oid = anyNonArchived os oid := by
  intro plan
  induction plan with
  | nil => intro os _ oid; rfl
  | cons p ps ih =>
      intro os hpar oid
      rw [applyPlanOrders, List.foldl_cons]
      have hrow := anyNonArchived_applyPlanOrderRow (hpar p (List.mem_cons_self _ _))
      have hps : ∀ q ∈ ps, anyNonArchived (applyPlanOrderRow os p) q.1.orderId = true := by
        intro q hq
        rw [hrow]
        exact hpar q (List.mem_cons_of_mem _ hq)
      have := ih (applyPlanOrderRow os p) hps oid
      rw [applyPlanOrders] at this
      rw [this, hrow]

theorem map_orderId_applyPlanOrderRow (os : List Order) (p : LineItem × Int) :
    (applyPlanOrderRow os p).map Order.orderId = os.map Order.orderId := by
  rcases hfind : findBy Order.orderId p.1.orderId os with _ | o
  · rw [applyPlanOrderRow_none hfind]
  · rw [applyPlanOrderRow_some hfind]
    exact map_proj_updWhere Order.orderId p.1.orderId
      (fun x => { x with fulfilledItems := o.fulfilledItems + p.2
                         status := deriveOrderStatus (o.fulfilledItems + p.2) o.totalItems })
      Order.orderId (fun _ => rfl) os

theorem map_orderId_applyPlanOrders :
    ∀ (plan : List (LineItem × Int)) (os : List Order),
      (applyPlanOrders plan os).map Order.orderId = os.map Order.orderId := by
  intro plan
  induction plan with
  | nil => intro os; rfl
  | cons p ps ih =>
      intro os
      rw [applyPlanOrders, List.foldl_cons]
      have := ih (applyPlanOrderRow os p)
      rw [applyPlanOrders] at this
      rw [this, map_orderId_applyPlanOrderRow]

theorem findBy_applyPlanOrderRow_ne {os : List Order} {p : LineItem × Int} {oid : String}
    (h : oid ≠ p.1.orderId) :
    findBy Order.orderId oid (applyPlanOrderRow os p) = findBy Order.orderId oid os := by
  rcases hfind : findBy Order.orderId p.1.orderId os with _ | o
  · rw [applyPlanOrderRow_none hfind]
  · rw [applyPlanOrderRow_some hfind]
    exact findBy_updWhere_ne Order.orderId p.1.orderId oid
      (fun x => { x with fulfilledItems := o.fulfilledItems + p.2
                         status := deriveOrderStatus (o.fulfilledItems + p.2) o.totalItems })
      os (fun _ => rfl) h

theorem findBy_applyPlanOrderRow_self {os : List Order} {p : LineItem × Int} {o : Order}
    (hfind : findBy Order.orderId p.1.orderId os = some o) :
    findBy Order.orderId p.1.orderId (applyPlanOrderRow os p) =
      some { o with fulfilledItems := o.fulfilledItems + p.2
                    status := deriveOrderStatus (o.fulfilledItems + p.2) o.totalItems } := by
  rw [applyPlanOrderRow_some hfind]
  rw [findBy_updWhere_self Order.orderId p.1.orderId
    (fun x => { x with fulfilledItems := o.fulfilledItems + p.2
                       status := deriveOrderStatus (o.fulfilledItems + p.2) o.totalItems })
    os (fun _ => rfl), hfind]
  rfl

theorem applyPlanOrderRow_derived {os : List Order} {p : LineItem × Int}
    (hnd : (os.map Order.orderId).Nodup)
    (h : ∀ o ∈ os, o.status ≠ "archived" →
      o.status = deriveOrderStatus o.fulfilledItems o.totalItems) :
    ∀ o2 ∈ applyPlanOrderRow os p, o2.status ≠ "archived" →
      o2.status = deriveOrderStatus o2.fulfilledItems o2.totalItems := by
  intro o2 ho2 hna
  rcases hfind : findBy Order.orderId p.1.orderId os with _ | o
  · rw [applyPlanOrderRow_none hfind] at ho2
    exact h o2 ho2 hna
  · rw [applyPlanOrderRow_some hfind] at ho2
    rcases mem_updWhere ho2 with hmem | ⟨x, hx, hkx, rfl⟩
    · exact h o2 hmem hna
    · have hxo : x = o := findBy_unique hnd hx hkx hfind
      subst hxo
      rfl

theorem applyPlanOrders_keeps_fulfilled :
    ∀ (plan : List (LineItem × Int)) (os : List Order) (oid : String) (o : Order),
      (∀ p ∈ plan, 0 ≤ p.2) →
      findBy Order.orderId oid os = some o → o.status = "fulfilled" →
      o.totalItems ≤ o.fulfilledItems →
      ∃ o2, findBy Order.orderId oid (applyPlanOrders plan os) = some o2 ∧
        o2.status = "fulfilled" ∧ o2.totalItems ≤ o2.fulfilledItems ∧
        o2.orderName = o.orderName := by
  intro plan
  induction plan with
  | nil =>
      intro os oid o _ hfind hst hle
      exact ⟨o, hfind, hst, hle, rfl⟩
  | cons p ps ih =>
      intro os oid o hpc hfind hst hle
      rw [applyPlanOrders, List.foldl_cons]
      have hpc2 : ∀ q ∈ ps, 0 ≤ q.2 := fun q hq => hpc q (List.mem_cons_of_mem _ hq)
      by_cases hoid : oid = p.1.orderId
      · subst hoid
        have hself := findBy_applyPlanOrderRow_self hfind
        have hc : 0 ≤ p.2 := hpc p (List.mem_cons_self _ _)
        have hful : deriveOrderStatus (o.fulfilledItems + p.2) o.totalItems = "fulfilled" :=
          (deriveOrderStatus_eq_fulfilled_iff _ _).2 (by omega)
        have := ih (applyPlanOrderRow os p) p.1.orderId _ hpc2 hself hful
          (by show o.totalItems ≤ o.fulfilledItems + p.2; omega)
        rw [applyPlanOrders] at this
        obtain ⟨o2, h1, h2, h3, h4⟩ := this
        exact ⟨o2, h1, h2, h3, h4⟩
      · have hne := @findBy_applyPlanOrderRow_ne os p oid hoid
        have := ih (applyPlanOrderRow os p) oid o hpc2 (by rw [hne]; exact hfind) hst hle
        rw [applyPlanOrders] at this
        exact this

theorem reportOne_none {os : List Order} {p : LineItem × Int}
    (h : findBy Order.orderId p.1.orderId os = none) : reportOne os p = [] := by
  unfold reportOne
  rw [h]

theorem reportOne_some {os : List Order} {p : LineItem × Int} {o : Order}
    (h : findBy Order.orderId p.1.orderId os = some o) :
    reportOne os p =
      if (deriveOrderStatus (o.fulfilledItems + p.2) o.totalItems == "fulfilled" &&
          o.status != "fulfilled") = true then
        [{ orderId := o.orderId, orderName := o.orderName }]
      else [] := by
  unfold reportOne
  rw [h]

theorem planReport_spec :
    ∀ (plan : List (LineItem × Int)) (os : List Order),
      (os.map Order.orderId).Nodup →
      (∀ o ∈ os, o.status ≠ "archived" →
        o.status = deriveOrderStatus o.fulfilledItems o.totalItems) →
      (∀ p ∈ plan, anyNonArchived os p.1.orderId = true) →
      (∀ p ∈ plan, 0 ≤ p.2) →
      ((planReport os plan).map FulfilledOrderRef.orderId).Nodup ∧
      (∀ ref ∈ planReport os plan, ∃ o,
        findBy Order.orderId ref.orderId os = some o ∧ o.orderName = ref.orderName ∧
        o.status ≠ "fulfilled" ∧
        ∃ o2, findBy Order.orderId ref.orderId (applyPlanOrders plan os) = some o2 ∧
          o2.status = "fulfilled") ∧
      (∀ oid o o2, findBy Order.orderId oid os = some o → o.status ≠ "fulfilled" →
        findBy Order.orderId oid (applyPlanOrders plan os) = some o2 →
        o2.status = "fulfilled" → ∃ ref ∈ planReport os plan, ref.orderId = oid) := by
  intro plan
  induction plan with
  | nil =>
      intro os hnd hcons hpar hpc
      refine ⟨by simp [planReport], by simp [planReport], ?_⟩
      intro oid o o2 h1 h2 h3 h4
      have h13 : some o = some o2 := h1.symm.trans h3
      cases h13
      exact absurd h4 h2
  | cons p ps ih =>
      intro os hnd hcons hpar hpc
      have hpar_p := hpar p (List.mem_cons_self _ _)
      have hpc_p := hpc p (List.mem_cons_self _ _)
      rcases hfind : findBy Order.orderId p.1.orderId os with _ | o
      · exfalso
        rw [anyNonArchived_iff] at hpar_p
        obtain ⟨x, hx, hidx, _⟩ := hpar_p
        have hsome := findBy_isSome hx hidx
        rw [hfind] at hsome
        cases hsome
      · have hkey : o.orderId = p.1.orderId := findBy_key hfind
        have h_o_na : o.status ≠ "archived" := by
          rw [anyNonArchived_iff] at hpar_p
          obtain ⟨x, hx, hidx, hstx⟩ := hpar_p
          have hxo := findBy_unique hnd hx hidx hfind
          rw [← hxo]
          exact hstx
        have h_o_cons : o.status = deriveOrderStatus o.fulfilledItems o.totalItems :=
          hcons o (findBy_mem hfind) h_o_na
        have hself := findBy_applyPlanOrderRow_self hfind
        have hnd2 : ((applyPlanOrderRow os p).map Order.orderId).Nodup := by
          rw [map_orderId_applyPlanOrderRow]
          exact hnd
        have hcons2 := @applyPlanOrderRow_derived os p hnd hcons
        have hpar2 : ∀ q ∈ ps, anyNonArchived (applyPlanOrderRow os p) q.1.orderId = true := by
          intro q hq
          rw [anyNonArchived_applyPlanOrderRow hpar_p]
          exact hpar q (List.mem_cons_of_mem _ hq)
        have hpc2 : ∀ q ∈ ps, 0 ≤ q.2 := fun q hq => hpc q (List.mem_cons_of_mem _ hq)
        obtain ⟨ih1, ih2, ih3⟩ := ih (applyPlanOrderRow os p) hnd2 hcons2 hpar2 hpc2
        have hrep : planReport os (p :: ps) =
            reportOne os p ++ planReport (applyPlanOrderRow os p) ps := rfl
        have happly : applyPlanOrders (p :: ps) os = applyPlanOrders ps (applyPlanOrderRow os p) :=
          rfl
        by_cases hpush : deriveOrderStatus (o.fulfilledItems + p.2) o.totalItems = "fulfilled" ∧
            o.status ≠ "fulfilled"
        · -- this step reports the order
          have hcond : (deriveOrderStatus (o.fulfilledItems + p.2) o.totalItems == "fulfilled" &&
              o.status != "fulfilled") = true := by
            simp [hpush.1, hpush.2]
          have hrep1 : reportOne os p = [{ orderId := o.orderId, orderName := o.orderName }] := by
            rw [reportOne_some hfind, if_pos hcond]
          have hle : o.totalItems ≤ o.fulfilledItems + p.2 :=
            (deriveOrderStatus_eq_fulfilled_iff _ _).1 hpush.1
          have hkeeps := applyPlanOrders_keeps_fulfilled ps (applyPlanOrderRow os p)
            p.1.orderId _ hpc2 hself hpush.1
            (by show o.totalItems ≤ o.fulfilledItems + p.2; exact hle)
          obtain ⟨o2, ho2find, ho2st, _, _⟩ := hkeeps
          refine ⟨?_, ?_, ?_⟩
          · rw [hrep, hrep1]
            rw [List.cons_append, List.nil_append, List.map_cons, List.nodup_cons]
            refine ⟨?_, ih1⟩
            intro hmem
            rcases List.mem_map.1 hmem with ⟨ref2, href2, hid2⟩
            obtain ⟨o', ho'find, _, ho'nf, _⟩ := ih2 ref2 href2
            rw [hid2, hkey, hself] at ho'find
            cases ho'find
            exact ho'nf hpush.1
          · intro ref href
            rw [hrep, hrep1, List.cons_append, List.nil_append, List.mem_cons] at href
            rcases href with rfl | href
            · refine ⟨o, ?_, rfl, hpush.2, o2, ?_, ho2st⟩
              · show findBy Order.orderId o.orderId os = some o
                rw [hkey]
                exact hfind
              · show findBy Order.orderId o.orderId (applyPlanOrders (p :: ps) os) = some o2
                rw [happly, hkey]
                exact ho2find
            · obtain ⟨o', ho'find, ho'nm, ho'nf, o2x, ho2xfind, ho2xst⟩ := ih2 ref href
              by_cases hrid : ref.orderId = p.1.orderId
              · rw [hrid, hself] at ho'find
                cases ho'find
                exact absurd hpush.1 ho'nf
              · rw [findBy_applyPlanOrderRow_ne hrid] at ho'find
                exact ⟨o', ho'find, ho'nm, ho'nf, o2x, by rw [happly]; exact ho2xfind, ho2xst⟩
          · intro oid o0 o2f hfind0 h0nf hfindf h2fst
            rw [happly] at hfindf
            by_cases hoid : oid = p.1.orderId
            · refine ⟨{ orderId := o.orderId, orderName := o.orderName }, ?_, ?_⟩
              · rw [hrep, hrep1]
                exact List.mem_cons_self _ _
              · show o.orderId = oid
                rw [hkey, hoid]
            · have hne2 := @findBy_applyPlanOrderRow_ne os p oid hoid
              obtain ⟨ref, href, hrid⟩ := ih3 oid o0 o2f (by rw [hne2]; exact hfind0)
                h0nf hfindf h2fst
              refine ⟨ref, ?_, hrid⟩
              rw [hrep, hrep1, List.cons_append, List.nil_append]
              exact List.mem_cons_of_mem _ href
        · -- no report at this step
          have hcond : (deriveOrderStatus (o.fulfilledItems + p.2) o.totalItems == "fulfilled" &&
              o.status != "fulfilled") = false := by
            rcases not_and_or.1 hpush with h | h
            · simp [h]
            · simp [Decidable.not_not.1 h]
          have hrep1 : reportOne os p = [] := by
            rw [reportOne_some hfind]
            rw [hcond]
            rfl
          refine ⟨?_, ?_, ?_⟩
          · rw [hrep, hrep1, List.nil_append]
            exact ih1
          · intro ref href
            rw [hrep, hrep1, List.nil_append] at href
            obtain ⟨o', ho'find, ho'nm, ho'nf, o2x, ho2xfind, ho2xst⟩ := ih2 ref href
            by_cases hrid : ref.orderId = p.1.orderId
            · rw [hrid, hself] at ho'find
              cases ho'find
              refine ⟨o, by rw [hrid]; exact hfind, ho'nm, ?_, o2x,
                by rw [happly]; exact ho2xfind, ho2xst⟩
              intro hof
              apply ho'nf
              have hto : o.totalItems ≤ o.fulfilledItems := by
                rw [hof] at h_o_cons
                exact (deriveOrderStatus_eq_fulfilled_iff _ _).1 h_o_cons.symm
              exact (deriveOrderStatus_eq_fulfilled_iff _ _).2 (by omega)
            · rw [findBy_applyPlanOrderRow_ne hrid] at ho'find
              exact ⟨o', ho'find, ho'nm, ho'nf, o2x, by rw [happly]; exact ho2xfind, ho2xst⟩
          · intro oid o0 o2f hfind0 h0nf hfindf h2fst
            rw [happly] at hfindf
            by_cases hoid : oid = p.1.orderId
            · have ho0 : o0 = o := by
                rw [hoid, hfind] at hfind0
                cases hfind0
                rfl
              rcases not_and_or.1 hpush with h | h
              · obtain ⟨ref, href, hrid⟩ := ih3 oid _ o2f
                  (by rw [hoid]; exact hself) (by simpa using h) hfindf h2fst
                exact ⟨ref, by rw [hrep, hrep1, List.nil_append]; exact href, hrid⟩
              · rw [ho0] at h0nf
                exact absurd (Decidable.not_not.1 h) h0nf
            · obtain ⟨ref, href, hrid⟩ := ih3 oid o0 o2f
                (by rw [findBy_applyPlanOrderRow_ne hoid]; exact hfind0) h0nf hfindf h2fst
              exact ⟨ref, by rw [hrep, hrep1, List.nil_append]; exact href, hrid⟩

/-! ## Characterization of archive and unarchive task reallocation -/

theorem filterMap_some_of {f : α → Option α} {l : List α} (h : ∀ x ∈ l, f x = some x) :
    l.filterMap f = l := by
  induction l with
  | nil => rfl
  | cons a l ih =>
      rw [List.filterMap_cons_some (h a (List.mem_cons_self _ _)),
        ih fun x hx => h x (List.mem_cons_of_mem _ hx)]

theorem filterMap_congr_mem {f g : α → Option β} {l : List α}
    (h : ∀ x ∈ l, f x = g x) : l.filterMap f = l.filterMap g := by
  induction l with
  | nil => rfl
  | cons a l ih =>
      have ha := h a (List.mem_cons_self _ _)
      have ihl := ih fun x hx => h x (List.mem_cons_of_mem _ hx)
      rw [List.filterMap_cons, List.filterMap_cons, ha, ihl]

theorem delWhere_eq_filterMap (key : α → String) (k : String) (l : List α) :
    delWhere key k l = l.filterMap fun x => if key x = k then none else some x := by
  induction l with
  | nil => rfl
  | cons a l ih =>
      by_cases ha : key a = k
      · rw [delWhere, List.filter_cons_of_neg (by simp [ha]),
          List.filterMap_cons_none (by rw [if_pos ha])]
        exact ih
      · rw [delWhere, List.filter_cons_of_pos (by simp [ha]),
          List.filterMap_cons_some (by rw [if_neg ha])]
        rw [delWhere] at ih
        rw [ih]

theorem updWhere_eq_filterMap (key : α → String) (k : String) (f : α → α) (l : List α) :
    updWhere key k f l = l.filterMap fun x => if key x = k then some (f x) else some x := by
  induction l with
  | nil => rfl
  | cons a l ih =>
      by_cases ha : key a = k
      · rw [updWhere, List.map_cons, if_pos (by simp [ha]),
          List.filterMap_cons_some (by rw [if_pos ha])]
        rw [updWhere] at ih
        rw [ih]
      · rw [updWhere, List.map_cons, if_neg (by simp [ha]),
          List.filterMap_cons_some (by rw [if_neg ha])]
        rw [updWhere] at ih
        rw [ih]

theorem filter_eq_singleton {l : List α} {i : α} {pr : α → Bool} (hnd : l.Nodup)
    (hi : i ∈ l) (hpri : pr i = true) (huniq : ∀ x ∈ l, pr x = true → x = i) :
    l.filter pr = [i] := by
  induction l with
  | nil => cases hi
  | cons a l ih =>
      rw [List.nodup_cons] at hnd
      rcases List.mem_cons.1 hi with rfl | hil
      · rw [List.filter_cons_of_pos hpri]
        have : l.filter pr = [] := by
          rw [List.filter_eq_nil]
          intro x hx hprx
          have := huniq x (List.mem_cons_of_mem _ hx) hprx
          exact absurd (this ▸ hx) hnd.1
        rw [this]
      · have ha : pr a = false := by
          rcases h : pr a with _ | _
          · rfl
          · exact absurd (huniq a (List.mem_cons_self _ _) h ▸ hil) hnd.1
        rw [List.filter_cons_of_neg (by rw [ha]; exact fun h => by cases h)]
        exact ih hnd.2 hil fun x hx => huniq x (List.mem_cons_of_mem _ hx)

theorem pairwise_ov_unique {l : List LineItem}
    (hp : l.Pairwise fun a b => a.orderId = b.orderId → a.variantId ≠ b.variantId)
    {x y : LineItem} (hx : x ∈ l) (hy : y ∈ l) (ho : x.orderId = y.orderId)
    (hv : x.variantId = y.variantId) : x = y := by
  by_cases hxy : x = y
  · exact hxy
  · have hsym : Symmetric fun a b : LineItem =>
        a.orderId = b.orderId → a.variantId ≠ b.variantId := by
      intro a b hab hba hvv
      exact hab hba.symm hvv.symm
    have := (hp.forall hsym) hx hy hxy ho
    exact absurd hv this

theorem deallocTask1_var {t : Task} {i : LineItem} {t2 : Task}
    (h : deallocTask1 t i = some t2) : t2.variantId = t.variantId := by
  unfold deallocTask1 at h
  by_cases hz : max 0 (t.totalQuantity - i.quantity) = 0
  · rw [if_pos hz] at h
    cases h
  · rw [if_neg hz] at h
    cases h
    rfl

theorem archiveDeallocStep_char {ts : List Task} (hnd : (ts.map Task.variantId).Nodup)
    (i : LineItem) :
    archiveDeallocStep ts i = ts.filterMap fun t =>
      if t.variantId = i.variantId then deallocTask1 t i else some t := by
  unfold archiveDeallocStep
  rcases hfind : findBy Task.variantId i.variantId ts with _ | task
  · rw [findBy_eq_none] at hfind
    rw [filterMap_some_of]
    intro t ht
    rw [if_neg (hfind t ht)]
  · have hkey : task.variantId = i.variantId := findBy_key hfind
    show (if max 0 (task.totalQuantity - i.quantity) = 0 then
        delWhere Task.variantId i.variantId ts
      else updWhere Task.variantId i.variantId (fun t =>
        { t with madeQuantity := max 0 (task.madeQuantity - i.fulfilledQuantity)
                 totalQuantity := max 0 (task.totalQuantity - i.quantity)
                 status := deriveTaskStatus (max 0 (task.madeQuantity - i.fulfilledQuantity))
                   (max 0 (task.totalQuantity - i.quantity)) }) ts) =
      ts.filterMap fun t => if t.variantId = i.variantId then deallocTask1 t i else some t
    by_cases hz : max 0 (task.totalQuantity - i.quantity) = 0
    · rw [if_pos hz, delWhere_eq_filterMap]
      apply filterMap_congr_mem
      intro t ht
      by_cases htv : t.variantId = i.variantId
      · have hti : t = task := findBy_unique hnd ht htv hfind
        rw [if_pos htv, if_pos htv, hti]
        unfold deallocTask1
        rw [if_pos hz]
      · rw [if_neg htv, if_neg htv]
    · rw [if_neg hz, updWhere_eq_filterMap]
      apply filterMap_congr_mem
      intro t ht
      by_cases htv : (t.variantId == i.variantId) = true
      · have htv2 : t.variantId = i.variantId := by simpa using htv
        have hti : t = task := findBy_unique hnd ht htv2 hfind
        rw [if_pos htv2, if_pos htv2, hti]
        unfold deallocTask1
        rw [if_neg hz]
      · have htv2 : ¬ t.variantId = i.variantId := by simpa using htv
        rw [if_neg htv2, if_neg htv2]

theorem unarchiveReallocStep_char {ts : List Task} (hnd : (ts.map Task.variantId).Nodup)
    (i : LineItem) :
    unarchiveReallocStep ts i =
      if (findBy Task.variantId i.variantId ts).isSome then
        ts.map fun t => if t.variantId = i.variantId then reallocTask1 t i else t
      else ts ++ [taskFromLineItem i] := by
  unfold unarchiveReallocStep
  rcases hfind : findBy Task.variantId i.variantId ts with _ | task
  · simp only [Option.isSome_none, Bool.false_eq_true, if_false]
    unfold upsertTaskRow
    have hany : (ts.any fun x => x.variantId == i.variantId) = false := by
      rw [List.any_eq_false]
      intro x hx
      rw [findBy_eq_none] at hfind
      simpa using hfind x hx
    rw [hany]
    simp only [Bool.false_eq_true, if_false]
    rfl
  · rw [if_pos (show (some task).isSome = true from rfl)]
    show updWhere Task.variantId i.variantId (fun t =>
        { t with madeQuantity := task.madeQuantity + i.fulfilledQuantity
                 totalQuantity := task.totalQuantity + i.quantity
                 status := deriveTaskStatus (task.madeQuantity + i.fulfilledQuantity)
                   (task.totalQuantity + i.quantity) }) ts =
      ts.map fun t => if t.variantId = i.variantId then reallocTask1 t i else t
    rw [updWhere_eq_filterMap]
    rw [show (ts.map fun t => if t.variantId = i.variantId then reallocTask1 t i else t) =
      ts.filterMap fun t =>
        some (if t.variantId = i.variantId then reallocTask1 t i else t) from
      (List.filterMap_eq_map _ ▸ rfl)]
    apply filterMap_congr_mem
    intro t ht
    by_cases htv : t.variantId = i.variantId
    · have hti : t = task := findBy_unique hnd ht htv hfind
      rw [if_pos htv, if_pos htv, hti]
      rfl
    · rw [if_neg htv, if_neg htv]

theorem map_congr_mem {f g : α → β} {l : List α} (h : ∀ x ∈ l, f x = g x) :
    l.map f = l.map g := by
  induction l with
  | nil => rfl
  | cons a l ih =>
      rw [List.map_cons, List.map_cons, h a (List.mem_cons_self _ _),
        ih fun x hx => h x (List.mem_cons_of_mem _ hx)]

theorem findBy_map_keyPres {key : α → String} {v : String} (u : α → α)
    (hu : ∀ x, key (u x) = key x) (l : List α) :
    findBy key v (l.map u) = (findBy key v l).map u := by
  induction l with
  | nil => rfl
  | cons a l ih =>
      by_cases ha : key a = v
      · simp [findBy, List.find?_cons, hu, ha]
      · simp [findBy, List.find?_cons, hu, ha] at ih ⊢
        exact ih

theorem archiveDeallocStep_nodup {ts : List Task} (hnd : (ts.map Task.variantId).Nodup)
    (i : LineItem) : ((archiveDeallocStep ts i).map Task.variantId).Nodup := by
  unfold archiveDeallocStep
  rcases hfind : findBy Task.variantId i.variantId ts with _ | task
  · exact hnd
  · show ((if max 0 (task.totalQuantity - i.quantity) = 0 then
        delWhere Task.variantId i.variantId ts
      else updWhere Task.variantId i.variantId (fun t =>
        { t with madeQuantity := max 0 (task.madeQuantity - i.fulfilledQuantity)
                 totalQuantity := max 0 (task.totalQuantity - i.quantity)
                 status := deriveTaskStatus (max 0 (task.madeQuantity - i.fulfilledQuantity))
                   (max 0 (task.totalQuantity - i.quantity)) }) ts).map Task.variantId).Nodup
    by_cases hz : max 0 (task.totalQuantity - i.quantity) = 0
    · rw [if_pos hz]
      exact ((List.filter_sublist _).map Task.variantId).nodup hnd
    · rw [if_neg hz]
      rw [map_proj_updWhere Task.variantId i.variantId (fun t =>
        { t with madeQuantity := max 0 (task.madeQuantity - i.fulfilledQuantity)
                 totalQuantity := max 0 (task.totalQuantity - i.quantity)
                 status := deriveTaskStatus (max 0 (task.madeQuantity - i.fulfilledQuantity))
                   (max 0 (task.totalQuantity - i.quantity)) })
        Task.variantId (fun _ => rfl)]
      exact hnd

theorem archiveFold_nodup :
    ∀ (items : List LineItem) (ts : List Task), (ts.map Task.variantId).Nodup →
      ((items.foldl archiveDeallocStep ts).map Task.variantId).Nodup := by
  intro items
  induction items with
  | nil => intro ts hnd; exact hnd
  | cons i is ih =>
      intro ts hnd
      rw [List.foldl_cons]
      exact ih _ (archiveDeallocStep_nodup hnd i)

theorem archiveFold_char :
    ∀ (items : List LineItem) (ts : List Task),
      (ts.map Task.variantId).Nodup → (items.map LineItem.variantId).Nodup →
      items.foldl archiveDeallocStep ts = ts.filterMap fun t =>
        match items.find? (fun i => i.variantId == t.variantId) with
        | none => some t
        | some i => deallocTask1 t i := by
  intro items
  induction items with
  | nil =>
      intro ts hnd _
      rw [List.foldl_nil]
      symm
      apply filterMap_some_of
      intro t _
      rfl
  | cons i is ih =>
      intro ts hnd hvar
      rw [List.map_cons, List.nodup_cons] at hvar
      rw [List.foldl_cons]
      have hnd1 := archiveDeallocStep_nodup hnd i
      rw [ih _ hnd1 hvar.2, archiveDeallocStep_char hnd i, List.filterMap_filterMap]
      apply filterMap_congr_mem
      intro t ht
      by_cases htv : t.variantId = i.variantId
      · rw [if_pos htv, List.find?_cons_of_pos _ (by simp [htv])]
        rcases hd : deallocTask1 t i with _ | t2
        · show (none : Option Task).bind _ = deallocTask1 t i
          rw [hd]
          rfl
        · have ht2v : t2.variantId = i.variantId := by rw [deallocTask1_var hd, htv]
          have hfind_is : is.find? (fun j => j.variantId == t2.variantId) = none := by
            rw [List.find?_eq_none]
            intro j hj
            simp only [beq_iff_eq]
            intro hjv
            apply hvar.1
            rw [← ht2v, ← hjv]
            exact List.mem_map_of_mem _ hj
          show (some t2).bind _ = deallocTask1 t i
          rw [hd, Option.some_bind]
          show (match is.find? (fun j => j.variantId == t2.variantId) with
            | none => some t2
            | some j => deallocTask1 t2 j) = some t2
          rw [hfind_is]
      · rw [if_neg htv, List.find?_cons_of_neg _ (by simp; exact fun h => htv h.symm)]
        rfl

theorem unarchiveFold_char :
    ∀ (items : List LineItem) (ts : List Task),
      (ts.map Task.variantId).Nodup → (items.map LineItem.variantId).Nodup →
      items.foldl unarchiveReallocStep ts =
        (ts.map fun t => match items.find? (fun i => i.variantId == t.variantId) with
          | none => t
          | some i => reallocTask1 t i) ++
        (items.filter fun i => !(findBy Task.variantId i.variantId ts).isSome).map
          taskFromLineItem := by
  intro items
  induction items with
  | nil =>
      intro ts hnd _
      rw [List.foldl_nil, List.filter_nil, List.map_nil, List.append_nil]
      symm
      have : ∀ t ∈ ts, (match (List.find? (fun i => i.variantId == t.variantId) []) with
          | none => t
          | some i => reallocTask1 t i) = id t := by
        intro t _
        rfl
      rw [map_congr_mem this, List.map_id]
  | cons i is ih =>
      intro ts hnd hvar
      rw [List.map_cons, List.nodup_cons] at hvar
      rw [List.foldl_cons, unarchiveReallocStep_char hnd i]
      rcases hfind : findBy Task.variantId i.variantId ts with _ | task
      · -- task absent: recreate, appended at the end
        rw [if_neg (by simp)]
        have hkeys : ((ts ++ [taskFromLineItem i]).map Task.variantId).Nodup := by
          rw [List.map_append]
          refine List.Nodup.append hnd (by simp) ?_
          intro v hv hv2
          simp only [List.map_cons, List.map_nil, List.mem_singleton] at hv2
          rw [findBy_eq_none] at hfind
          rcases List.mem_map.1 hv with ⟨t, ht, rfl⟩
          exact hfind t ht (by simpa using hv2)
        rw [ih _ hkeys hvar.2]
        have hnomatch : ∀ t ∈ ts, t.variantId ≠ i.variantId := by
          rw [findBy_eq_none] at hfind
          exact hfind
        -- the mapped part over ts ++ [recreated]
        rw [List.map_append]
        have hmk : ((([taskFromLineItem i]).map fun t =>
            match is.find? (fun j => j.variantId == t.variantId) with
            | none => t
            | some j => reallocTask1 t j)) = [taskFromLineItem i] := by
          rw [List.map_cons, List.map_nil]
          have hf2 : is.find? (fun j => j.variantId == i.variantId) = none := by
            rw [List.find?_eq_none]
            intro j hj
            simp only [beq_iff_eq]
            intro hjv
            apply hvar.1
            rw [← hjv]
            exact List.mem_map_of_mem _ hj
          rw [show List.find? (fun j => j.variantId == (taskFromLineItem i).variantId) is =
            none from hf2]
        rw [hmk]
        have hmap : (ts.map fun t =>
            match is.find? (fun j => j.variantId == t.variantId) with
            | none => t
            | some j => reallocTask1 t j) =
            ts.map fun t =>
              match (i :: is).find? (fun j => j.variantId == t.variantId) with
              | none => t
              | some j => reallocTask1 t j := by
          apply map_congr_mem
          intro t ht
          rw [List.find?_cons_of_neg _ (by
            simp only [beq_iff_eq]
            exact fun h => hnomatch t ht h.symm)]
        rw [hmap]
        have hfilt : (is.filter fun j =>
            !(findBy Task.variantId j.variantId (ts ++ [taskFromLineItem i])).isSome) =
            is.filter fun j => !(findBy Task.variantId j.variantId ts).isSome := by
          apply filter_congr_mem
          intro j hj
          have hjv : j.variantId ≠ i.variantId := by
            intro h
            apply hvar.1
            rw [← h]
            exact List.mem_map_of_mem _ hj
          rw [findBy_append]
          rcases findBy Task.variantId j.variantId ts with _ | x
          · show (!(findBy Task.variantId j.variantId [taskFromLineItem i]).isSome) = _
            have : findBy Task.variantId j.variantId [taskFromLineItem i] = none := by
              rw [findBy_eq_none]
              intro x hx
              simp only [List.mem_singleton] at hx
              subst hx
              exact fun h => hjv h.symm
            rw [this]
          · rfl
        rw [hfilt]
        have hhead : ((i :: is).filter fun j =>
            !(findBy Task.variantId j.variantId ts).isSome) =
            i :: (is.filter fun j => !(findBy Task.variantId j.variantId ts).isSome) := by
          rw [List.filter_cons_of_pos (by rw [hfind]; rfl)]
        rw [hhead, List.map_cons, List.append_assoc, List.singleton_append]
      · -- task present: update in place
        rw [if_pos (show (some task).isSome = true from rfl)]
        have hkeys : ((ts.map fun t => if t.variantId = i.variantId then reallocTask1 t i
            else t).map Task.variantId).Nodup := by
          rw [List.map_map]
          have : (Task.variantId ∘ fun t => if t.variantId = i.variantId then reallocTask1 t i
              else t) = Task.variantId := by
            funext t
            show (if t.variantId = i.variantId then reallocTask1 t i else t).variantId =
              t.variantId
            by_cases htv : t.variantId = i.variantId
            · rw [if_pos htv]
              rfl
            · rw [if_neg htv]
          rw [this]
          exact hnd
        rw [ih _ hkeys hvar.2]
        have hmap : ((ts.map fun t => if t.variantId = i.variantId then reallocTask1 t i
            else t).map fun t =>
              match is.find? (fun j => j.variantId == t.variantId) with
              | none => t
              | some j => reallocTask1 t j) =
            ts.map fun t =>
              match (i :: is).find? (fun j => j.variantId == t.variantId) with
              | none => t
              | some j => reallocTask1 t j := by
          rw [List.map_map]
          apply map_congr_mem
          intro t ht
          simp only [Function.comp_apply]
          by_cases htv : t.variantId = i.variantId
          · rw [if_pos htv]
            have hfis : is.find? (fun j => j.variantId == (reallocTask1 t i).variantId) =
                none := by
              rw [List.find?_eq_none]
              intro j hj
              simp only [beq_iff_eq]
              intro hjv
              apply hvar.1
              have hjv2 : j.variantId = i.variantId := by
                rw [hjv]
                exact htv
              rw [← hjv2]
              exact List.mem_map_of_mem _ hj
            rw [hfis, List.find?_cons_of_pos _ (by simp [htv])]
          · rw [if_neg htv, List.find?_cons_of_neg _ (by
              simp only [beq_iff_eq]
              exact fun h => htv h.symm)]
        rw [hmap]
        have hfilt : (is.filter fun j => !(findBy Task.variantId j.variantId
            (ts.map fun t => if t.variantId = i.variantId then reallocTask1 t i else t)).isSome) =
            is.filter fun j => !(findBy Task.variantId j.variantId ts).isSome := by
          apply filter_congr_mem
          intro j hj
          rw [findBy_map_keyPres (fun t => if t.variantId = i.variantId then reallocTask1 t i
            else t) (fun t => by
              show (if t.variantId = i.variantId then reallocTask1 t i else t).variantId =
                t.variantId
              by_cases htv : t.variantId = i.variantId
              · rw [if_pos htv]
                rfl
              · rw [if_neg htv]) ts]
          rcases findBy Task.variantId j.variantId ts with _ | x
          · rfl
          · rfl
        rw [hfilt]
        have hhead : ((i :: is).filter fun j =>
            !(findBy Task.variantId j.variantId ts).isSome) =
            is.filter fun j => !(findBy Task.variantId j.variantId ts).isSome := by
          rw [List.filter_cons_of_neg (by rw [hfind]; simp)]
        rw [hhead]

/-! ## Sums of non-archived line items under archive and unarchive -/

theorem mem_updWhere2 {key : α → String} {k : String} {f : α → α} {l : List α} {y : α}
    (hy : y ∈ updWhere key k f l) :
    (y ∈ l ∧ key y ≠ k) ∨ ∃ x ∈ l, key x = k ∧ y = f x := by
  rcases List.mem_map.1 hy with ⟨x, hx, hxy⟩
  by_cases hk : key x = k
  · right
    exact ⟨x, hx, hk, by simpa [hk] using hxy.symm⟩
  · left
    have hyx : x = y := by simpa [hk] using hxy
    subst hyx
    exact ⟨hx, hk⟩

theorem anyNonArchived_updWhere_ne (os : List Order) (k : String) (f : Order → Order)
    (hid : ∀ o, (f o).orderId = o.orderId) {oid : String} (h : oid ≠ k) :
    anyNonArchived (updWhere Order.orderId k f os) oid = anyNonArchived os oid := by
  induction os with
  | nil => rfl
  | cons a os ih =>
      unfold anyNonArchived at ih ⊢
      unfold updWhere at ih ⊢
      rw [List.map_cons, List.any_cons, List.any_cons]
      rw [ih]
      by_cases ha : (a.orderId == k) = true
      · rw [if_pos ha]
        have ha2 : a.orderId = k := by simpa using ha
        have hf : ((f a).orderId == oid) = false := by
          rw [hid, ha2]
          exact beq_eq_false_iff_ne.2 fun hh => h hh.symm
        have haa : (a.orderId == oid) = false := by
          rw [ha2]
          exact beq_eq_false_iff_ne.2 fun hh => h hh.symm
        rw [hf, haa, Bool.false_and, Bool.false_and]
      · rw [if_neg ha]

theorem anyNonArchived_archive_self (os : List Order) (oid : String) :
    anyNonArchived (updWhere Order.orderId oid
      (fun x => { x with status := "archived" }) os) oid = false := by
  rcases h : anyNonArchived (updWhere Order.orderId oid
      (fun x => { x with status := "archived" }) os) oid with _ | _
  · rfl
  · exfalso
    rw [anyNonArchived_iff] at h
    obtain ⟨y, hy, hid, hst⟩ := h
    rcases mem_updWhere2 hy with ⟨_, hne⟩ | ⟨x, _, _, rfl⟩
    · exact hne hid
    · exact hst rfl

theorem anyNonArchived_unarchive_self (os : List Order) (oid : String) (ns : String)
    (hns : ns ≠ "archived") {o : Order} (hfind : findBy Order.orderId oid os = some o) :
    anyNonArchived (updWhere Order.orderId oid
      (fun x => { x with status := ns }) os) oid = true := by
  rw [anyNonArchived_iff]
  have hmem := findBy_mem hfind
  have hkey := findBy_key hfind
  refine ⟨{ o with status := ns }, ?_, hkey, hns⟩
  have : (if (o.orderId == oid) = true then { o with status := ns } else o) ∈
      updWhere Order.orderId oid (fun x => { x with status := ns }) os :=
    List.mem_map_of_mem _ hmem
  rwa [if_pos (by simp [hkey])] at this

theorem sum_nonarch_archive (proj : LineItem → Int) (lis : List LineItem) (os : List Order)
    (oid v : String) :
    ((lis.filter fun li => li.variantId == v && anyNonArchived (updWhere Order.orderId oid
        (fun x => { x with status := "archived" }) os) li.orderId).map proj).sum =
      ((lis.filter fun li => li.variantId == v &&
        anyNonArchived os li.orderId).map proj).sum -
      ((lis.filter fun li => (li.variantId == v && anyNonArchived os li.orderId) &&
        li.orderId == oid).map proj).sum := by
  have hsplit := sum_filter_split proj
    (fun li => li.variantId == v && anyNonArchived os li.orderId)
    (fun li => li.orderId == oid) lis
  have hcongr : (lis.filter fun li => li.variantId == v &&
      anyNonArchived (updWhere Order.orderId oid
        (fun x => { x with status := "archived" }) os) li.orderId) =
      lis.filter fun li => (li.variantId == v && anyNonArchived os li.orderId) &&
        !(li.orderId == oid) := by
    apply filter_congr_mem
    intro li _
    by_cases hc : li.orderId = oid
    · rw [hc, anyNonArchived_archive_self]
      simp
    · rw [anyNonArchived_updWhere_ne os oid
        (fun x => { x with status := "archived" }) (fun _ => rfl) hc]
      simp [hc]
  rw [hcongr]
  omega

theorem sum_nonarch_unarchive (proj : LineItem → Int) (lis : List LineItem)
    (os : List Order) (oid v : String) (ns : String) (hns : ns ≠ "archived")
    (hnd : (os.map Order.orderId).Nodup)
    {o : Order} (hfind : findBy Order.orderId oid os = some o) (ho : o.status = "archived") :
    ((lis.filter fun li => li.variantId == v && anyNonArchived (updWhere Order.orderId oid
        (fun x => { x with status := ns }) os) li.orderId).map proj).sum =
      ((lis.filter fun li => li.variantId == v &&
        anyNonArchived os li.orderId).map proj).sum +
      ((lis.filter fun li => li.variantId == v && li.orderId == oid).map proj).sum := by
  have hpre : anyNonArchived os oid = false := by
    rcases h : anyNonArchived os oid with _ | _
    · rfl
    · exfalso
      rw [anyNonArchived_iff] at h
      obtain ⟨x, hx, hidx, hstx⟩ := h
      have := findBy_unique hnd hx hidx hfind
      rw [this] at hstx
      exact hstx ho
  have hsplit := sum_filter_split proj
    (fun li => li.variantId == v && anyNonArchived (updWhere Order.orderId oid
      (fun x => { x with status := ns }) os) li.orderId)
    (fun li => li.orderId == oid) lis
  have hc1 : (lis.filter fun li => (li.variantId == v &&
      anyNonArchived (updWhere Order.orderId oid
        (fun x => { x with status := ns }) os) li.orderId) && li.orderId == oid) =
      lis.filter fun li => li.variantId == v && li.orderId == oid := by
    apply filter_congr_mem
    intro li _
    by_cases hc : li.orderId = oid
    · rw [hc, anyNonArchived_unarchive_self os oid ns hns hfind]
      simp
    · have hb : (li.orderId == oid) = false := beq_eq_false_iff_ne.2 hc
      rw [hb, Bool.and_false, Bool.and_false]
  have hc2 : (lis.filter fun li => (li.variantId == v &&
      anyNonArchived (updWhere Order.orderId oid
        (fun x => { x with status := ns }) os) li.orderId) && !(li.orderId == oid)) =
      lis.filter fun li => li.variantId == v && anyNonArchived os li.orderId := by
    apply filter_congr_mem
    intro li _
    by_cases hc : li.orderId = oid
    · rw [hc, hpre]
      simp
    · rw [anyNonArchived_updWhere_ne os oid
        (fun x => { x with status := ns }) (fun _ => rfl) hc]
      simp [hc]
  rw [hc1, hc2] at hsplit
  omega

/-! ## Operation eliminators and invariant preservation -/

theorem archiveOrder_ok {s : DBState} {oid : String} {r : ArchiveOutcome} {s2 : DBState}
    (h : archiveOrder s oid = .ok (r, s2)) :
    (r = .alreadyArchived ∧ s2 = s) ∨
    (∃ o, findBy Order.orderId oid s.orders = some o ∧ o.status ≠ "archived" ∧
      r = .archived ∧
      s2 = { tasks := (getOrderLineItems s oid).foldl archiveDeallocStep s.tasks
             orders := updWhere Order.orderId oid
               (fun x => { x with status := "archived" }) s.orders
             lineItems := s.lineItems }) := by
  unfold archiveOrder at h
  rcases hfind : getOrderByOrderId s oid with _ | o
  · rw [hfind] at h
    cases h
  · rw [hfind] at h
    have h2 : (if o.status == "archived" then
        Except.ok (ArchiveOutcome.alreadyArchived, s)
      else Except.ok (ArchiveOutcome.archived,
        { s with tasks := (getOrderLineItems s oid).foldl archiveDeallocStep s.tasks,
                 orders := updWhere Order.orderId oid
                   (fun x => { x with status := "archived" }) s.orders }) :
        Except String (ArchiveOutcome × DBState)) = .ok (r, s2) := h
    by_cases hst : (o.status == "archived") = true
    · rw [if_pos hst] at h2
      cases h2
      exact Or.inl ⟨rfl, rfl⟩
    · rw [if_neg hst] at h2
      cases h2
      exact Or.inr ⟨o, hfind, by simpa using hst, rfl, rfl⟩

theorem unarchiveOrder_ok {s : DBState} {oid : String} {r : UnarchiveOutcome} {s2 : DBState}
    (h : unarchiveOrder s oid = .ok (r, s2)) :
    (r = .notArchived ∧ s2 = s) ∨
    (∃ o, findBy Order.orderId oid s.orders = some o ∧ o.status = "archived" ∧
      r = .unarchived (deriveOrderStatus o.fulfilledItems o.totalItems) ∧
      s2 = { tasks := (getOrderLineItems s oid).foldl unarchiveReallocStep s.tasks
             orders := updWhere Order.orderId oid (fun x =>
               { x with status := deriveOrderStatus o.fulfilledItems o.totalItems }) s.orders
             lineItems := s.lineItems }) := by
  unfold unarchiveOrder at h
  rcases hfind : getOrderByOrderId s oid with _ | o
  · rw [hfind] at h
    cases h
  · rw [hfind] at h
    have h2 : (if o.status != "archived" then
        Except.ok (UnarchiveOutcome.notArchived, s)
      else Except.ok
        (UnarchiveOutcome.unarchived (deriveOrderStatus o.fulfilledItems o.totalItems),
        { s with tasks := (getOrderLineItems s oid).foldl unarchiveReallocStep s.tasks,
                 orders := updWhere Order.orderId oid (fun x =>
                   { x with status := deriveOrderStatus o.fulfilledItems o.totalItems })
                   s.orders }) :
        Except String (UnarchiveOutcome × DBState)) = .ok (r, s2) := h
    by_cases hst : (o.status != "archived") = true
    · rw [if_pos hst] at h2
      cases h2
      exact Or.inl ⟨rfl, rfl⟩
    · rw [if_neg hst] at h2
      cases h2
      exact Or.inr ⟨o, hfind, by simpa using hst, rfl, rfl⟩

theorem deallocTask1_some {t : Task} {i : LineItem} {t2 : Task}
    (h : deallocTask1 t i = some t2) :
    max 0 (t.totalQuantity - i.quantity) ≠ 0 ∧
    t2.totalQuantity = max 0 (t.totalQuantity - i.quantity) ∧
    t2.madeQuantity = max 0 (t.madeQuantity - i.fulfilledQuantity) ∧
    t2.variantId = t.variantId := by
  unfold deallocTask1 at h
  by_cases hz : max 0 (t.totalQuantity - i.quantity) = 0
  · rw [if_pos hz] at h
    cases h
  · rw [if_neg hz] at h
    cases h
    exact ⟨hz, rfl, rfl, rfl⟩

theorem order_items_var_nodup {lis : List LineItem}
    (hpw : lis.Pairwise fun a b => a.orderId = b.orderId → a.variantId ≠ b.variantId)
    (oid : String) :
    ((lis.filter fun li => li.orderId == oid).map LineItem.variantId).Nodup := by
  have h1 : (lis.filter fun li => li.orderId == oid).Pairwise
      fun a b => a.orderId = b.orderId → a.variantId ≠ b.variantId := hpw.filter _
  have h2 : (lis.filter fun li => li.orderId == oid).Pairwise
      fun a b => a.variantId ≠ b.variantId := by
    refine List.Pairwise.imp_of_mem ?_ h1
    intro a b ha hb hab
    have ha2 : a.orderId = oid := by simpa using (List.mem_filter.1 ha).2
    have hb2 : b.orderId = oid := by simpa using (List.mem_filter.1 hb).2
    exact hab (ha2.trans hb2.symm)
  exact List.Pairwise.map _ (fun a b h => h) h2

theorem findBy_eq_self {key : α → String} {l : List α} (hnd : (l.map key).Nodup)
    {x : α} (hx : x ∈ l) : findBy key (key x) l = some x := by
  rcases hf : findBy key (key x) l with _ | y
  · have hs : (findBy key (key x) l).isSome := findBy_isSome hx rfl
    rw [hf] at hs
    simp at hs
  · have hxy := findBy_unique hnd hx rfl hf
    rw [← hxy]

theorem fifoPlan_fst_sublist (r : Int) (items : List LineItem) :
    ((fifoPlan r items).map Prod.fst).Sublist items := by
  induction items generalizing r with
  | nil =>
      rw [fifoPlan]
      exact List.Sublist.refl _
  | cons item rest ih =>
      rw [fifoPlan]
      by_cases h1 : r ≤ 0
      · rw [if_pos h1]
        exact List.nil_sublist _
      · rw [if_neg h1]
        by_cases h2 : item.quantity - item.fulfilledQuantity ≤ 0
        · rw [if_pos h2]
          exact (ih r).cons _
        · rw [if_neg h2, List.map_cons]
          exact (ih _).cons₂ _

theorem map_lineItemId_applyPlan :
    ∀ (plan : List (LineItem × Int)) (lis : List LineItem),
      (applyPlan plan lis).map LineItem.lineItemId = lis.map LineItem.lineItemId := by
  intro plan
  induction plan with
  | nil => intro lis; rfl
  | cons p ps ih =>
      intro lis
      rw [applyPlan, List.foldl_cons]
      have := ih (applyPlanRow lis p)
      rw [applyPlan] at this
      rw [this, applyPlanRow, map_proj_updWhere LineItem.lineItemId p.1.lineItemId
        (fun li => { li with fulfilledQuantity := p.1.fulfilledQuantity + p.2 })
        LineItem.lineItemId (fun _ => rfl)]

theorem archiveOrder_preserves {s : DBState} {oid : String} (hwf : wf s) (hinv : taskInv s)
    {r : ArchiveOutcome} {s2 : DBState} (h : archiveOrder s oid = .ok (r, s2)) :
    taskInv s2 ∧ wf s2 := by
  obtain ⟨hndT, hndO, hndL, hok, hpw⟩ := hwf
  rcases archiveOrder_ok h with ⟨_, rfl⟩ | ⟨o, hfind, hstat, _, hs2⟩
  · exact ⟨hinv, hndT, hndO, hndL, hok, hpw⟩
  have hT : s2.tasks = (getOrderLineItems s oid).foldl archiveDeallocStep s.tasks := by
    rw [hs2]
  have hO : s2.orders = updWhere Order.orderId oid
      (fun x => { x with status := "archived" }) s.orders := by
    rw [hs2]
  have hL : s2.lineItems = s.lineItems := by
    rw [hs2]
  have hvar : ((s.lineItems.filter fun li => li.orderId == oid).map
      LineItem.variantId).Nodup := order_items_var_nodup hpw oid
  have hanyO : anyNonArchived s.orders oid = true := by
    rw [anyNonArchived_iff]
    exact ⟨o, findBy_mem hfind, findBy_key hfind, hstat⟩
  have hsumQ : ∀ v, sumQty s2 v = sumQty s v -
      ((s.lineItems.filter fun li => (li.variantId == v &&
        anyNonArchived s.orders li.orderId) && li.orderId == oid).map
        LineItem.quantity).sum := by
    intro v
    show ((s2.lineItems.filter fun li => li.variantId == v &&
      anyNonArchived s2.orders li.orderId).map LineItem.quantity).sum = _
    rw [hL, hO]
    exact sum_nonarch_archive LineItem.quantity s.lineItems s.orders oid v
  have hsumF : ∀ v, sumFul s2 v = sumFul s v -
      ((s.lineItems.filter fun li => (li.variantId == v &&
        anyNonArchived s.orders li.orderId) && li.orderId == oid).map
        LineItem.fulfilledQuantity).sum := by
    intro v
    show ((s2.lineItems.filter fun li => li.variantId == v &&
      anyNonArchived s2.orders li.orderId).map LineItem.fulfilledQuantity).sum = _
    rw [hL, hO]
    exact sum_nonarch_archive LineItem.fulfilledQuantity s.lineItems s.orders oid v
  constructor
  · intro t2 ht2
    rw [hT, archiveFold_char (getOrderLineItems s oid) s.tasks hndT hvar] at ht2
    rcases List.mem_filterMap.1 ht2 with ⟨t, ht, hphi⟩
    have hinvt := hinv t ht
    rcases hfi : (getOrderLineItems s oid).find?
        (fun i => i.variantId == t.variantId) with _ | i
    · rw [hfi] at hphi
      have hteq : t = t2 := Option.some.inj hphi
      have hzero : (s.lineItems.filter fun li => (li.variantId == t.variantId &&
          anyNonArchived s.orders li.orderId) && li.orderId == oid) = [] := by
        rw [List.filter_eq_nil_iff]
        intro li hli hcond
        simp only [Bool.and_eq_true, beq_iff_eq] at hcond
        rw [List.find?_eq_none] at hfi
        have hmemO : li ∈ getOrderLineItems s oid := by
          rw [show getOrderLineItems s oid =
            s.lineItems.filter fun x => x.orderId == oid from rfl]
          rw [List.mem_filter]
          exact ⟨hli, by simp [hcond.2]⟩
        have := hfi li hmemO
        simp [hcond.1.1] at this
      have hq := hsumQ t.variantId
      have hf := hsumF t.variantId
      rw [hzero] at hq hf
      simp only [List.map_nil, List.sum_nil, sub_zero] at hq hf
      rw [← hteq]
      exact ⟨hinvt.1.trans hq.symm, hinvt.2.trans hf.symm⟩
    · rw [hfi] at hphi
      have hiv : i.variantId = t.variantId := by
        have := List.find?_some hfi
        simpa using this
      have himem : i ∈ getOrderLineItems s oid := List.mem_of_find?_eq_some hfi
      have himem2 : i ∈ s.lineItems := (List.mem_filter.1 himem).1
      have hioid : i.orderId = oid := by
        simpa using (List.mem_filter.1 himem).2
      have hsingle : (s.lineItems.filter fun li => (li.variantId == t.variantId &&
          anyNonArchived s.orders li.orderId) && li.orderId == oid) = [i] := by
        apply filter_eq_singleton (List.Nodup.of_map _ hndL) himem2
        · simp only [Bool.and_eq_true, beq_iff_eq]
          exact ⟨⟨hiv, by rw [hioid]; exact hanyO⟩, hioid⟩
        · intro x hx hcond
          simp only [Bool.and_eq_true, beq_iff_eq] at hcond
          exact pairwise_ov_unique hpw hx himem2 (by rw [hcond.2, hioid])
            (by rw [hcond.1.1, hiv])
      have hq := hsumQ t.variantId
      have hf := hsumF t.variantId
      rw [hsingle] at hq hf
      simp only [List.map_cons, List.map_nil, List.sum_cons, List.sum_nil,
        add_zero] at hq hf
      have hrest : sumQty s t.variantId = i.quantity +
          ((s.lineItems.filter fun li => (li.variantId == t.variantId &&
            anyNonArchived s.orders li.orderId) && !(li.orderId == oid)).map
            LineItem.quantity).sum := by
        have hsp := sum_filter_split LineItem.quantity
          (fun li => li.variantId == t.variantId && anyNonArchived s.orders li.orderId)
          (fun li => li.orderId == oid) s.lineItems
        rw [hsingle] at hsp
        simp only [List.map_cons, List.map_nil, List.sum_cons, List.sum_nil,
          add_zero] at hsp
        exact hsp
      have hrestf : sumFul s t.variantId = i.fulfilledQuantity +
          ((s.lineItems.filter fun li => (li.variantId == t.variantId &&
            anyNonArchived s.orders li.orderId) && !(li.orderId == oid)).map
            LineItem.fulfilledQuantity).sum := by
        have hsp := sum_filter_split LineItem.fulfilledQuantity
          (fun li => li.variantId == t.variantId && anyNonArchived s.orders li.orderId)
          (fun li => li.orderId == oid) s.lineItems
        rw [hsingle] at hsp
        simp only [List.map_cons, List.map_nil, List.sum_cons, List.sum_nil,
          add_zero] at hsp
        exact hsp
      have hq_nonneg : 0 ≤ ((s.lineItems.filter fun li => (li.variantId == t.variantId &&
          anyNonArchived s.orders li.orderId) && !(li.orderId == oid)).map
          LineItem.quantity).sum := by
        apply List.sum_nonneg
        intro x hxm
        rcases List.mem_map.1 hxm with ⟨li, hli, rfl⟩
        have := hok li (List.mem_filter.1 hli).1
        omega
      have hf_nonneg : 0 ≤ ((s.lineItems.filter fun li => (li.variantId == t.variantId &&
          anyNonArchived s.orders li.orderId) && !(li.orderId == oid)).map
          LineItem.fulfilledQuantity).sum := by
        apply List.sum_nonneg
        intro x hxm
        rcases List.mem_map.1 hxm with ⟨li, hli, rfl⟩
        have := hok li (List.mem_filter.1 hli).1
        omega
      obtain ⟨hznz, ht2tot, ht2made, ht2var⟩ := deallocTask1_some hphi
      constructor
      · rw [ht2tot, ht2var, hq, hinvt.1]
        omega
      · rw [ht2made, ht2var, hf, hinvt.2]
        have hmle : sumFul s t.variantId ≤ sumQty s t.variantId := by
          show ((s.lineItems.filter fun li => li.variantId == t.variantId &&
            anyNonArchived s.orders li.orderId).map LineItem.fulfilledQuantity).sum ≤
            ((s.lineItems.filter fun li => li.variantId == t.variantId &&
              anyNonArchived s.orders li.orderId).map LineItem.quantity).sum
          apply List.sum_le_sum
          intro li hli
          exact (hok li (List.mem_filter.1 hli).1).2
        have hbound := hok i himem2
        omega
  · refine ⟨?_, ?_, ?_, ?_, ?_⟩
    · rw [hT]
      exact archiveFold_nodup _ _ hndT
    · rw [hO, map_proj_updWhere Order.orderId oid
        (fun x => { x with status := "archived" }) Order.orderId (fun _ => rfl)]
      exact hndO
    · rw [hL]
      exact hndL
    · rw [hL]
      exact hok
    · rw [hL]
      exact hpw

theorem unarchiveFold_nodup (items : List LineItem) (ts : List Task)
    (hndT : (ts.map Task.variantId).Nodup)
    (hvar : (items.map LineItem.variantId).Nodup) :
    ((items.foldl unarchiveReallocStep ts).map Task.variantId).Nodup := by
  rw [unarchiveFold_char items ts hndT hvar, List.map_append, List.map_map, List.map_map]
  have h1 : ts.map (Task.variantId ∘ fun t =>
      match items.find? (fun i => i.variantId == t.variantId) with
      | none => t
      | some i => reallocTask1 t i) = ts.map Task.variantId := by
    apply List.map_congr_left
    intro t ht
    show Task.variantId (match items.find? (fun i => i.variantId == t.variantId) with
      | none => t
      | some i => reallocTask1 t i) = t.variantId
    rcases hfi : items.find? (fun i => i.variantId == t.variantId) with _ | i
    · rw [hfi]
    · rw [hfi]
      show (reallocTask1 t i).variantId = t.variantId
      rfl
  have h2 : (items.filter fun i => !(findBy Task.variantId i.variantId ts).isSome).map
      (Task.variantId ∘ taskFromLineItem) =
      (items.filter fun i => !(findBy Task.variantId i.variantId ts).isSome).map
        LineItem.variantId := by
    apply List.map_congr_left
    intro i _
    rfl
  rw [h1, h2, List.nodup_append]
  refine ⟨hndT, ?_, ?_⟩
  · exact List.Nodup.sublist (List.Sublist.map _ (List.filter_sublist _)) hvar
  · intro a ha hb
    rcases List.mem_map.1 hb with ⟨i, hi, rfl⟩
    rcases List.mem_map.1 ha with ⟨t, ht, hta⟩
    have hfil := (List.mem_filter.1 hi).2
    have hsome : (findBy Task.variantId i.variantId ts).isSome := findBy_isSome ht hta
    simp [hsome] at hfil

theorem unarchiveOrder_preserves {s : DBState} {oid : String} (hwf : wf s) (hinv : taskInv s)
    (hside : ∀ i ∈ getOrderLineItems s oid,
      findBy Task.variantId i.variantId s.tasks = none →
      sumQty s i.variantId = 0 ∧ sumFul s i.variantId = 0)
    {r : UnarchiveOutcome} {s2 : DBState} (h : unarchiveOrder s oid = .ok (r, s2)) :
    taskInv s2 ∧ wf s2 := by
  obtain ⟨hndT, hndO, hndL, hok, hpw⟩ := hwf
  rcases unarchiveOrder_ok h with ⟨_, rfl⟩ | ⟨o, hfind, hstat, _, hs2⟩
  · exact ⟨hinv, hndT, hndO, hndL, hok, hpw⟩
  have hT : s2.tasks = (getOrderLineItems s oid).foldl unarchiveReallocStep s.tasks := by
    rw [hs2]
  have hO : s2.orders = updWhere Order.orderId oid (fun x =>
      { x with status := deriveOrderStatus o.fulfilledItems o.totalItems }) s.orders := by
    rw [hs2]
  have hL : s2.lineItems = s.lineItems := by
    rw [hs2]
  have hvar : ((s.lineItems.filter fun li => li.orderId == oid).map
      LineItem.variantId).Nodup := order_items_var_nodup hpw oid
  have hns : deriveOrderStatus o.fulfilledItems o.totalItems ≠ "archived" :=
    deriveOrderStatus_ne_archived _ _
  have hsumQ : ∀ v, sumQty s2 v = sumQty s v +
      ((s.lineItems.filter fun li => li.variantId == v && li.orderId == oid).map
        LineItem.quantity).sum := by
    intro v
    show ((s2.lineItems.filter fun li => li.variantId == v &&
      anyNonArchived s2.orders li.orderId).map LineItem.quantity).sum = _
    rw [hL, hO]
    exact sum_nonarch_unarchive LineItem.quantity s.lineItems s.orders oid v _
      hns hndO hfind hstat
  have hsumF : ∀ v, sumFul s2 v = sumFul s v +
      ((s.lineItems.filter fun li => li.variantId == v && li.orderId == oid).map
        LineItem.fulfilledQuantity).sum := by
    intro v
    show ((s2.lineItems.filter fun li => li.variantId == v &&
      anyNonArchived s2.orders li.orderId).map LineItem.fulfilledQuantity).sum = _
    rw [hL, hO]
    exact sum_nonarch_unarchive LineItem.fulfilledQuantity s.lineItems s.orders oid v _
      hns hndO hfind hstat
  constructor
  · intro t2 ht2
    rw [hT, unarchiveFold_char (getOrderLineItems s oid) s.tasks hndT hvar] at ht2
    rcases List.mem_append.1 ht2 with hmem | hmem
    · rcases List.mem_map.1 hmem with ⟨t, ht, hteq⟩
      have hinvt := hinv t ht
      have hteq2 : (match (getOrderLineItems s oid).find?
          (fun i => i.variantId == t.variantId) with
        | none => t
        | some i => reallocTask1 t i) = t2 := hteq
      rcases hfi : (getOrderLineItems s oid).find?
          (fun i => i.variantId == t.variantId) with _ | i
      · rw [hfi] at hteq2
        have hteq3 : t = t2 := hteq2
        have hzero : (s.lineItems.filter fun li => li.variantId == t.variantId &&
            li.orderId == oid) = [] := by
          rw [List.filter_eq_nil_iff]
          intro li hli hcond
          simp only [Bool.and_eq_true, beq_iff_eq] at hcond
          rw [List.find?_eq_none] at hfi
          have hmemO : li ∈ getOrderLineItems s oid := by
            rw [show getOrderLineItems s oid =
              s.lineItems.filter fun x => x.orderId == oid from rfl]
            rw [List.mem_filter]
            exact ⟨hli, by simp [hcond.2]⟩
          have := hfi li hmemO
          simp [hcond.1] at this
        have hq := hsumQ t.variantId
        have hf := hsumF t.variantId
        rw [hzero] at hq hf
        simp only [List.map_nil, List.sum_nil, add_zero] at hq hf
        rw [← hteq3]
        exact ⟨hinvt.1.trans hq.symm, hinvt.2.trans hf.symm⟩
      · rw [hfi] at hteq2
        have hteq3 : reallocTask1 t i = t2 := hteq2
        have hiv : i.variantId = t.variantId := by
          have := List.find?_some hfi
          simpa using this
        have himem : i ∈ getOrderLineItems s oid := List.mem_of_find?_eq_some hfi
        have himem2 : i ∈ s.lineItems := (List.mem_filter.1 himem).1
        have hioid : i.orderId = oid := by
          simpa using (List.mem_filter.1 himem).2
        have hsingle : (s.lineItems.filter fun li => li.variantId == t.variantId &&
            li.orderId == oid) = [i] := by
          apply filter_eq_singleton (List.Nodup.of_map _ hndL) himem2
          · simp only [Bool.and_eq_true, beq_iff_eq]
            exact ⟨hiv, hioid⟩
          · intro x hx hcond
            simp only [Bool.and_eq_true, beq_iff_eq] at hcond
            exact pairwise_ov_unique hpw hx himem2 (by rw [hcond.2, hioid])
              (by rw [hcond.1, hiv])
        have hq := hsumQ t.variantId
        have hf := hsumF t.variantId
        rw [hsingle] at hq hf
        simp only [List.map_cons, List.map_nil, List.sum_cons, List.sum_nil,
          add_zero] at hq hf
        rw [← hteq3]
        constructor
        · show t.totalQuantity + i.quantity = sumQty s2 t.variantId
          rw [hinvt.1, hq]
        · show t.madeQuantity + i.fulfilledQuantity = sumFul s2 t.variantId
          rw [hinvt.2, hf]
    · rcases List.mem_map.1 hmem with ⟨i, hifil, hteq⟩
      have hif := List.mem_filter.1 hifil
      have himemO : i ∈ getOrderLineItems s oid := hif.1
      have habs : findBy Task.variantId i.variantId s.tasks = none := by
        have hfil2 := hif.2
        rcases hfb : findBy Task.variantId i.variantId s.tasks with _ | x
        · rfl
        · rw [hfb] at hfil2
          simp at hfil2
      have hz := hside i himemO habs
      have himem2 : i ∈ s.lineItems := (List.mem_filter.1 himemO).1
      have hioid : i.orderId = oid := by
        simpa using (List.mem_filter.1 himemO).2
      have hsingle : (s.lineItems.filter fun li => li.variantId == i.variantId &&
          li.orderId == oid) = [i] := by
        apply filter_eq_singleton (List.Nodup.of_map _ hndL) himem2
        · simp only [Bool.and_eq_true, beq_iff_eq]
          exact ⟨trivial, hioid⟩
        · intro x hx hcond
          simp only [Bool.and_eq_true, beq_iff_eq] at hcond
          exact pairwise_ov_unique hpw hx himem2 (by rw [hcond.2, hioid]) hcond.1
      have hq := hsumQ i.variantId
      have hf := hsumF i.variantId
      rw [hsingle] at hq hf
      simp only [List.map_cons, List.map_nil, List.sum_cons, List.sum_nil,
        add_zero] at hq hf
      rw [hz.1, zero_add] at hq
      rw [hz.2, zero_add] at hf
      rw [← hteq]
      exact ⟨hq.symm, hf.symm⟩
  · refine ⟨?_, ?_, ?_, ?_, ?_⟩
    · rw [hT]
      exact unarchiveFold_nodup _ _ hndT hvar
    · rw [hO, map_proj_updWhere Order.orderId oid (fun x =>
        { x with status := deriveOrderStatus o.fulfilledItems o.totalItems })
        Order.orderId (fun _ => rfl)]
      exact hndO
    · rw [hL]
      exact hndL
    · rw [hL]
      exact hok
    · rw [hL]
      exact hpw

theorem sum_map_sub (f g : α → Int) (l : List α) :
    (l.map fun x => f x - g x).sum = (l.map f).sum - (l.map g).sum := by
  induction l with
  | nil => simp
  | cons a l ih =>
      simp only [List.map_cons, List.sum_cons, ih]
      ring

theorem sumFul_le_sumQty {s : DBState}
    (hok : ∀ li ∈ s.lineItems, 0 ≤ li.fulfilledQuantity ∧ li.fulfilledQuantity ≤ li.quantity)
    (v : String) : sumFul s v ≤ sumQty s v := by
  apply List.sum_le_sum
  intro li hli
  exact (hok li (List.mem_filter.1 hli).1).2

theorem updateMadeQuantity_ok {s : DBState} {v : String} {q : Int} {mr : MadeResult}
    {s1 : DBState} (h : updateMadeQuantity s v q = .ok (mr, s1)) :
    ∃ task, findBy Task.variantId v s.tasks = some task ∧
      mr = { previousMade := task.madeQuantity
             newMade := min (task.madeQuantity + q) task.totalQuantity
             actualAdded := min (task.madeQuantity + q) task.totalQuantity -
               task.madeQuantity
             newStatus := deriveTaskStatus (min (task.madeQuantity + q)
               task.totalQuantity) task.totalQuantity } ∧
      s1 = { s with tasks := updWhere Task.variantId v (fun t =>
        { t with madeQuantity := min (task.madeQuantity + q) task.totalQuantity,
                 status := deriveTaskStatus (min (task.madeQuantity + q)
                   task.totalQuantity) task.totalQuantity }) s.tasks } := by
  unfold updateMadeQuantity at h
  rcases hfind : getTaskByVariantId s v with _ | task
  · rw [hfind] at h
    cases h
  · rw [hfind] at h
    cases h
    exact ⟨task, hfind, rfl, rfl⟩

theorem markMade_ok {s : DBState} {v : String} {q : Int} {rep : List FulfilledOrderRef}
    {s2 : DBState} (h : markMade s v q = .ok (rep, s2)) :
    ∃ mr s1, updateMadeQuantity s v q = .ok (mr, s1) ∧
      rep = planReport s1.orders (allocPlan s1 v q) ∧
      s2 = { tasks := s1.tasks
             orders := applyPlanOrders (allocPlan s1 v q) s1.orders
             lineItems := applyPlan (allocPlan s1 v q) s1.lineItems } := by
  unfold markMade at h
  rcases hu : updateMadeQuantity s v q with e | pr
  · rw [hu] at h
    cases h
  · obtain ⟨mr, s1⟩ := pr
    rw [hu] at h
    have h2 : (Except.ok (allocateMadeQuantityToOrders s1 v q) :
        Except String (List FulfilledOrderRef × DBState)) = .ok (rep, s2) := h
    injection h2 with h3
    rw [allocate_eq, Prod.mk.injEq] at h3
    exact ⟨mr, s1, rfl, h3.1.symm, h3.2.symm⟩

theorem markMade_preserves {s : DBState} {v : String} {q : Int} (hwf : wf s)
    (hinv : taskInv s) (hq : 0 ≤ q) {rep : List FulfilledOrderRef} {s2 : DBState}
    (h : markMade s v q = .ok (rep, s2)) : taskInv s2 ∧ wf s2 := by
  obtain ⟨hndT, hndO, hndL, hok, hpw⟩ := hwf
  obtain ⟨mr, s1, hu, hrep, hs2⟩ := markMade_ok h
  obtain ⟨task, hfindT, hmr, hs1⟩ := updateMadeQuantity_ok hu
  have htask := hinv task (findBy_mem hfindT)
  have hkey : task.variantId = v := findBy_key hfindT
  have hplan : allocPlan s1 v q = allocPlan s v q := by
    rw [hs1]
    rfl
  have hO1 : s1.orders = s.orders := by
    rw [hs1]
  have hL1 : s1.lineItems = s.lineItems := by
    rw [hs1]
  have hT1 : s1.tasks = updWhere Task.variantId v (fun t =>
      { t with madeQuantity := min (task.madeQuantity + q) task.totalQuantity,
               status := deriveTaskStatus (min (task.madeQuantity + q)
                 task.totalQuantity) task.totalQuantity }) s.tasks := by
    rw [hs1]
  rw [hplan, hO1, hL1, hT1] at hs2
  have hT2 : s2.tasks = updWhere Task.variantId v (fun t =>
      { t with madeQuantity := min (task.madeQuantity + q) task.totalQuantity,
               status := deriveTaskStatus (min (task.madeQuantity + q)
                 task.totalQuantity) task.totalQuantity }) s.tasks := by
    rw [hs2]
  have hO2 : s2.orders = applyPlanOrders (allocPlan s v q) s.orders := by
    rw [hs2]
  have hL2 : s2.lineItems = applyPlan (allocPlan s v q) s.lineItems := by
    rw [hs2]
  have hpmem : ∀ p ∈ allocPlan s v q, p.1 ∈ s.lineItems ∧ p.1.variantId = v ∧
      anyNonArchived s.orders p.1.orderId = true ∧ 0 < p.2 ∧
      p.2 ≤ p.1.quantity - p.1.fulfilledQuantity := by
    intro p hp
    have h1 := fifoPlan_mem hp
    have h2 := allocItems_mem.1 h1.1
    exact ⟨h2.1, h2.2.1, h2.2.2, h1.2.1, h1.2.2.1⟩
  have hids : ((allocPlan s v q).map fun p => p.1.lineItemId).Nodup := by
    have hsub : ((allocPlan s v q).map Prod.fst).Sublist (allocItems s v) :=
      fifoPlan_fst_sublist q _
    have hsub2 : (((allocPlan s v q).map Prod.fst).map LineItem.lineItemId).Sublist
        ((allocItems s v).map LineItem.lineItemId) := hsub.map _
    rw [List.map_map] at hsub2
    have hnd2 : ((allocItems s v).map LineItem.lineItemId).Nodup := by
      have hperm := (allocItems_perm s v).map LineItem.lineItemId
      refine hperm.nodup_iff.2 ?_
      exact List.Nodup.sublist ((List.filter_sublist _).map _) hndL
    exact List.Nodup.sublist hsub2 hnd2
  have hfa : ∀ p ∈ allocPlan s v q,
      findBy LineItem.lineItemId p.1.lineItemId s.lineItems = some p.1 := by
    intro p hp
    exact findBy_eq_self hndL (hpmem p hp).1
  have hparen : ∀ p ∈ allocPlan s v q, anyNonArchived s.orders p.1.orderId = true :=
    fun p hp => (hpmem p hp).2.2.1
  have hanyEq : ∀ oid, anyNonArchived s2.orders oid = anyNonArchived s.orders oid := by
    intro oid
    rw [hO2]
    exact anyNonArchived_applyPlanOrders (allocPlan s v q) s.orders hparen oid
  have hsumQ : ∀ w, sumQty s2 w = sumQty s w := by
    intro w
    show ((s2.lineItems.filter fun li => li.variantId == w &&
      anyNonArchived s2.orders li.orderId).map LineItem.quantity).sum = _
    rw [hL2, filter_congr_mem (fun li _ => by rw [hanyEq li.orderId]),
      applyPlan_qty (fun li => li.variantId == w && anyNonArchived s.orders li.orderId)
        (fun li x => rfl) (allocPlan s v q) s.lineItems]
    rfl
  have hsumF : ∀ w, sumFul s2 w = sumFul s w +
      ((allocPlan s v q).map fun p => if p.1.variantId == w &&
        anyNonArchived s.orders p.1.orderId then p.2 else 0).sum := by
    intro w
    show ((s2.lineItems.filter fun li => li.variantId == w &&
      anyNonArchived s2.orders li.orderId).map LineItem.fulfilledQuantity).sum = _
    rw [hL2, filter_congr_mem (fun li _ => by rw [hanyEq li.orderId])]
    exact applyPlan_ful_sum (fun li => li.variantId == w &&
      anyNonArchived s.orders li.orderId) (fun li x => rfl) (allocPlan s v q)
      s.lineItems hndL hids hfa
  have hsumF_ne : ∀ w, w ≠ v → sumFul s2 w = sumFul s w := by
    intro w hw
    rw [hsumF w]
    have hmap : ((allocPlan s v q).map fun p => if p.1.variantId == w &&
        anyNonArchived s.orders p.1.orderId then p.2 else 0) =
        (allocPlan s v q).map fun _ => (0 : Int) := by
      apply List.map_congr_left
      intro p hp
      have hv := (hpmem p hp).2.1
      have hfalse : (p.1.variantId == w) = false := by
        rw [beq_eq_false_iff_ne, hv]
        exact fun hh => hw hh.symm
      rw [hfalse, Bool.false_and, if_neg (by simp)]
    rw [hmap]
    simp
  have hroom_eq : ((allocItems s v).map fun i =>
      max (i.quantity - i.fulfilledQuantity) 0).sum = sumQty s v - sumFul s v := by
    have hperm := (allocItems_perm s v).map fun i : LineItem =>
      max (i.quantity - i.fulfilledQuantity) 0
    rw [hperm.sum_eq]
    have hcong : ((s.lineItems.filter fun li => li.variantId == v &&
        anyNonArchived s.orders li.orderId).map fun i =>
        max (i.quantity - i.fulfilledQuantity) 0) =
        ((s.lineItems.filter fun li => li.variantId == v &&
          anyNonArchived s.orders li.orderId).map fun i =>
          i.quantity - i.fulfilledQuantity) := by
      apply List.map_congr_left
      intro i hi
      have := hok i (List.mem_filter.1 hi).1
      omega
    rw [hcong, sum_map_sub LineItem.quantity LineItem.fulfilledQuantity]
    rfl
  have hplanSum : planSum (allocPlan s v q) = min q (sumQty s v - sumFul s v) := by
    rw [show allocPlan s v q = fifoPlan q (allocItems s v) from rfl,
      fifoPlan_sum hq (allocItems s v), hroom_eq]
  have hsumF_v : sumFul s2 v = min (sumFul s v + q) (sumQty s v) := by
    rw [hsumF v]
    have hmap : ((allocPlan s v q).map fun p => if p.1.variantId == v &&
        anyNonArchived s.orders p.1.orderId then p.2 else 0) =
        (allocPlan s v q).map Prod.snd := by
      apply List.map_congr_left
      intro p hp
      have hv := (hpmem p hp).2.1
      have ha := (hpmem p hp).2.2.1
      simp [hv, ha]
    rw [hmap, show ((allocPlan s v q).map Prod.snd).sum = planSum (allocPlan s v q)
      from rfl, hplanSum]
    have hle := sumFul_le_sumQty hok v
    omega
  constructor
  · intro t2 ht2
    rw [hT2] at ht2
    rcases mem_updWhere2 ht2 with ⟨ht2m, hne⟩ | ⟨t, htm, htk, hteq⟩
    · have hinvt := hinv t2 ht2m
      rw [hsumQ, hsumF_ne _ hne]
      exact hinvt
    · have hteqtask : t = task := findBy_unique hndT htm htk hfindT
      rw [hteqtask] at hteq
      rw [hteq]
      constructor
      · show task.totalQuantity = sumQty s2 task.variantId
        rw [hkey, hsumQ v, ← hkey]
        exact htask.1
      · show min (task.madeQuantity + q) task.totalQuantity = sumFul s2 task.variantId
        rw [hkey, hsumF_v]
        have h1 : task.madeQuantity = sumFul s v := by
          rw [htask.2, hkey]
        have h2 : task.totalQuantity = sumQty s v := by
          rw [htask.1, hkey]
        omega
  · refine ⟨?_, ?_, ?_, ?_, ?_⟩
    · rw [hT2, map_proj_updWhere Task.variantId v (fun t =>
        { t with madeQuantity := min (task.madeQuantity + q) task.totalQuantity,
                 status := deriveTaskStatus (min (task.madeQuantity + q)
                   task.totalQuantity) task.totalQuantity }) Task.variantId
        (fun _ => rfl)]
      exact hndT
    · rw [hO2, map_orderId_applyPlanOrders]
      exact hndO
    · rw [hL2, map_lineItemId_applyPlan]
      exact hndL
    · rw [hL2]
      refine applyPlan_itemOk (allocPlan s v q) s.lineItems hndL hids hfa ?_ hok
      intro p hp
      have := hpmem p hp
      exact ⟨by omega, this.2.2.2.2⟩
    · rw [hL2]
      exact pairwise_ov_applyPlan (allocPlan s v q) s.lineItems hpw

theorem eq_of_key_eq {key : α → String} {l : List α} (hnd : (l.map key).Nodup)
    {x y : α} (hx : x ∈ l) (hy : y ∈ l) (h : key x = key y) : x = y := by
  have h1 := findBy_eq_self hnd hx
  have h2 := findBy_eq_self hnd hy
  rw [h] at h1
  exact Option.some.inj (h1.symm.trans h2)

theorem zeroFulfilled_proj (g : LineItem → β)
    (hg : ∀ li, g { li with fulfilledQuantity := 0 } = g li) (ids : List String)
    (lis : List LineItem) : (zeroFulfilled ids lis).map g = lis.map g := by
  unfold zeroFulfilled
  rw [List.map_map]
  apply List.map_congr_left
  intro li _
  show g (if ids.contains li.lineItemId then { li with fulfilledQuantity := 0 } else li) =
    g li
  by_cases hc : ids.contains li.lineItemId = true
  · rw [if_pos hc, hg]
  · rw [if_neg hc]

theorem filter_zeroFulfilled (pr : LineItem → Bool)
    (hpr : ∀ li, pr { li with fulfilledQuantity := 0 } = pr li) (ids : List String) :
    ∀ lis : List LineItem,
      (zeroFulfilled ids lis).filter pr = zeroFulfilled ids (lis.filter pr) := by
  intro lis
  unfold zeroFulfilled
  induction lis with
  | nil => rfl
  | cons a l ih =>
      rw [List.map_cons]
      by_cases hp : pr a = true
      · rw [List.filter_cons_of_pos hp, List.map_cons]
        by_cases hc : ids.contains a.lineItemId = true
        · rw [if_pos hc, List.filter_cons_of_pos (by rw [hpr]; exact hp), ih]
        · rw [if_neg hc, List.filter_cons_of_pos hp, ih]
      · rw [List.filter_cons_of_neg hp]
        by_cases hc : ids.contains a.lineItemId = true
        · rw [if_pos hc, List.filter_cons_of_neg (by rw [hpr]; simpa using hp), ih]
        · rw [if_neg hc, List.filter_cons_of_neg hp, ih]

theorem pairwise_ov_zeroFulfilled (ids : List String) {lis : List LineItem}
    (hp : lis.Pairwise fun a b => a.orderId = b.orderId → a.variantId ≠ b.variantId) :
    (zeroFulfilled ids lis).Pairwise
      fun a b => a.orderId = b.orderId → a.variantId ≠ b.variantId := by
  unfold zeroFulfilled
  refine List.Pairwise.map _ ?_ hp
  intro a b hab
  by_cases ha : ids.contains a.lineItemId = true <;>
    by_cases hb : ids.contains b.lineItemId = true <;>
    simp only [ha, hb, if_true, if_false] <;>
    exact hab

theorem zeroFulfilled_cons (k : String) (ids : List String) (lis : List LineItem) :
    zeroFulfilled ids (updWhere LineItem.lineItemId k
      (fun li => { li with fulfilledQuantity := 0 }) lis) =
    zeroFulfilled (k :: ids) lis := by
  unfold zeroFulfilled updWhere
  rw [List.map_map]
  apply List.map_congr_left
  intro li _
  by_cases h1 : (li.lineItemId == k) = true
  · show (fun li => if ids.contains li.lineItemId then
        { li with fulfilledQuantity := 0 } else li)
      (if li.lineItemId == k then { li with fulfilledQuantity := 0 } else li) =
      if (k :: ids).contains li.lineItemId then { li with fulfilledQuantity := 0 } else li
    rw [if_pos h1, List.contains_cons, h1, Bool.true_or, if_pos rfl]
    show (if ids.contains li.lineItemId = true then
      ({ li with fulfilledQuantity := 0 } : LineItem)
      else { li with fulfilledQuantity := 0 }) = { li with fulfilledQuantity := 0 }
    exact ite_self _
  · have hb : (li.lineItemId == k) = false := by
      simpa using h1
    show (fun li => if ids.contains li.lineItemId then
        { li with fulfilledQuantity := 0 } else li)
      (if li.lineItemId == k then { li with fulfilledQuantity := 0 } else li) =
      if (k :: ids).contains li.lineItemId then { li with fulfilledQuantity := 0 } else li
    rw [if_neg h1, List.contains_cons, hb, Bool.false_or]

theorem resetItemStep_char {s : DBState} {i : LineItem}
    (hany : anyNonArchived s.orders i.orderId = true) :
    (resetItemStep s i).tasks = s.tasks ∧
    (resetItemStep s i).lineItems = (if i.fulfilledQuantity > 0 then
      updWhere LineItem.lineItemId i.lineItemId
        (fun li => { li with fulfilledQuantity := 0 }) s.lineItems else s.lineItems) ∧
    (resetItemStep s i).orders.map Order.orderId = s.orders.map Order.orderId ∧
    (∀ oid, anyNonArchived (resetItemStep s i).orders oid =
      anyNonArchived s.orders oid) := by
  by_cases hf : i.fulfilledQuantity > 0
  · rcases hfo : findBy Order.orderId i.orderId s.orders with _ | o
    · exfalso
      obtain ⟨o, hmem, hid, _⟩ := anyNonArchived_iff.1 hany
      have hsome : (findBy Order.orderId i.orderId s.orders).isSome :=
        findBy_isSome hmem hid
      rw [hfo] at hsome
      simp at hsome
    · have hval2 : resetItemStep s i =
          { s with
            lineItems := updWhere LineItem.lineItemId i.lineItemId
                           (fun li => { li with fulfilledQuantity := 0 }) s.lineItems,
            orders := updWhere Order.orderId i.orderId
                        (resetOrderUpd (max 0 (o.fulfilledItems - i.fulfilledQuantity))
                          o.totalItems)
                        s.orders } := by
        unfold resetItemStep
        rw [if_pos hf]
        simp only [getOrderByOrderId, hfo]
        rfl
      refine ⟨by rw [hval2], ?_, ?_, ?_⟩
      · rw [hval2, if_pos hf]
      · rw [hval2]
        exact map_proj_updWhere Order.orderId i.orderId
          (resetOrderUpd (max 0 (o.fulfilledItems - i.fulfilledQuantity)) o.totalItems)
          Order.orderId (fun _ => rfl) s.orders
      · intro oid
        rw [hval2]
        exact @anyNonArchived_updWhere_nonarch s.orders i.orderId
          (resetOrderUpd (max 0 (o.fulfilledItems - i.fulfilledQuantity)) o.totalItems)
          (fun _ => rfl) (fun x => deriveOrderStatus_ne_archived _ _) hany oid
  · have hval : resetItemStep s i = s := by
      unfold resetItemStep
      rw [if_neg hf]
    rw [hval, if_neg hf]
    exact ⟨rfl, rfl, rfl, fun _ => rfl⟩

theorem resetFold_char :
    ∀ (items : List LineItem) (s : DBState),
      (∀ i ∈ items, anyNonArchived s.orders i.orderId = true) →
      (items.foldl resetItemStep s).tasks = s.tasks ∧
      (items.foldl resetItemStep s).orders.map Order.orderId =
        s.orders.map Order.orderId ∧
      (∀ oid, anyNonArchived (items.foldl resetItemStep s).orders oid =
        anyNonArchived s.orders oid) ∧
      (items.foldl resetItemStep s).lineItems = zeroFulfilled (zeroIds items)
        s.lineItems := by
  intro items
  induction items with
  | nil =>
      intro s _
      refine ⟨rfl, rfl, fun _ => rfl, ?_⟩
      show s.lineItems = zeroFulfilled (zeroIds []) s.lineItems
      unfold zeroFulfilled zeroIds
      simp
  | cons i rest ih =>
      intro s hany
      rw [List.foldl_cons]
      obtain ⟨hst, hsl, hsk, hsa⟩ := resetItemStep_char (hany i (List.mem_cons_self _ _))
      have hany2 : ∀ j ∈ rest, anyNonArchived (resetItemStep s i).orders j.orderId
          = true := by
        intro j hj
        rw [hsa j.orderId]
        exact hany j (List.mem_cons_of_mem _ hj)
      obtain ⟨iht, ihk, iha, ihl⟩ := ih (resetItemStep s i) hany2
      refine ⟨iht.trans hst, ihk.trans hsk, ?_, ?_⟩
      · intro oid
        rw [iha oid, hsa oid]
      · rw [ihl, hsl]
        by_cases hf : i.fulfilledQuantity > 0
        · rw [if_pos hf]
          have hz : zeroIds (i :: rest) = i.lineItemId :: zeroIds rest := by
            unfold zeroIds
            rw [List.filter_cons_of_pos (by simpa using hf), List.map_cons]
          rw [hz]
          exact zeroFulfilled_cons i.lineItemId (zeroIds rest) s.lineItems
        · rw [if_neg hf]
          have hz : zeroIds (i :: rest) = zeroIds rest := by
            unfold zeroIds
            rw [List.filter_cons_of_neg (by simpa using hf)]
          rw [hz]

theorem resetTaskAndOrders_preserves {s : DBState} {v : String} (hwf : wf s)
    (hinv : taskInv s) :
    taskInv (resetTaskAndOrders s v) ∧ wf (resetTaskAndOrders s v) := by
  obtain ⟨hndT, hndO, hndL, hok, hpw⟩ := hwf
  have heq : resetTaskAndOrders s v = (s.lineItems.filter fun li =>
      li.variantId == v && anyNonArchived s.orders li.orderId).foldl resetItemStep
      { s with tasks := updWhere Task.variantId v (fun t =>
        { t with madeQuantity := 0, status := "pending" }) s.tasks } := rfl
  have hany : ∀ i ∈ (s.lineItems.filter fun li =>
      li.variantId == v && anyNonArchived s.orders li.orderId),
      anyNonArchived ({ s with tasks := updWhere Task.variantId v (fun t =>
        { t with madeQuantity := 0, status := "pending" }) s.tasks } :
        DBState).orders i.orderId = true := by
    intro i hi
    have h2 := (List.mem_filter.1 hi).2
    simp only [Bool.and_eq_true] at h2
    exact h2.2
  obtain ⟨hT, hK, hA, hL⟩ := resetFold_char (s.lineItems.filter fun li =>
    li.variantId == v && anyNonArchived s.orders li.orderId) _ hany
  have hfT : (resetTaskAndOrders s v).tasks = updWhere Task.variantId v (fun t =>
      { t with madeQuantity := 0, status := "pending" }) s.tasks := by
    rw [heq]
    exact hT
  have hfK : (resetTaskAndOrders s v).orders.map Order.orderId =
      s.orders.map Order.orderId := by
    rw [heq]
    exact hK
  have hfA : ∀ oid, anyNonArchived (resetTaskAndOrders s v).orders oid =
      anyNonArchived s.orders oid := by
    intro oid
    rw [heq]
    exact hA oid
  have hfL : (resetTaskAndOrders s v).lineItems =
      zeroFulfilled (zeroIds (s.lineItems.filter fun li =>
        li.variantId == v && anyNonArchived s.orders li.orderId)) s.lineItems := by
    rw [heq]
    exact hL
  have hzq : ∀ w, sumQty (resetTaskAndOrders s v) w = sumQty s w := by
    intro w
    show (((resetTaskAndOrders s v).lineItems.filter fun li => li.variantId == w &&
      anyNonArchived (resetTaskAndOrders s v).orders li.orderId).map
      LineItem.quantity).sum = _
    rw [hfL, filter_congr_mem (fun li _ => by rw [hfA li.orderId]),
      filter_zeroFulfilled (fun li => li.variantId == w &&
        anyNonArchived s.orders li.orderId) (fun li => rfl) _ s.lineItems,
      zeroFulfilled_proj LineItem.quantity (fun li => rfl) _ _]
    rfl
  have hzf_v : sumFul (resetTaskAndOrders s v) v = 0 := by
    show (((resetTaskAndOrders s v).lineItems.filter fun li => li.variantId == v &&
      anyNonArchived (resetTaskAndOrders s v).orders li.orderId).map
      LineItem.fulfilledQuantity).sum = 0
    rw [hfL, filter_congr_mem (fun li _ => by rw [hfA li.orderId]),
      filter_zeroFulfilled (fun li => li.variantId == v &&
        anyNonArchived s.orders li.orderId) (fun li => rfl) _ s.lineItems]
    apply List.sum_eq_zero
    intro x hx
    rcases List.mem_map.1 hx with ⟨li2, hli2, rfl⟩
    rcases List.mem_map.1 hli2 with ⟨li, hli, rfl⟩
    by_cases hc : (zeroIds (s.lineItems.filter fun li => li.variantId == v &&
        anyNonArchived s.orders li.orderId)).contains li.lineItemId = true
    · show LineItem.fulfilledQuantity (if (zeroIds (s.lineItems.filter fun li =>
        li.variantId == v && anyNonArchived s.orders li.orderId)).contains
          li.lineItemId then { li with fulfilledQuantity := 0 } else li) = 0
      rw [if_pos hc]
    · show LineItem.fulfilledQuantity (if (zeroIds (s.lineItems.filter fun li =>
        li.variantId == v && anyNonArchived s.orders li.orderId)).contains
          li.lineItemId then { li with fulfilledQuantity := 0 } else li) = 0
      rw [if_neg hc]
      have hnotpos : ¬ li.fulfilledQuantity > 0 := by
        intro hpos
        apply hc
        have hmem : li.lineItemId ∈ zeroIds (s.lineItems.filter fun li =>
            li.variantId == v && anyNonArchived s.orders li.orderId) := by
          unfold zeroIds
          exact List.mem_map_of_mem _ (List.mem_filter.2 ⟨hli, by simpa using hpos⟩)
        simpa using hmem
      have := hok li (List.mem_filter.1 hli).1
      omega
  have hzf_ne : ∀ w, w ≠ v → sumFul (resetTaskAndOrders s v) w = sumFul s w := by
    intro w hw
    show (((resetTaskAndOrders s v).lineItems.filter fun li => li.variantId == w &&
      anyNonArchived (resetTaskAndOrders s v).orders li.orderId).map
      LineItem.fulfilledQuantity).sum = _
    rw [hfL, filter_congr_mem (fun li _ => by rw [hfA li.orderId]),
      filter_zeroFulfilled (fun li => li.variantId == w &&
        anyNonArchived s.orders li.orderId) (fun li => rfl) _ s.lineItems]
    have hmapcong : (zeroFulfilled (zeroIds (s.lineItems.filter fun li =>
        li.variantId == v && anyNonArchived s.orders li.orderId))
        (s.lineItems.filter fun li => li.variantId == w &&
          anyNonArchived s.orders li.orderId)).map LineItem.fulfilledQuantity =
        (s.lineItems.filter fun li => li.variantId == w &&
          anyNonArchived s.orders li.orderId).map LineItem.fulfilledQuantity := by
      unfold zeroFulfilled
      rw [List.map_map]
      apply List.map_congr_left
      intro li hli
      show LineItem.fulfilledQuantity (if (zeroIds (s.lineItems.filter fun li =>
        li.variantId == v && anyNonArchived s.orders li.orderId)).contains
          li.lineItemId then { li with fulfilledQuantity := 0 } else li) =
        li.fulfilledQuantity
      have hc : ¬ (zeroIds (s.lineItems.filter fun li => li.variantId == v &&
          anyNonArchived s.orders li.orderId)).contains li.lineItemId = true := by
        intro hcon
        have hmem : li.lineItemId ∈ zeroIds (s.lineItems.filter fun li =>
            li.variantId == v && anyNonArchived s.orders li.orderId) := by
          simpa using hcon
        unfold zeroIds at hmem
        rcases List.mem_map.1 hmem with ⟨item, hitem, hideq⟩
        have hitem2 := List.mem_filter.1 hitem
        have hitem3 := List.mem_filter.1 hitem2.1
        have hli2 := List.mem_filter.1 hli
        have heqli : li = item :=
          eq_of_key_eq hndL hli2.1 hitem3.1 (by rw [hideq])
        have hvv : item.variantId = v := by
          have := hitem3.2
          simp only [Bool.and_eq_true, beq_iff_eq] at this
          exact this.1
        have hvw : li.variantId = w := by
          have := hli2.2
          simp only [Bool.and_eq_true, beq_iff_eq] at this
          exact this.1
        rw [heqli] at hvw
        exact hw (hvw.symm.trans hvv)
      rw [if_neg hc]
    rw [hmapcong]
    rfl
  refine ⟨?_, ?_, ?_, ?_, ?_, ?_⟩
  · intro t2 ht2
    rw [hfT] at ht2
    rcases mem_updWhere2 ht2 with ⟨ht2m, hne⟩ | ⟨t, htm, htk, hteq⟩
    · rw [hzq, hzf_ne _ hne]
      exact hinv t2 ht2m
    · rw [hteq]
      constructor
      · show t.totalQuantity = sumQty (resetTaskAndOrders s v) t.variantId
        rw [hzq t.variantId]
        exact (hinv t htm).1
      · show (0 : Int) = sumFul (resetTaskAndOrders s v) t.variantId
        rw [htk, hzf_v]
  · rw [hfT, map_proj_updWhere Task.variantId v (fun t =>
      { t with madeQuantity := 0, status := "pending" }) Task.variantId (fun _ => rfl)]
    exact hndT
  · rw [hfK]
    exact hndO
  · rw [hfL, zeroFulfilled_proj LineItem.lineItemId (fun _ => rfl) _ _]
    exact hndL
  · rw [hfL]
    intro li2 hli2
    rcases List.mem_map.1 hli2 with ⟨li, hli, rfl⟩
    have hbase := hok li hli
    by_cases hc : (zeroIds (s.lineItems.filter fun li => li.variantId == v &&
        anyNonArchived s.orders li.orderId)).contains li.lineItemId = true
    · show 0 ≤ LineItem.fulfilledQuantity (if (zeroIds (s.lineItems.filter fun li =>
        li.variantId == v && anyNonArchived s.orders li.orderId)).contains
          li.lineItemId then { li with fulfilledQuantity := 0 } else li) ∧
        LineItem.fulfilledQuantity (if (zeroIds (s.lineItems.filter fun li =>
          li.variantId == v && anyNonArchived s.orders li.orderId)).contains
            li.lineItemId then { li with fulfilledQuantity := 0 } else li) ≤
        LineItem.quantity (if (zeroIds (s.lineItems.filter fun li =>
          li.variantId == v && anyNonArchived s.orders li.orderId)).contains
            li.lineItemId then { li with fulfilledQuantity := 0 } else li)
      rw [if_pos hc]
      refine ⟨le_refl 0, ?_⟩
      show (0 : Int) ≤ li.quantity
      omega
    · show 0 ≤ LineItem.fulfilledQuantity (if (zeroIds (s.lineItems.filter fun li =>
        li.variantId == v && anyNonArchived s.orders li.orderId)).contains
          li.lineItemId then { li with fulfilledQuantity := 0 } else li) ∧
        LineItem.fulfilledQuantity (if (zeroIds (s.lineItems.filter fun li =>
          li.variantId == v && anyNonArchived s.orders li.orderId)).contains
            li.lineItemId then { li with fulfilledQuantity := 0 } else li) ≤
        LineItem.quantity (if (zeroIds (s.lineItems.filter fun li =>
          li.variantId == v && anyNonArchived s.orders li.orderId)).contains
            li.lineItemId then { li with fulfilledQuantity := 0 } else li)
      rw [if_neg hc]
      exact hbase
  · rw [hfL]
    exact pairwise_ov_zeroFulfilled _ hpw

theorem foldl_state_tasks (g : String → List Task → List Task) :
    ∀ (ks : List String) (s : DBState),
      ks.foldl (fun st v => { st with tasks := g v st.tasks }) s =
        { s with tasks := ks.foldl (fun acc v => g v acc) s.tasks } := by
  intro ks
  induction ks with
  | nil => intro s; rfl
  | cons k ks ih =>
      intro s
      rw [List.foldl_cons, List.foldl_cons, ih]

theorem recalc_eq (s : DBState) :
    recalculateTaskTotalsFromOrders s =
      { s with tasks := (recalcVariants s).foldl (fun acc v =>
                          updWhere Task.variantId v (recalcUpd (recalcItems s) v) acc)
                          s.tasks } :=
  foldl_state_tasks (fun v acc =>
    updWhere Task.variantId v (recalcUpd (recalcItems s) v) acc) (recalcVariants s) s

theorem foldl_updWhere_distinct (g : String → Task → Task)
    (hg : ∀ k t, (g k t).variantId = t.variantId) :
    ∀ (ks : List String) (ts : List Task), ks.Nodup →
      ks.foldl (fun acc k => updWhere Task.variantId k (g k) acc) ts =
        ts.map fun t => if ks.contains t.variantId then g t.variantId t else t := by
  intro ks
  induction ks with
  | nil =>
      intro ts _
      rw [List.foldl_nil]
      have h1 : (ts.map fun t => if ([] : List String).contains t.variantId then
          g t.variantId t else t) = ts.map id :=
        List.map_congr_left (fun t _ => by rw [if_neg (by simp)]; rfl)
      rw [h1, List.map_id]
  | cons k ks ih =>
      intro ts hnd
      rw [List.nodup_cons] at hnd
      rw [List.foldl_cons, ih _ hnd.2]
      unfold updWhere
      rw [List.map_map]
      apply List.map_congr_left
      intro t ht
      show (fun t => if ks.contains t.variantId then g t.variantId t else t)
        (if t.variantId == k then g k t else t) =
        if (k :: ks).contains t.variantId then g t.variantId t else t
      by_cases h1 : (t.variantId == k) = true
      · rw [if_pos h1]
        have hteq : t.variantId = k := by simpa using h1
        have hc2 : ks.contains (g k t).variantId = false := by
          rw [hg k t, hteq]
          rcases hcon : ks.contains k with _ | _
          · rfl
          · exact absurd (by simpa using hcon) hnd.1
        show (if ks.contains (g k t).variantId then g (g k t).variantId (g k t)
          else g k t) = _
        rw [if_neg (by rw [hc2]; simp)]
        have hck : (k :: ks).contains t.variantId = true := by
          rw [List.contains_cons, h1, Bool.true_or]
        rw [if_pos hck, hteq]
      · rw [if_neg h1]
        show (if ks.contains t.variantId then g t.variantId t else t) =
          if (k :: ks).contains t.variantId then g t.variantId t else t
        have hb : (t.variantId == k) = false := by
          simpa using h1
        rw [List.contains_cons, hb, Bool.false_or]

theorem DBState_eq_of_fields {a b : DBState} (h1 : a.tasks = b.tasks)
    (h2 : a.orders = b.orders) (h3 : a.lineItems = b.lineItems) : a = b := by
  have ha : a = { tasks := a.tasks, orders := a.orders, lineItems := a.lineItems } := rfl
  rw [ha, h1, h2, h3]

theorem updWhere_updWhere (key : α → String) (k : String) (f g : α → α) (l : List α)
    (hg : ∀ x, key (g x) = key x) :
    updWhere key k f (updWhere key k g l) = updWhere key k (fun x => f (g x)) l := by
  unfold updWhere
  rw [List.map_map]
  apply List.map_congr_left
  intro x _
  by_cases hx : (key x == k) = true
  · show (fun y => if key y == k then f y else y) (if key x == k then g x else x) = _
    rw [if_pos hx, if_pos hx]
    show (if key (g x) == k then f (g x) else g x) = f (g x)
    rw [hg]
    rw [if_pos hx]
  · show (fun y => if key y == k then f y else y) (if key x == k then g x else x) = _
    rw [if_neg hx, if_neg hx]
    show (if key x == k then f x else x) = x
    rw [if_neg hx]

theorem updWhere_congr_mem (key : α → String) (k : String) (f g : α → α) (l : List α)
    (h : ∀ x ∈ l, key x = k → f x = g x) :
    updWhere key k f l = updWhere key k g l := by
  unfold updWhere
  apply List.map_congr_left
  intro x hx
  by_cases hk : (key x == k) = true
  · rw [if_pos hk, if_pos hk]
    exact h x hx (by simpa using hk)
  · rw [if_neg hk, if_neg hk]

theorem updWhere_absorb (key : α → String) (k : String) (f g : α → α) (l : List α)
    (hg : ∀ x, key (g x) = key x) (hfg : ∀ x, f (g x) = f x) :
    updWhere key k f (updWhere key k g l) = updWhere key k f l := by
  rw [updWhere_updWhere key k f g l hg]
  exact updWhere_congr_mem key k _ f l (fun x _ _ => hfg x)

theorem archiveOrder_eq {s : DBState} {oid : String} {o : Order}
    (hfind : findBy Order.orderId oid s.orders = some o)
    (hstat : (o.status == "archived") = false) :
    archiveOrder s oid = .ok (.archived, archivedState s oid) := by
  have h0 : getOrderByOrderId s oid = some o := hfind
  have h1 : archiveOrder s oid = (if o.status == "archived" then
      Except.ok (ArchiveOutcome.alreadyArchived, s)
    else Except.ok (ArchiveOutcome.archived, archivedState s oid)) := by
    unfold archiveOrder
    rw [h0]
    rfl
  rw [h1, if_neg (by simp [hstat])]

theorem unarchiveOrder_eq {s : DBState} {oid : String} {o : Order}
    (hfind : findBy Order.orderId oid s.orders = some o)
    (hstat : (o.status != "archived") = false) :
    unarchiveOrder s oid = .ok
      (.unarchived (deriveOrderStatus o.fulfilledItems o.totalItems),
       unarchivedState s oid (deriveOrderStatus o.fulfilledItems o.totalItems)) := by
  have h0 : getOrderByOrderId s oid = some o := hfind
  have h1 : unarchiveOrder s oid = (if o.status != "archived" then
      Except.ok (UnarchiveOutcome.notArchived, s)
    else Except.ok (UnarchiveOutcome.unarchived
      (deriveOrderStatus o.fulfilledItems o.totalItems),
      unarchivedState s oid (deriveOrderStatus o.fulfilledItems o.totalItems))) := by
    unfold unarchiveOrder
    rw [h0]
    rfl
  rw [h1, if_neg (by simp [hstat])]

theorem cycle_eq {s : DBState} {oid : String} {o : Order}
    (hfind : findBy Order.orderId oid s.orders = some o)
    (hstat : o.status ≠ "archived") :
    archiveUnarchiveCycle s oid =
      unarchivedState (archivedState s oid) oid
        (deriveOrderStatus o.fulfilledItems o.totalItems) := by
  have hb : (o.status == "archived") = false := by
    simpa using hstat
  have hAeq := archiveOrder_eq hfind hb
  have hfind2 : findBy Order.orderId oid (archivedState s oid).orders =
      some { o with status := "archived" } := by
    show findBy Order.orderId oid (updWhere Order.orderId oid
      (fun x => { x with status := "archived" }) s.orders) = _
    rw [findBy_updWhere_self Order.orderId oid
      (fun x => { x with status := "archived" }) s.orders (fun _ => rfl), hfind]
    rfl
  have hstat2 : (({ o with status := "archived" } : Order).status != "archived")
      = false := by
    simp
  have hUeq := unarchiveOrder_eq hfind2 hstat2
  unfold archiveUnarchiveCycle
  rw [hAeq]
  show (match unarchiveOrder (archivedState s oid) oid with
    | .error _ => archivedState s oid
    | .ok (_, s2) => s2) =
    unarchivedState (archivedState s oid) oid
      (deriveOrderStatus o.fulfilledItems o.totalItems)
  rw [hUeq]

theorem deallocTask1_none {t : Task} {i : LineItem} (h : deallocTask1 t i = none) :
    max 0 (t.totalQuantity - i.quantity) = 0 := by
  unfold deallocTask1 at h
  by_cases hz : max 0 (t.totalQuantity - i.quantity) = 0
  · exact hz
  · rw [if_neg hz] at h
    cases h

theorem deallocTask1_status {t : Task} {i : LineItem} {t2 : Task}
    (h : deallocTask1 t i = some t2) :
    t2.status = deriveTaskStatus t2.madeQuantity t2.totalQuantity := by
  unfold deallocTask1 at h
  by_cases hz : max 0 (t.totalQuantity - i.quantity) = 0
  · rw [if_pos hz] at h
    cases h
  · rw [if_neg hz] at h
    cases h
    rfl

theorem dealloc_realloc (t : Task) (i : LineItem) (htot : 0 < t.totalQuantity)
    (hmade : 0 ≤ t.madeQuantity)
    (hstatus : t.status = deriveTaskStatus t.madeQuantity t.totalQuantity) :
    deallocTask1 (reallocTask1 t i) i = some t := by
  have hTot : max 0 ((reallocTask1 t i).totalQuantity - i.quantity) =
      t.totalQuantity := by
    show max 0 ((t.totalQuantity + i.quantity) - i.quantity) = t.totalQuantity
    omega
  have hMade : max 0 ((reallocTask1 t i).madeQuantity - i.fulfilledQuantity) =
      t.madeQuantity := by
    show max 0 ((t.madeQuantity + i.fulfilledQuantity) - i.fulfilledQuantity) =
      t.madeQuantity
    omega
  unfold deallocTask1
  rw [hTot, hMade, if_neg (by omega)]
  rw [show deriveTaskStatus t.madeQuantity t.totalQuantity = t.status from hstatus.symm]
  rfl

theorem dealloc_fromItem (i : LineItem) :
    deallocTask1 (taskFromLineItem i) i = none := by
  have hTot : max 0 ((taskFromLineItem i).totalQuantity - i.quantity) = 0 := by
    show max 0 (i.quantity - i.quantity) = 0
    omega
  unfold deallocTask1
  rw [hTot, if_pos rfl]

theorem archFold_row_cond {items : List LineItem} {T0 : List Task}
    (hndT : (T0.map Task.variantId).Nodup)
    (hvar : (items.map LineItem.variantId).Nodup) :
    ∀ t ∈ items.foldl archiveDeallocStep T0, ∀ i ∈ items, i.variantId = t.variantId →
      0 < t.totalQuantity ∧ 0 ≤ t.madeQuantity ∧
      t.status = deriveTaskStatus t.madeQuantity t.totalQuantity := by
  intro t ht i hi hiv
  rw [archiveFold_char items T0 hndT hvar] at ht
  rcases List.mem_filterMap.1 ht with ⟨t0, ht0, hphi⟩
  rcases hfi : items.find? (fun x => x.variantId == t0.variantId) with _ | j
  · rw [hfi] at hphi
    cases hphi
    exfalso
    rw [List.find?_eq_none] at hfi
    have := hfi i hi
    simp [hiv] at this
  · rw [hfi] at hphi
    obtain ⟨hnz, htot, hmade, _⟩ := deallocTask1_some hphi
    refine ⟨by omega, by omega, deallocTask1_status hphi⟩

theorem archFold_unarchFold (items : List LineItem) (TA : List Task)
    (hndT : (TA.map Task.variantId).Nodup)
    (hvar : (items.map LineItem.variantId).Nodup)
    (hcond : ∀ t ∈ TA, ∀ i ∈ items, i.variantId = t.variantId →
      0 < t.totalQuantity ∧ 0 ≤ t.madeQuantity ∧
      t.status = deriveTaskStatus t.madeQuantity t.totalQuantity) :
    items.foldl archiveDeallocStep (items.foldl unarchiveReallocStep TA) = TA := by
  have hndTB : ((items.foldl unarchiveReallocStep TA).map Task.variantId).Nodup :=
    unarchiveFold_nodup items TA hndT hvar
  rw [archiveFold_char items _ hndTB hvar, unarchiveFold_char items TA hndT hvar,
    List.filterMap_append]
  have hA : ((TA.map fun t =>
      match items.find? (fun i => i.variantId == t.variantId) with
      | none => t
      | some i => reallocTask1 t i).filterMap fun t =>
        match items.find? (fun i => i.variantId == t.variantId) with
        | none => some t
        | some i => deallocTask1 t i) = TA := by
    rw [List.filterMap_map]
    have hpt : ∀ t ∈ TA, ((fun t =>
        match items.find? (fun i => i.variantId == t.variantId) with
        | none => some t
        | some i => deallocTask1 t i) ∘ fun t =>
        match items.find? (fun i => i.variantId == t.variantId) with
        | none => t
        | some i => reallocTask1 t i) t = some t := by
      intro t ht
      rcases hfi : items.find? (fun i => i.variantId == t.variantId) with _ | i
      · show (match items.find? (fun i => i.variantId ==
          Task.variantId (match items.find? (fun i => i.variantId == t.variantId) with
            | none => t
            | some i => reallocTask1 t i)) with
          | none => some (match items.find? (fun i => i.variantId == t.variantId) with
            | none => t
            | some i => reallocTask1 t i)
          | some i => deallocTask1 (match items.find?
              (fun i => i.variantId == t.variantId) with
            | none => t
            | some i => reallocTask1 t i) i) = some t
        rw [hfi]
        show (match items.find? (fun i => i.variantId == t.variantId) with
          | none => some t
          | some i => deallocTask1 t i) = some t
        rw [hfi]
      · show (match items.find? (fun i => i.variantId ==
          Task.variantId (match items.find? (fun i => i.variantId == t.variantId) with
            | none => t
            | some i => reallocTask1 t i)) with
          | none => some (match items.find? (fun i => i.variantId == t.variantId) with
            | none => t
            | some i => reallocTask1 t i)
          | some i => deallocTask1 (match items.find?
              (fun i => i.variantId == t.variantId) with
            | none => t
            | some i => reallocTask1 t i) i) = some t
        rw [hfi]
        show (match items.find? (fun j => j.variantId == (reallocTask1 t i).variantId)
            with
          | none => some (reallocTask1 t i)
          | some j => deallocTask1 (reallocTask1 t i) j) = some t
        rw [show (reallocTask1 t i).variantId = t.variantId from rfl, hfi]
        show deallocTask1 (reallocTask1 t i) i = some t
        have himem : i ∈ items := List.mem_of_find?_eq_some hfi
        have hiv : i.variantId = t.variantId := by
          have := List.find?_some hfi
          simpa using this
        obtain ⟨h1, h2, h3⟩ := hcond t ht i himem hiv
        exact dealloc_realloc t i h1 h2 h3
    rw [filterMap_congr_mem hpt]
    exact List.filterMap_some _
  have hB : (((items.filter fun i =>
      !(findBy Task.variantId i.variantId TA).isSome).map taskFromLineItem).filterMap
        fun t => match items.find? (fun i => i.variantId == t.variantId) with
          | none => some t
          | some i => deallocTask1 t i) = [] := by
    rw [List.filterMap_map]
    rw [List.filterMap_eq_nil]
    intro i hi
    show (match items.find? (fun x => x.variantId ==
        (taskFromLineItem i).variantId) with
      | none => some (taskFromLineItem i)
      | some j => deallocTask1 (taskFromLineItem i) j) = none
    rw [show (taskFromLineItem i).variantId = i.variantId from rfl]
    have hfi : items.find? (fun x => x.variantId == i.variantId) = some i := by
      show findBy LineItem.variantId i.variantId items = some i
      exact findBy_eq_self hvar (List.mem_filter.1 hi).1
    rw [hfi]
    show deallocTask1 (taskFromLineItem i) i = none
    exact dealloc_fromItem i
  rw [hA, hB, List.append_nil]

theorem sums_after_archive {s : DBState} {oid : String} {i : LineItem}
    (hndL : (s.lineItems.map LineItem.lineItemId).Nodup)
    (hok : ∀ li ∈ s.lineItems,
      0 ≤ li.fulfilledQuantity ∧ li.fulfilledQuantity ≤ li.quantity)
    (hpw : s.lineItems.Pairwise fun a b =>
      a.orderId = b.orderId → a.variantId ≠ b.variantId)
    (hanyO : anyNonArchived s.orders oid = true)
    (hi : i ∈ s.lineItems) (hioid : i.orderId = oid) :
    sumQty (archivedState s oid) i.variantId = sumQty s i.variantId - i.quantity ∧
    sumFul (archivedState s oid) i.variantId =
      sumFul s i.variantId - i.fulfilledQuantity ∧
    0 ≤ sumFul s i.variantId - i.fulfilledQuantity ∧
    sumFul s i.variantId - i.fulfilledQuantity ≤
      sumQty s i.variantId - i.quantity := by
  have hsingle : (s.lineItems.filter fun li => (li.variantId == i.variantId &&
      anyNonArchived s.orders li.orderId) && li.orderId == oid) = [i] := by
    apply filter_eq_singleton (List.Nodup.of_map _ hndL) hi
    · simp only [Bool.and_eq_true, beq_iff_eq]
      exact ⟨⟨trivial, by rw [hioid]; exact hanyO⟩, hioid⟩
    · intro x hx hcond
      simp only [Bool.and_eq_true, beq_iff_eq] at hcond
      exact pairwise_ov_unique hpw hx hi (by rw [hcond.2, hioid]) hcond.1.1
  have hq := sum_nonarch_archive LineItem.quantity s.lineItems s.orders oid i.variantId
  have hf := sum_nonarch_archive LineItem.fulfilledQuantity s.lineItems s.orders oid
    i.variantId
  rw [hsingle] at hq hf
  simp only [List.map_cons, List.map_nil, List.sum_cons, List.sum_nil,
    add_zero] at hq hf
  have hrest : sumQty s i.variantId = i.quantity +
      ((s.lineItems.filter fun li => (li.variantId == i.variantId &&
        anyNonArchived s.orders li.orderId) && !(li.orderId == oid)).map
        LineItem.quantity).sum := by
    have hsp := sum_filter_split LineItem.quantity
      (fun li => li.variantId == i.variantId && anyNonArchived s.orders li.orderId)
      (fun li => li.orderId == oid) s.lineItems
    rw [hsingle] at hsp
    simp only [List.map_cons, List.map_nil, List.sum_cons, List.sum_nil,
      add_zero] at hsp
    exact hsp
  have hrestf : sumFul s i.variantId = i.fulfilledQuantity +
      ((s.lineItems.filter fun li => (li.variantId == i.variantId &&
        anyNonArchived s.orders li.orderId) && !(li.orderId == oid)).map
        LineItem.fulfilledQuantity).sum := by
    have hsp := sum_filter_split LineItem.fulfilledQuantity
      (fun li => li.variantId == i.variantId && anyNonArchived s.orders li.orderId)
      (fun li => li.orderId == oid) s.lineItems
    rw [hsingle] at hsp
    simp only [List.map_cons, List.map_nil, List.sum_cons, List.sum_nil,
      add_zero] at hsp
    exact hsp
  have hge : 0 ≤ ((s.lineItems.filter fun li => (li.variantId == i.variantId &&
      anyNonArchived s.orders li.orderId) && !(li.orderId == oid)).map
      LineItem.fulfilledQuantity).sum := by
    apply List.sum_nonneg
    intro x hxm
    rcases List.mem_map.1 hxm with ⟨li, hli, rfl⟩
    exact (hok li (List.mem_filter.1 hli).1).1
  have hle : ((s.lineItems.filter fun li => (li.variantId == i.variantId &&
      anyNonArchived s.orders li.orderId) && !(li.orderId == oid)).map
      LineItem.fulfilledQuantity).sum ≤
      ((s.lineItems.filter fun li => (li.variantId == i.variantId &&
        anyNonArchived s.orders li.orderId) && !(li.orderId == oid)).map
        LineItem.quantity).sum := by
    apply List.sum_le_sum
    intro li hli
    exact (hok li (List.mem_filter.1 hli).1).2
  exact ⟨hq, hf, by omega, by omega⟩

theorem cycle_roundtrip {s : DBState} {oid : String} {o : Order}
    (hwf : wf s) (hinv : taskInv s)
    (hfind : findBy Order.orderId oid s.orders = some o)
    (hstat : o.status ≠ "archived")
    (htasks : ∀ i ∈ getOrderLineItems s oid,
      (findBy Task.variantId i.variantId s.tasks).isSome) :
    (archiveUnarchiveCycle s oid).lineItems = s.lineItems ∧
    (archiveUnarchiveCycle s oid).orders = updWhere Order.orderId oid
      (fun x => { x with status := deriveOrderStatus x.fulfilledItems x.totalItems })
      s.orders ∧
    taskInv (archiveUnarchiveCycle s oid) ∧ wf (archiveUnarchiveCycle s oid) ∧
    (∀ i ∈ getOrderLineItems s oid,
      (findBy Task.variantId i.variantId (archiveUnarchiveCycle s oid).tasks).isSome) ∧
    archiveUnarchiveCycle (archiveUnarchiveCycle s oid) oid =
      archiveUnarchiveCycle s oid := by
  obtain ⟨hndT, hndO, hndL, hok, hpw⟩ := hwf
  have hb : (o.status == "archived") = false := by
    simpa using hstat
  have hcyc := cycle_eq hfind hstat
  have hvar : ((s.lineItems.filter fun li => li.orderId == oid).map
      LineItem.variantId).Nodup := order_items_var_nodup hpw oid
  have hanyO : anyNonArchived s.orders oid = true :=
    anyNonArchived_iff.2 ⟨o, findBy_mem hfind, findBy_key hfind, hstat⟩
  have hAeq := archiveOrder_eq hfind hb
  have hpres1 := archiveOrder_preserves ⟨hndT, hndO, hndL, hok, hpw⟩ hinv hAeq
  have hndTA : (((getOrderLineItems s oid).foldl archiveDeallocStep s.tasks).map
      Task.variantId).Nodup := archiveFold_nodup _ _ hndT
  have hcondTA := @archFold_row_cond (getOrderLineItems s oid) s.tasks hndT hvar
  have hside : ∀ i ∈ getOrderLineItems (archivedState s oid) oid,
      findBy Task.variantId i.variantId (archivedState s oid).tasks = none →
      sumQty (archivedState s oid) i.variantId = 0 ∧
      sumFul (archivedState s oid) i.variantId = 0 := by
    intro i hi habs
    have hi0 : i ∈ getOrderLineItems s oid := hi
    have himem : i ∈ s.lineItems := (List.mem_filter.1 hi0).1
    have hioid : i.orderId = oid := by
      simpa using (List.mem_filter.1 hi0).2
    have hsome := htasks i hi0
    rcases hfb : findBy Task.variantId i.variantId s.tasks with _ | t0
    · rw [hfb] at hsome
      simp at hsome
    · have ht0mem := findBy_mem hfb
      have ht0key : t0.variantId = i.variantId := findBy_key hfb
      have hfi : (getOrderLineItems s oid).find? (fun x => x.variantId == t0.variantId)
          = some i := by
        show findBy LineItem.variantId t0.variantId (getOrderLineItems s oid) = some i
        rw [ht0key]
        exact findBy_eq_self hvar hi0
      have hphi : deallocTask1 t0 i = none := by
        rcases hd : deallocTask1 t0 i with _ | t2
        · rfl
        · exfalso
          have ht2mem : t2 ∈ (getOrderLineItems s oid).foldl archiveDeallocStep
              s.tasks := by
            rw [archiveFold_char (getOrderLineItems s oid) s.tasks hndT hvar]
            refine List.mem_filterMap.2 ⟨t0, ht0mem, ?_⟩
            rw [hfi]
            show deallocTask1 t0 i = some t2
            exact hd
          have ht2var : t2.variantId = t0.variantId := (deallocTask1_some hd).2.2.2
          have hs2 : (findBy Task.variantId i.variantId
              ((getOrderLineItems s oid).foldl archiveDeallocStep s.tasks)).isSome :=
            findBy_isSome ht2mem (by rw [ht2var, ht0key])
          have habs2 : findBy Task.variantId i.variantId
              ((getOrderLineItems s oid).foldl archiveDeallocStep s.tasks) =
              none := habs
          rw [habs2] at hs2
          simp at hs2
      have hmax := deallocTask1_none hphi
      have hsums := sums_after_archive hndL hok hpw hanyO himem hioid
      have hinv0 := hinv t0 ht0mem
      rw [ht0key] at hinv0
      have h1 := hsums.1
      have h2 := hsums.2.1
      have h3 := hsums.2.2.1
      have h4 := hsums.2.2.2
      constructor
      · rw [h1]
        omega
      · rw [h2]
        omega
  have hstat2 : (({ o with status := "archived" } : Order).status != "archived")
      = false := by
    simp
  have hfind2 : findBy Order.orderId oid (archivedState s oid).orders =
      some { o with status := "archived" } := by
    show findBy Order.orderId oid (updWhere Order.orderId oid
      (fun x => { x with status := "archived" }) s.orders) = _
    rw [findBy_updWhere_self Order.orderId oid
      (fun x => { x with status := "archived" }) s.orders (fun _ => rfl), hfind]
    rfl
  have hUeq := unarchiveOrder_eq hfind2 hstat2
  have hpres2 := unarchiveOrder_preserves hpres1.2 hpres1.1 hside hUeq
  refine ⟨?_, ?_, ?_, ?_, ?_, ?_⟩
  · rw [hcyc]
    rfl
  · rw [hcyc]
    show updWhere Order.orderId oid
      (fun x => { x with status := deriveOrderStatus o.fulfilledItems o.totalItems })
      (updWhere Order.orderId oid (fun x => { x with status := "archived" })
        s.orders) = _
    rw [updWhere_updWhere Order.orderId oid
      (fun x => { x with status := deriveOrderStatus o.fulfilledItems o.totalItems })
      (fun x => { x with status := "archived" }) s.orders (fun _ => rfl)]
    apply updWhere_congr_mem
    intro x hx hxk
    have hxo : x = o := eq_of_key_eq hndO hx (findBy_mem hfind)
      (hxk.trans (findBy_key hfind).symm)
    rw [hxo]
  · rw [hcyc]
    exact hpres2.1
  · rw [hcyc]
    exact hpres2.2
  · intro i hi
    rw [hcyc]
    show (findBy Task.variantId i.variantId
      ((getOrderLineItems s oid).foldl unarchiveReallocStep
        ((getOrderLineItems s oid).foldl archiveDeallocStep s.tasks))).isSome
    rw [unarchiveFold_char (getOrderLineItems s oid)
      ((getOrderLineItems s oid).foldl archiveDeallocStep s.tasks) hndTA hvar]
    rcases hta : findBy Task.variantId i.variantId
        ((getOrderLineItems s oid).foldl archiveDeallocStep s.tasks) with _ | t
    · have hrecmem : taskFromLineItem i ∈
          ((getOrderLineItems s oid).filter fun j =>
            !(findBy Task.variantId j.variantId
              ((getOrderLineItems s oid).foldl archiveDeallocStep
                s.tasks)).isSome).map taskFromLineItem := by
        apply List.mem_map_of_mem
        refine List.mem_filter.2 ⟨hi, ?_⟩
        rw [hta]
        rfl
      exact findBy_isSome (List.mem_append_right _ hrecmem) rfl
    · have hkeypsi : Task.variantId (match (getOrderLineItems s oid).find?
          (fun j => j.variantId == t.variantId) with
        | none => t
        | some j => reallocTask1 t j) = t.variantId := by
        rcases hj : (getOrderLineItems s oid).find?
            (fun j => j.variantId == t.variantId) with _ | j
        · rw [hj]
        · rw [hj]
          rfl
      refine findBy_isSome (List.mem_append_left _
        (List.mem_map_of_mem _ (findBy_mem hta))) ?_
      rw [hkeypsi, findBy_key hta]
  · rw [hcyc]
    have hfindB : findBy Order.orderId oid
        (unarchivedState (archivedState s oid) oid
          (deriveOrderStatus o.fulfilledItems o.totalItems)).orders =
        some { o with status := deriveOrderStatus o.fulfilledItems o.totalItems } := by
      show findBy Order.orderId oid (updWhere Order.orderId oid
        (fun x => { x with
          status := deriveOrderStatus o.fulfilledItems o.totalItems })
        (updWhere Order.orderId oid (fun x => { x with status := "archived" })
          s.orders)) = _
      rw [findBy_updWhere_self Order.orderId oid
        (fun x => { x with
          status := deriveOrderStatus o.fulfilledItems o.totalItems }) _
        (fun _ => rfl),
        findBy_updWhere_self Order.orderId oid
          (fun x => { x with status := "archived" }) s.orders (fun _ => rfl), hfind]
      rfl
    have hstatB : ({ o with
        status := deriveOrderStatus o.fulfilledItems o.totalItems } : Order).status ≠
        "archived" := deriveOrderStatus_ne_archived _ _
    have hcycB := cycle_eq hfindB hstatB
    rw [hcycB]
    apply DBState_eq_of_fields
    · show (getOrderLineItems s oid).foldl unarchiveReallocStep
        ((getOrderLineItems s oid).foldl archiveDeallocStep
          ((getOrderLineItems s oid).foldl unarchiveReallocStep
            ((getOrderLineItems s oid).foldl archiveDeallocStep s.tasks))) =
        (getOrderLineItems s oid).foldl unarchiveReallocStep
          ((getOrderLineItems s oid).foldl archiveDeallocStep s.tasks)
      rw [archFold_unarchFold (getOrderLineItems s oid)
        ((getOrderLineItems s oid).foldl archiveDeallocStep s.tasks) hndTA hvar
        hcondTA]
    · show updWhere Order.orderId oid
        (fun x => { x with
          status := deriveOrderStatus o.fulfilledItems o.totalItems })
        (updWhere Order.orderId oid (fun x => { x with status := "archived" })
          (updWhere Order.orderId oid
            (fun x => { x with
              status := deriveOrderStatus o.fulfilledItems o.totalItems })
            (updWhere Order.orderId oid
              (fun x => { x with status := "archived" }) s.orders))) =
        updWhere Order.orderId oid
          (fun x => { x with
            status := deriveOrderStatus o.fulfilledItems o.totalItems })
          (updWhere Order.orderId oid (fun x => { x with status := "archived" })
            s.orders)
      rw [updWhere_absorb Order.orderId oid
        (fun x => { x with status := "archived" })
        (fun x => { x with
          status := deriveOrderStatus o.fulfilledItems o.totalItems })
        (updWhere Order.orderId oid (fun x => { x with status := "archived" })
          s.orders) (fun _ => rfl) (fun _ => rfl)]
      rw [updWhere_absorb Order.orderId oid
        (fun x => { x with status := "archived" })
        (fun x => { x with status := "archived" }) s.orders
        (fun _ => rfl) (fun _ => rfl)]
    · rfl

theorem recalc_char (s : DBState) :
    recalculateTaskTotalsFromOrders s =
      { s with tasks := s.tasks.map fun t =>
                          if (recalcVariants s).contains t.variantId then
                            recalcUpd (recalcItems s) t.variantId t
                          else t } := by
  rw [recalc_eq]
  rw [foldl_updWhere_distinct (recalcUpd (recalcItems s)) (fun k t => rfl)
      (recalcVariants s) s.tasks (List.nodup_dedup _)]

/-! ## Upserts (C5) -/

theorem any_key_isSome (key : α → String) (k : String) (l : List α) :
    l.any (fun x => key x == k) = (findBy key k l).isSome := by
  induction l with
  | nil => rfl
  | cons a l ih =>
      rw [List.any_cons, ih]
      show ((key a == k) || (findBy key k l).isSome) =
        (List.find? (fun x => key x == k) (a :: l)).isSome
      rw [List.find?_cons]
      by_cases ha : (key a == k) = true
      · rw [ha]
        rfl
      · have hb : (key a == k) = false := by
          simpa using ha
        rw [hb, Bool.false_or]
        rfl

theorem upsertTask_conflict {s : DBState} {a : Task} {t0 : Task}
    (hfind : findBy Task.variantId a.variantId s.tasks = some t0) :
    findBy Task.variantId a.variantId (upsertTask s a).tasks =
      some { t0 with variantTitle := a.variantTitle
                     productTitle := a.productTitle
                     sku := a.sku
                     imageUrl := a.imageUrl
                     totalQuantity := a.totalQuantity } ∧
    (upsertTask s a).orders = s.orders ∧
    (upsertTask s a).lineItems = s.lineItems := by
  have hany : (s.tasks.any fun x => x.variantId == a.variantId) = true := by
    rw [any_key_isSome Task.variantId a.variantId s.tasks, hfind]
    rfl
  have ht : (upsertTask s a).tasks = updWhere Task.variantId a.variantId (fun x =>
      { x with variantTitle := a.variantTitle
               productTitle := a.productTitle
               sku := a.sku
               imageUrl := a.imageUrl
               totalQuantity := a.totalQuantity }) s.tasks := by
    show upsertTaskRow s.tasks a = _
    unfold upsertTaskRow
    rw [if_pos hany]
  refine ⟨?_, rfl, rfl⟩
  rw [ht, findBy_updWhere_self Task.variantId a.variantId (fun x =>
    { x with variantTitle := a.variantTitle
             productTitle := a.productTitle
             sku := a.sku
             imageUrl := a.imageUrl
             totalQuantity := a.totalQuantity }) s.tasks (fun _ => rfl), hfind]
  rfl

theorem upsertTask_insert {s : DBState} {a : Task}
    (hfind : findBy Task.variantId a.variantId s.tasks = none) :
    (upsertTask s a).tasks = s.tasks ++ [a] ∧
    (upsertTask s a).orders = s.orders ∧
    (upsertTask s a).lineItems = s.lineItems := by
  have hany : (s.tasks.any fun x => x.variantId == a.variantId) = false := by
    rw [any_key_isSome Task.variantId a.variantId s.tasks, hfind]
    rfl
  refine ⟨?_, rfl, rfl⟩
  show upsertTaskRow s.tasks a = _
  unfold upsertTaskRow
  rw [if_neg (by simp [hany])]

theorem upsertOrder_conflict {s : DBState} {od : Order} {o0 : Order}
    (hfind : findBy Order.orderId od.orderId s.orders = some o0) :
    findBy Order.orderId od.orderId (upsertOrder s od).orders =
      some { o0 with orderName := od.orderName
                     orderDate := od.orderDate
                     totalItems := od.totalItems } ∧
    (upsertOrder s od).tasks = s.tasks ∧
    (upsertOrder s od).lineItems = s.lineItems := by
  have hany : (s.orders.any fun x => x.orderId == od.orderId) = true := by
    rw [any_key_isSome Order.orderId od.orderId s.orders, hfind]
    rfl
  have ho : (upsertOrder s od).orders = updWhere Order.orderId od.orderId (fun x =>
      { x with orderName := od.orderName
               orderDate := od.orderDate
               totalItems := od.totalItems }) s.orders := by
    unfold upsertOrder
    rw [if_pos hany]
  have ht : (upsertOrder s od).tasks = s.tasks := by
    unfold upsertOrder
    by_cases h : (s.orders.any fun x => x.orderId == od.orderId) = true
    · rw [if_pos h]
    · rw [if_neg h]
  have hl : (upsertOrder s od).lineItems = s.lineItems := by
    unfold upsertOrder
    by_cases h : (s.orders.any fun x => x.orderId == od.orderId) = true
    · rw [if_pos h]
    · rw [if_neg h]
  refine ⟨?_, ht, hl⟩
  rw [ho, findBy_updWhere_self Order.orderId od.orderId (fun x =>
    { x with orderName := od.orderName
             orderDate := od.orderDate
             totalItems := od.totalItems }) s.orders (fun _ => rfl), hfind]
  rfl

theorem upsertOrder_insert {s : DBState} {od : Order}
    (hfind : findBy Order.orderId od.orderId s.orders = none) :
    (upsertOrder s od).orders = s.orders ++ [od] ∧
    (upsertOrder s od).tasks = s.tasks ∧
    (upsertOrder s od).lineItems = s.lineItems := by
  have hany : (s.orders.any fun x => x.orderId == od.orderId) = false := by
    rw [any_key_isSome Order.orderId od.orderId s.orders, hfind]
    rfl
  unfold upsertOrder
  rw [if_neg (by simp [hany])]
  exact ⟨rfl, rfl, rfl⟩

theorem upsertOrderLineItem_conflict {s : DBState} {li : LineItem} {x0 : LineItem}
    (hfind : findBy LineItem.lineItemId li.lineItemId s.lineItems = some x0) :
    findBy LineItem.lineItemId li.lineItemId (upsertOrderLineItem s li).lineItems =
      some { x0 with quantity := li.quantity } ∧
    (upsertOrderLineItem s li).tasks = s.tasks ∧
    (upsertOrderLineItem s li).orders = s.orders := by
  have hany : (s.lineItems.any fun x => x.lineItemId == li.lineItemId) = true := by
    rw [any_key_isSome LineItem.lineItemId li.lineItemId s.lineItems, hfind]
    rfl
  have hl : (upsertOrderLineItem s li).lineItems = updWhere LineItem.lineItemId
      li.lineItemId (fun x => { x with quantity := li.quantity }) s.lineItems := by
    unfold upsertOrderLineItem
    rw [if_pos hany]
  have ht : (upsertOrderLineItem s li).tasks = s.tasks := by
    unfold upsertOrderLineItem
    by_cases h : (s.lineItems.any fun x => x.lineItemId == li.lineItemId) = true
    · rw [if_pos h]
    · rw [if_neg h]
  have ho : (upsertOrderLineItem s li).orders = s.orders := by
    unfold upsertOrderLineItem
    by_cases h : (s.lineItems.any fun x => x.lineItemId == li.lineItemId) = true
    · rw [if_pos h]
    · rw [if_neg h]
  refine ⟨?_, ht, ho⟩
  rw [hl, findBy_updWhere_self LineItem.lineItemId li.lineItemId (fun x =>
    { x with quantity := li.quantity }) s.lineItems (fun _ => rfl), hfind]
  rfl

theorem upsertOrderLineItem_insert {s : DBState} {li : LineItem}
    (hfind : findBy LineItem.lineItemId li.lineItemId s.lineItems = none) :
    (upsertOrderLineItem s li).lineItems = s.lineItems ++ [li] ∧
    (upsertOrderLineItem s li).tasks = s.tasks ∧
    (upsertOrderLineItem s li).orders = s.orders := by
  have hany : (s.lineItems.any fun x => x.lineItemId == li.lineItemId) = false := by
    rw [any_key_isSome LineItem.lineItemId li.lineItemId s.lineItems, hfind]
    rfl
  unfold upsertOrderLineItem
  rw [if_neg (by simp [hany])]
  exact ⟨rfl, rfl, rfl⟩


/-! ## Reconciliation machinery (C6) -/

theorem contains_iff_mem (l : List String) (a : String) :
    l.contains a = true ↔ a ∈ l := by
  induction l with
  | nil => simp
  | cons b l ih =>
      rw [List.contains_cons]
      simp only [Bool.or_eq_true, beq_iff_eq, List.mem_cons, ih]

theorem findBy_append_left {key : α → String} {k : String} {l1 l2 : List α} {x : α}
    (h : findBy key k l1 = some x) : findBy key k (l1 ++ l2) = some x := by
  rw [findBy_append, h]
  rfl

theorem updateAllOrderStatuses_eq (s : DBState) :
    updateAllOrderStatuses s =
      (s.orders.filter fun o => o.status != "archived").foldl statusStep s := rfl

theorem statusFold_frame :
    ∀ (os0 : List Order) (st : DBState),
      (os0.foldl statusStep st).tasks = st.tasks ∧
      (os0.foldl statusStep st).lineItems = st.lineItems ∧
      (os0.foldl statusStep st).orders.map orderCore = st.orders.map orderCore := by
  intro os0
  induction os0 with
  | nil => intro st; exact ⟨rfl, rfl, rfl⟩
  | cons a os ih =>
      intro st
      rw [List.foldl_cons]
      obtain ⟨h1, h2, h3⟩ := ih (statusStep st a)
      have hstep : (statusStep st a).tasks = st.tasks ∧
          (statusStep st a).lineItems = st.lineItems ∧
          (statusStep st a).orders.map orderCore = st.orders.map orderCore := by
        unfold statusStep
        by_cases hne : (deriveOrderStatus a.fulfilledItems a.totalItems != a.status)
            = true
        · rw [if_pos hne]
          refine ⟨rfl, rfl, ?_⟩
          exact map_proj_updWhere Order.orderId a.orderId
            (fun x => { x with
              status := deriveOrderStatus a.fulfilledItems a.totalItems })
            orderCore (fun _ => rfl) st.orders
        · rw [if_neg hne]
          exact ⟨rfl, rfl, rfl⟩
      exact ⟨h1.trans hstep.1, h2.trans hstep.2.1, h3.trans hstep.2.2⟩

theorem updateAllOrderStatuses_frame (s : DBState) :
    (updateAllOrderStatuses s).tasks = s.tasks ∧
    (updateAllOrderStatuses s).lineItems = s.lineItems ∧
    (updateAllOrderStatuses s).orders.map orderCore = s.orders.map orderCore := by
  rw [updateAllOrderStatuses_eq]
  exact statusFold_frame _ s

theorem findBy_orderCore :
    ∀ {l1 l2 : List Order},
      l1.map orderCore = l2.map orderCore →
      ∀ {oid : String} {o : Order}, findBy Order.orderId oid l1 = some o →
      ∃ o2, findBy Order.orderId oid l2 = some o2 ∧
        o2.fulfilledItems = o.fulfilledItems ∧ o2.totalItems = o.totalItems := by
  intro l1
  induction l1 with
  | nil =>
      intro l2 h oid o hf
      cases hf
  | cons a l ih =>
      intro l2 h oid o hf
      cases l2 with
      | nil => simp at h
      | cons b l2 =>
          simp only [List.map_cons, List.cons.injEq] at h
          obtain ⟨hab, hrest⟩ := h
          have hid : a.orderId = b.orderId := congrArg Prod.fst hab
          have hful : a.fulfilledItems = b.fulfilledItems :=
            congrArg (fun p => p.2.1) hab
          have htot : a.totalItems = b.totalItems := congrArg (fun p => p.2.2) hab
          by_cases ha : (a.orderId == oid) = true
          · have hb : (b.orderId == oid) = true := by
              rw [← hid]
              exact ha
            have hfa : findBy Order.orderId oid (a :: l) = some a := by
              unfold findBy
              rw [List.find?_cons, ha]
            rw [hfa] at hf
            have hoa : a = o := Option.some.inj hf
            refine ⟨b, ?_, ?_, ?_⟩
            · unfold findBy
              rw [List.find?_cons, hb]
            · rw [← hoa, ← hful]
            · rw [← hoa, ← htot]
          · have hb : (b.orderId == oid) = false := by
              rw [← hid]
              simpa using ha
            have ha2 : (a.orderId == oid) = false := by
              simpa using ha
            have hf2 : findBy Order.orderId oid l = some o := by
              unfold findBy at hf ⊢
              rw [List.find?_cons, ha2] at hf
              exact hf
            obtain ⟨o2, ho2, hc1, hc2⟩ := ih hrest hf2
            refine ⟨o2, ?_, hc1, hc2⟩
            unfold findBy at ho2 ⊢
            rw [List.find?_cons, hb]
            exact ho2

theorem skip_mem (s : DBState) (oid : String) :
    oid ∈ getOrderIdsToSkipDuringSync s ↔
      ∃ o ∈ s.orders, o.orderId = oid ∧
        (o.status = "archived" ∨ 0 < o.fulfilledItems) := by
  unfold getOrderIdsToSkipDuringSync
  simp only [List.mem_map, List.mem_filter, Bool.or_eq_true, beq_iff_eq,
    decide_eq_true_eq]
  constructor
  · rintro ⟨o, ⟨h1, h2⟩, h3⟩
    exact ⟨o, h1, h3, h2⟩
  · rintro ⟨o, h1, h3, h2⟩
    exact ⟨o, ⟨h1, h2⟩, h3⟩

theorem clear_progress_mem (s : DBState) (oid : String) :
    oid ∈ (clearOrdersWithoutProgress s).1 ↔
      ∃ o ∈ s.orders, o.orderId = oid ∧ o.status ≠ "archived" ∧
        0 < o.fulfilledItems := by
  show oid ∈ (s.orders.filter fun o =>
    o.status != "archived" && o.fulfilledItems > 0).map Order.orderId ↔ _
  simp only [List.mem_map, List.mem_filter, Bool.and_eq_true, bne_iff_ne,
    decide_eq_true_eq]
  constructor
  · rintro ⟨o, ⟨h1, h2, h3⟩, h4⟩
    exact ⟨o, h1, h4, h2, h3⟩
  · rintro ⟨o, h1, h4, h2, h3⟩
    exact ⟨o, ⟨h1, h2, h3⟩, h4⟩

theorem clear_orders_mem (s : DBState) (o : Order) :
    o ∈ (clearOrdersWithoutProgress s).2.orders ↔
      o ∈ s.orders ∧ ¬(o.status ≠ "archived" ∧ o.fulfilledItems = 0) := by
  show o ∈ s.orders.filter (fun o =>
    !(o.status != "archived" && o.fulfilledItems == 0)) ↔ _
  simp [List.mem_filter]
  tauto

theorem clear_items_mem (s : DBState) (li : LineItem) :
    li ∈ (clearOrdersWithoutProgress s).2.lineItems ↔
      li ∈ s.lineItems ∧ ¬∃ o ∈ s.orders, o.orderId = li.orderId ∧
        o.status ≠ "archived" ∧ o.fulfilledItems = 0 := by
  show li ∈ s.lineItems.filter (fun li =>
    !(((s.orders.filter fun o => o.status != "archived" &&
      o.fulfilledItems == 0).map Order.orderId).contains li.orderId)) ↔ _
  rw [List.mem_filter]
  have hmemiff : (((s.orders.filter fun o => o.status != "archived" &&
      o.fulfilledItems == 0).map Order.orderId).contains li.orderId) = true ↔
      ∃ o ∈ s.orders, o.orderId = li.orderId ∧ o.status ≠ "archived" ∧
        o.fulfilledItems = 0 := by
    rw [contains_iff_mem]
    simp only [List.mem_map, List.mem_filter, Bool.and_eq_true, bne_iff_ne,
      beq_iff_eq, decide_eq_true_eq]
    constructor
    · rintro ⟨o, ⟨h1, h2, h3⟩, h4⟩
      exact ⟨o, h1, h4, h2, h3⟩
    · rintro ⟨o, h1, h4, h2, h3⟩
      exact ⟨o, ⟨h1, h2, h3⟩, h4⟩
  constructor
  · rintro ⟨h1, h2⟩
    refine ⟨h1, ?_⟩
    intro hex
    have hc := hmemiff.2 hex
    rw [hc] at h2
    simp at h2
  · rintro ⟨h1, hno⟩
    refine ⟨h1, ?_⟩
    have hc : (((s.orders.filter fun o => o.status != "archived" &&
        o.fulfilledItems == 0).map Order.orderId).contains li.orderId) = false := by
      rcases hcc : (((s.orders.filter fun o => o.status != "archived" &&
          o.fulfilledItems == 0).map Order.orderId).contains li.orderId) with _ | _
      · exact hcc
      · exact absurd (hmemiff.1 hcc) hno
    rw [hc]
    rfl


theorem clear_tasks_eq (s : DBState) :
    (clearOrdersWithoutProgress s).2.tasks = s.tasks := rfl

theorem clear_keeps_progress {s : DBState} {oid : String} {o : Order}
    (hndO : (s.orders.map Order.orderId).Nodup)
    (hfind : findBy Order.orderId oid s.orders = some o)
    (hstat : o.status ≠ "archived") (hful : 0 < o.fulfilledItems) :
    findBy Order.orderId oid (clearOrdersWithoutProgress s).2.orders = some o := by
  have hmem : o ∈ s.orders := findBy_mem hfind
  have hkey := findBy_key hfind
  have hkept : o ∈ (clearOrdersWithoutProgress s).2.orders := by
    rw [clear_orders_mem]
    refine ⟨hmem, ?_⟩
    rintro ⟨_, hz⟩
    omega
  have hnd2 : ((clearOrdersWithoutProgress s).2.orders.map Order.orderId).Nodup := by
    show ((s.orders.filter fun o =>
      !(o.status != "archived" && o.fulfilledItems == 0)).map Order.orderId).Nodup
    exact List.Nodup.sublist ((List.filter_sublist _).map _) hndO
  rw [← hkey]
  exact findBy_eq_self hnd2 hkept

theorem clear_deletes_zero {s : DBState} {oid : String} {o : Order}
    (hndO : (s.orders.map Order.orderId).Nodup)
    (hfind : findBy Order.orderId oid s.orders = some o)
    (hstat : o.status ≠ "archived") (hzero : o.fulfilledItems = 0) :
    findBy Order.orderId oid (clearOrdersWithoutProgress s).2.orders = none := by
  rw [findBy_eq_none]
  intro x hx hkx
  have hx2 := (clear_orders_mem s x).1 hx
  have hxo : x = o := eq_of_key_eq hndO hx2.1 (findBy_mem hfind)
    (hkx.trans (findBy_key hfind).symm)
  apply hx2.2
  rw [hxo]
  exact ⟨hstat, hzero⟩

theorem liFold_frame :
    ∀ (lis : List LineItem) (st : DBState),
      (lis.foldl upsertOrderLineItem st).orders = st.orders ∧
      (lis.foldl upsertOrderLineItem st).tasks = st.tasks := by
  intro lis
  induction lis with
  | nil => intro st; exact ⟨rfl, rfl⟩
  | cons li lis ih =>
      intro st
      rw [List.foldl_cons]
      obtain ⟨h1, h2⟩ := ih (upsertOrderLineItem st li)
      have hstep : (upsertOrderLineItem st li).orders = st.orders ∧
          (upsertOrderLineItem st li).tasks = st.tasks := by
        unfold upsertOrderLineItem
        by_cases h : (st.lineItems.any fun x => x.lineItemId == li.lineItemId) = true
        · rw [if_pos h]
          exact ⟨rfl, rfl⟩
        · rw [if_neg h]
          exact ⟨rfl, rfl⟩
      exact ⟨h1.trans hstep.1, h2.trans hstep.2⟩

theorem taskFold_frame :
    ∀ (A : List AggregatedVariant) (st : DBState),
      (A.foldl (fun st a => upsertTask st a.toTask) st).orders = st.orders ∧
      (A.foldl (fun st a => upsertTask st a.toTask) st).lineItems = st.lineItems := by
  intro A
  induction A with
  | nil => intro st; exact ⟨rfl, rfl⟩
  | cons a A ih =>
      intro st
      rw [List.foldl_cons]
      obtain ⟨h1, h2⟩ := ih (upsertTask st a.toTask)
      exact ⟨h1, h2⟩

theorem storeFold_keeps (s : DBState) :
    ∀ (L : List SyncOrder) (st : DBState) {oid : String} {o : Order},
      (getOrderIdsToSkipDuringSync s).contains oid = true →
      findBy Order.orderId oid st.orders = some o →
      findBy Order.orderId oid ((L.foldl (fun st so =>
        if (getOrderIdsToSkipDuringSync s).contains so.orderId then st
        else so.lineItems.foldl upsertOrderLineItem (upsertOrder st so.toOrder))
        st).orders) = some o := by
  intro L
  induction L with
  | nil => intro st oid o _ hf; exact hf
  | cons so L ih =>
      intro st oid o hskip hf
      rw [List.foldl_cons]
      by_cases hc : (getOrderIdsToSkipDuringSync s).contains so.orderId = true
      · rw [if_pos hc]
        exact ih st hskip hf
      · rw [if_neg hc]
        have hne : so.orderId ≠ oid := by
          intro heq
          rw [heq] at hc
          exact hc hskip
        have hstep : findBy Order.orderId oid
            ((so.lineItems.foldl upsertOrderLineItem
              (upsertOrder st so.toOrder)).orders) = some o := by
          rw [(liFold_frame so.lineItems (upsertOrder st so.toOrder)).1]
          unfold upsertOrder
          by_cases hany : (st.orders.any fun x => x.orderId == so.toOrder.orderId)
              = true
          · rw [if_pos hany]
            show findBy Order.orderId oid (updWhere Order.orderId so.toOrder.orderId
              (fun x => { x with orderName := so.toOrder.orderName
                                 orderDate := so.toOrder.orderDate
                                 totalItems := so.toOrder.totalItems })
              st.orders) = some o
            rw [findBy_updWhere_ne Order.orderId so.toOrder.orderId oid
              (fun x => { x with orderName := so.toOrder.orderName
                                 orderDate := so.toOrder.orderDate
                                 totalItems := so.toOrder.totalItems })
              st.orders (fun _ => rfl) (fun heq => hne heq.symm)]
            exact hf
          · rw [if_neg hany]
            exact findBy_append_left hf
        exact ih _ hskip hstep

theorem recalc_orders_eq (s : DBState) :
    (recalculateTaskTotalsFromOrders s).orders = s.orders := by
  rw [recalc_eq]

theorem recalc_lineItems_eq (s : DBState) :
    (recalculateTaskTotalsFromOrders s).lineItems = s.lineItems := by
  rw [recalc_eq]

theorem syncShopify_eq (s : DBState) (L : List SyncOrder)
    (A : List AggregatedVariant) :
    syncShopify s L A = updateAllOrderStatuses
      (if (getOrderIdsToSkipDuringSync s).isEmpty then syncTasks s L A
       else recalculateTaskTotalsFromOrders (syncTasks s L A)) := rfl

theorem sync_preserves_progress {s : DBState} {L : List SyncOrder}
    {A : List AggregatedVariant} {oid : String} {o : Order}
    (hndO : (s.orders.map Order.orderId).Nodup)
    (hfind : findBy Order.orderId oid s.orders = some o)
    (hstat : o.status ≠ "archived") (hful : 0 < o.fulfilledItems) :
    ∃ o2, findBy Order.orderId oid (syncShopify s L A).orders = some o2 ∧
      o2.fulfilledItems = o.fulfilledItems ∧ o2.totalItems = o.totalItems := by
  have hkey := findBy_key hfind
  have hskip : (getOrderIdsToSkipDuringSync s).contains oid = true := by
    rw [contains_iff_mem, skip_mem]
    exact ⟨o, findBy_mem hfind, hkey, Or.inr hful⟩
  have h1 := clear_keeps_progress hndO hfind hstat hful
  have h2 : findBy Order.orderId oid (syncStores s L).orders = some o :=
    storeFold_keeps s L (clearOrdersWithoutProgress s).2 hskip h1
  have h3 : findBy Order.orderId oid (syncTasks s L A).orders = some o := by
    show findBy Order.orderId oid ((A.foldl (fun st a => upsertTask st a.toTask)
      (syncStores s L)).orders) = some o
    rw [(taskFold_frame A (syncStores s L)).1]
    exact h2
  have h4 : findBy Order.orderId oid
      ((if (getOrderIdsToSkipDuringSync s).isEmpty then syncTasks s L A
        else recalculateTaskTotalsFromOrders (syncTasks s L A)).orders) = some o := by
    by_cases hemp : (getOrderIdsToSkipDuringSync s).isEmpty = true
    · rw [if_pos hemp]
      exact h3
    · rw [if_neg hemp, recalc_orders_eq]
      exact h3
  rw [syncShopify_eq]
  exact findBy_orderCore ((updateAllOrderStatuses_frame _).2.2).symm h4


/-! ## Recalculation helpers (C8) -/

theorem recalcUpd_sums (s : DBState) (v : String) (t : Task) :
    recalcUpd (recalcItems s) v t =
      { t with totalQuantity := sumQty s v
               madeQuantity := sumFul s v
               status := deriveTaskStatus (sumFul s v) (sumQty s v) } := by
  have hfil : (recalcItems s).filter (fun li => li.variantId == v) =
      s.lineItems.filter fun li => li.variantId == v &&
        anyNonArchived s.orders li.orderId := by
    show (s.lineItems.filter fun li => anyNonArchived s.orders li.orderId).filter
      (fun li => li.variantId == v) = _
    rw [List.filter_filter]
  unfold recalcUpd
  rw [hfil]
  rfl

theorem recalcVariants_contains (s : DBState) (v : String) :
    (recalcVariants s).contains v = true ↔
      ∃ li ∈ s.lineItems, li.variantId = v ∧
        anyNonArchived s.orders li.orderId = true := by
  rw [contains_iff_mem]
  unfold recalcVariants recalcItems
  rw [List.mem_dedup]
  simp only [List.mem_map, List.mem_filter]
  constructor
  · rintro ⟨li, ⟨h1, h2⟩, h3⟩
    exact ⟨li, h1, h3, h2⟩
  · rintro ⟨li, h1, h3, h2⟩
    exact ⟨li, ⟨h1, h2⟩, h3⟩


/-! ## Claim theorems -/

/-- C7 (corrected): the status derivation is completed-first: `completed`
whenever `total ≤ made` (including the `made = 0`, `total = 0` corner, which
the spec instead assigns to `pending`), `in_progress` when `0 < made < total`,
and `pending` when `made ≤ 0 < total`. -/
theorem C7_task_status_derivation :
    (∀ m t : Int, t ≤ m → deriveTaskStatus m t = "completed") ∧
    (∀ m t : Int, 0 < m → m < t → deriveTaskStatus m t = "in_progress") ∧
    (∀ m t : Int, m ≤ 0 → m < t → deriveTaskStatus m t = "pending") ∧
    deriveTaskStatus 0 0 = "completed" := by
  refine ⟨?_, ?_, ?_, by decide⟩
  · intro m t h
    unfold deriveTaskStatus
    rw [if_pos (by omega)]
  · intro m t h1 h2
    unfold deriveTaskStatus
    rw [if_neg (by omega), if_pos (by omega)]
  · intro m t h1 h2
    unfold deriveTaskStatus
    rw [if_neg (by omega), if_neg (by omega)]

/-- Witness for C7 at a concrete input. -/
theorem C7_witness : (2 : Int) ≤ 3 ∧ deriveTaskStatus 3 2 = "completed" :=
  ⟨by decide, C7_task_status_derivation.1 3 2 (by decide)⟩

/-- Counterexample to the spec corner for C7: `deriveTaskStatus 0 0` is not
`pending`. -/
theorem C7_counterexample : deriveTaskStatus 0 0 ≠ "pending" := by
  decide

/-- C8 (corrected): `recalculateTaskTotalsFromOrders` rewrites exactly the
tasks whose variant still has a non-archived line item with the sums over
those items; a task whose variant has no such item keeps its stored values,
and no task row is deleted. -/
theorem C8_recalculate_characterization (s : DBState) :
    (recalculateTaskTotalsFromOrders s).orders = s.orders ∧
    (recalculateTaskTotalsFromOrders s).lineItems = s.lineItems ∧
    (recalculateTaskTotalsFromOrders s).tasks.map Task.variantId =
      s.tasks.map Task.variantId ∧
    (recalculateTaskTotalsFromOrders s).tasks = (s.tasks.map fun t =>
      if (recalcVariants s).contains t.variantId then
        { t with totalQuantity := sumQty s t.variantId
                 madeQuantity := sumFul s t.variantId
                 status := deriveTaskStatus (sumFul s t.variantId)
                             (sumQty s t.variantId) }
      else t) ∧
    (∀ v, (recalcVariants s).contains v = true ↔
      ∃ li ∈ s.lineItems, li.variantId = v ∧
        anyNonArchived s.orders li.orderId = true) := by
  have hmain : (recalculateTaskTotalsFromOrders s).tasks = (s.tasks.map fun t =>
      if (recalcVariants s).contains t.variantId then
        { t with totalQuantity := sumQty s t.variantId
                 madeQuantity := sumFul s t.variantId
                 status := deriveTaskStatus (sumFul s t.variantId)
                             (sumQty s t.variantId) }
      else t) := by
    rw [show (recalculateTaskTotalsFromOrders s).tasks = s.tasks.map (fun t =>
      if (recalcVariants s).contains t.variantId then
        recalcUpd (recalcItems s) t.variantId t
      else t) from by rw [recalc_char]]
    apply List.map_congr_left
    intro t ht
    by_cases hc : (recalcVariants s).contains t.variantId = true
    · rw [if_pos hc, if_pos hc, recalcUpd_sums]
    · rw [if_neg hc, if_neg hc]
  refine ⟨recalc_orders_eq s, recalc_lineItems_eq s, ?_, hmain,
    recalcVariants_contains s⟩
  rw [hmain, List.map_map]
  apply List.map_congr_left
  intro t ht
  show Task.variantId (if (recalcVariants s).contains t.variantId then
    { t with totalQuantity := sumQty s t.variantId
             madeQuantity := sumFul s t.variantId
             status := deriveTaskStatus (sumFul s t.variantId)
                         (sumQty s t.variantId) }
    else t) = t.variantId
  by_cases hc : (recalcVariants s).contains t.variantId = true
  · rw [if_pos hc]
  · rw [if_neg hc]

/-- Counterexample to C8 as stated: after recalculation the stale task keeps
`totalQuantity = 5` although its variant has no non-archived line item (the
spec asks for the sum, `0`), and the zero-demand task is not deleted. -/
theorem C8_counterexample :
    ((findBy Task.variantId "V" (recalculateTaskTotalsFromOrders c8s).tasks).map
      Task.totalQuantity) = some 5 ∧
    sumQty c8s "V" = 0 ∧
    (recalculateTaskTotalsFromOrders c8s).tasks ≠ [] := by
  decide

/-- C10: `resetTask` always returns `true`; on an absent variant the state is
untouched (an UPDATE matching no row), while `updateMadeQuantity` throws its
not-found error; on a present task the row gets `madeQuantity = 0`,
`status = pending`, and the other tables are untouched. -/
theorem C10_resetTask_semantics :
    (∀ s v, (resetTask s v).1 = true) ∧
    (∀ s v, findBy Task.variantId v s.tasks = none → (resetTask s v).2 = s) ∧
    (∀ s v q, findBy Task.variantId v s.tasks = none →
      updateMadeQuantity s v q = .error ("Task not found for variant: " ++ v)) ∧
    (∀ s v t0, findBy Task.variantId v s.tasks = some t0 →
      findBy Task.variantId v (resetTask s v).2.tasks =
        some { t0 with madeQuantity := 0, status := "pending" } ∧
      (resetTask s v).2.orders = s.orders ∧
      (resetTask s v).2.lineItems = s.lineItems) := by
  refine ⟨fun s v => rfl, ?_, ?_, ?_⟩
  · intro s v h
    show ({ s with tasks := updWhere Task.variantId v (fun t =>
      { t with madeQuantity := 0, status := "pending" }) s.tasks } : DBState) = s
    rw [updWhere_of_none (findBy_eq_none.1 h)]
  · intro s v q h
    have h0 : getTaskByVariantId s v = none := h
    unfold updateMadeQuantity
    rw [h0]
  · intro s v t0 h
    refine ⟨?_, rfl, rfl⟩
    show findBy Task.variantId v (updWhere Task.variantId v (fun t =>
      { t with madeQuantity := 0, status := "pending" }) s.tasks) = _
    rw [findBy_updWhere_self Task.variantId v (fun t =>
      { t with madeQuantity := 0, status := "pending" }) s.tasks (fun _ => rfl), h]
    rfl

/-- Witness for C10 at a concrete input. -/
theorem C10_witness :
    findBy Task.variantId "V" c2s.tasks =
      some { t0 with totalQuantity := 10, madeQuantity := 8 } ∧
    findBy Task.variantId "V" (resetTask c2s "V").2.tasks =
      some { t0 with totalQuantity := 10, madeQuantity := 0,
                     status := "pending" } ∧
    (resetTask c2s "V").2.orders = c2s.orders ∧
    (resetTask c2s "V").2.lineItems = c2s.lineItems := by
  refine ⟨by decide, ?_⟩
  exact C10_resetTask_semantics.2.2.2 c2s "V"
    { t0 with totalQuantity := 10, madeQuantity := 8 } (by decide)

/-- C2 (corrected): with no task for the variant, `updateMadeQuantity` throws
the not-found error; with a task present it never fails, instead clamping the
new made quantity at the total (`min (made + qty) total`); in the exact-fit
case `made + qty = total` it reaches `completed`. -/
theorem C2_recordProduced_clamps :
    (∀ s v q, findBy Task.variantId v s.tasks = none →
      updateMadeQuantity s v q = .error ("Task not found for variant: " ++ v)) ∧
    (∀ s v q task, findBy Task.variantId v s.tasks = some task →
      ∃ mr s1, updateMadeQuantity s v q = .ok (mr, s1) ∧
        mr.previousMade = task.madeQuantity ∧
        mr.newMade = min (task.madeQuantity + q) task.totalQuantity ∧
        mr.newStatus = deriveTaskStatus
          (min (task.madeQuantity + q) task.totalQuantity) task.totalQuantity) ∧
    (∀ s v q task, findBy Task.variantId v s.tasks = some task →
      task.madeQuantity + q = task.totalQuantity →
      ∃ mr s1, updateMadeQuantity s v q = .ok (mr, s1) ∧
        mr.newMade = task.totalQuantity ∧ mr.newStatus = "completed") := by
  have hokk : ∀ (s : DBState) (v : String) (q : Int) (task : Task),
      findBy Task.variantId v s.tasks = some task →
      updateMadeQuantity s v q = .ok
        ({ previousMade := task.madeQuantity,
           newMade := min (task.madeQuantity + q) task.totalQuantity,
           actualAdded := min (task.madeQuantity + q) task.totalQuantity -
             task.madeQuantity,
           newStatus := deriveTaskStatus
             (min (task.madeQuantity + q) task.totalQuantity)
             task.totalQuantity },
         { s with tasks := updWhere Task.variantId v (fun t =>
             { t with madeQuantity := min (task.madeQuantity + q)
                        task.totalQuantity,
                      status := deriveTaskStatus
                        (min (task.madeQuantity + q) task.totalQuantity)
                        task.totalQuantity }) s.tasks }) := by
    intro s v q task h
    have h0 : getTaskByVariantId s v = some task := h
    unfold updateMadeQuantity
    rw [h0]
  refine ⟨?_, ?_, ?_⟩
  · intro s v q h
    have h0 : getTaskByVariantId s v = none := h
    unfold updateMadeQuantity
    rw [h0]
  · intro s v q task h
    exact ⟨_, _, hokk s v q task h, rfl, rfl, rfl⟩
  · intro s v q task h heq
    refine ⟨_, _, hokk s v q task h, ?_, ?_⟩
    · show min (task.madeQuantity + q) task.totalQuantity = task.totalQuantity
      omega
    · show deriveTaskStatus (min (task.madeQuantity + q) task.totalQuantity)
        task.totalQuantity = "completed"
      rw [show min (task.madeQuantity + q) task.totalQuantity =
        task.totalQuantity from by omega]
      unfold deriveTaskStatus
      rw [if_pos (by omega)]

/-- Witness for C2 at a concrete input. -/
theorem C2_witness :
    findBy Task.variantId "V" c2s.tasks =
      some { t0 with totalQuantity := 10, madeQuantity := 8 } ∧
    (∃ mr s1, updateMadeQuantity c2s "V" 5 = .ok (mr, s1) ∧
      mr.previousMade = 8 ∧ mr.newMade = 10 ∧ mr.newStatus = "completed") := by
  refine ⟨by decide, ?_⟩
  obtain ⟨mr, s1, h1, h2, h3, h4⟩ := C2_recordProduced_clamps.2.1 c2s "V" 5
    { t0 with totalQuantity := 10, madeQuantity := 8 } (by decide)
  refine ⟨mr, s1, h1, ?_, ?_, ?_⟩
  · rw [h2]
  · rw [h3]
    decide
  · rw [h4]
    decide

/-- Counterexample to C2 as stated: with `made = 8`, `total = 10` and
`qty = 5` (so `made + qty > total`) the call does not fail; it returns a
clamped success with `newMade = 10`. -/
theorem C2_counterexample :
    updateMadeQuantity c2s "V" 5 = .ok (c2mr, c2after) ∧ c2mr.newMade = 10 := by
  exact ⟨rfl, rfl⟩

/-- The order-date comparison of the FIFO example, settled on the character
lists (the `String` order itself does not evaluate by `decide`). -/
theorem dateLe : ("2025-01-01T10:00:00Z" : String) ≤ "2025-01-10T10:00:00Z" := by
  rw [String.le_iff_toList_le]
  decide

/-- On the FIFO example state the allocation snapshot is the two line items
in insertion order (their order dates are already ascending). -/
theorem allocItems_s0 : allocItems s0 "V" = [li0, li1] := by
  have hf : s0.lineItems.filter (fun li =>
      li.variantId == "V" && anyNonArchived s0.orders li.orderId) = [li0, li1] := by
    decide
  unfold allocItems
  rw [hf]
  simp only [List.insertionSort]
  rw [List.orderedInsert, List.orderedInsert,
    if_pos (show itemDate s0 li0 ≤ itemDate s0 li1 from dateLe)]

/-- Allocating 3 units on the FIFO example yields the expected state. -/
theorem s0a_eq : (allocateMadeQuantityToOrders s0 "V" 3).2 = s0a := by
  show (allocateLoop s0 3 [] (allocItems s0 "V")).1 = s0a
  rw [allocItems_s0]
  decide

/-- On the state after the 3-unit allocation the snapshot is again the two
line items in insertion order. -/
theorem allocItems_s0a : allocItems s0a "V" = [li0a, li1] := by
  have hf : s0a.lineItems.filter (fun li =>
      li.variantId == "V" && anyNonArchived s0a.orders li.orderId) =
      [li0a, li1] := by
    decide
  unfold allocItems
  rw [hf]
  simp only [List.insertionSort]
  rw [List.orderedInsert, List.orderedInsert,
    if_pos (show itemDate s0a li0a ≤ itemDate s0a li1 from dateLe)]

/-- C3: the allocation equals the FIFO plan over the date-sorted snapshot of
non-archived items of the variant; each consumption is positive and within
the room of its item; the consumed total is the minimum of the request and
the outstanding demand, so excess is silently left unallocated; and the
two-order example of the spec allocates 3 then 5 as promised. -/
theorem C3_fifo_allocation :
    (∀ s v q, allocateMadeQuantityToOrders s v q =
      (planReport s.orders (allocPlan s v q),
       { tasks := s.tasks
         orders := applyPlanOrders (allocPlan s v q) s.orders
         lineItems := applyPlan (allocPlan s v q) s.lineItems })) ∧
    (∀ s v, (allocItems s v).Sorted (fun a b => itemDate s a ≤ itemDate s b) ∧
      (allocItems s v).Perm (s.lineItems.filter fun li =>
        li.variantId == v && anyNonArchived s.orders li.orderId)) ∧
    (∀ (r : Int) (items : List LineItem) (p : LineItem × Int),
      p ∈ fifoPlan r items → p.1 ∈ items ∧ 0 < p.2 ∧
        p.2 ≤ p.1.quantity - p.1.fulfilledQuantity) ∧
    (∀ (r : Int) (items : List LineItem), 0 ≤ r →
      planSum (fifoPlan r items) =
        min r ((items.map fun i =>
          max (i.quantity - i.fulfilledQuantity) 0).sum)) ∧
    ((allocateMadeQuantityToOrders s0 "V" 3).2.lineItems.map fun li =>
      (li.lineItemId, li.fulfilledQuantity)) = [("L1", 3), ("L2", 0)] ∧
    ((allocateMadeQuantityToOrders
      (allocateMadeQuantityToOrders s0 "V" 3).2 "V" 5).2.lineItems.map fun li =>
      (li.lineItemId, li.fulfilledQuantity)) = [("L1", 5), ("L2", 3)] := by
  refine ⟨allocate_eq, ?_, ?_, ?_, ?_, ?_⟩
  · intro s v
    exact ⟨allocItems_sorted s v, allocItems_perm s v⟩
  · intro r items p hp
    obtain ⟨h1, h2, h3, _⟩ := fifoPlan_mem hp
    exact ⟨h1, h2, h3⟩
  · intro r items hr
    exact fifoPlan_sum hr items
  · rw [s0a_eq]
    decide
  · rw [s0a_eq]
    show ((allocateLoop s0a 5 [] (allocItems s0a "V")).1.lineItems.map fun li =>
      (li.lineItemId, li.fulfilledQuantity)) = [("L1", 5), ("L2", 3)]
    rw [allocItems_s0a]
    decide

/-- Witness for C3 at a concrete input. -/
theorem C3_witness :
    (0 : Int) ≤ 3 ∧
    planSum (fifoPlan 3 [li0]) =
      min 3 (([li0].map fun i => max (i.quantity - i.fulfilledQuantity) 0).sum) :=
  ⟨by decide, C3_fifo_allocation.2.2.2.1 3 [li0] (by decide)⟩

/-- C1 (corrected): the core operations on a single variant or order do
re-establish the invariant (`mark-made` = record plus allocation, archive,
reset, unarchive under its task side condition), but the reconciliation
pipeline does not (see the counterexample). -/
theorem C1_invariant_preservation :
    (∀ (s : DBState) (v : String) (q : Int) (rep : List FulfilledOrderRef)
      (s2 : DBState), wf s → taskInv s → 0 ≤ q →
      markMade s v q = .ok (rep, s2) → taskInv s2 ∧ wf s2) ∧
    (∀ (s : DBState) (oid : String) (r : ArchiveOutcome) (s2 : DBState),
      wf s → taskInv s →
      archiveOrder s oid = .ok (r, s2) → taskInv s2 ∧ wf s2) ∧
    (∀ (s : DBState) (v : String), wf s → taskInv s →
      taskInv (resetTaskAndOrders s v) ∧ wf (resetTaskAndOrders s v)) ∧
    (∀ (s : DBState) (oid : String) (r : UnarchiveOutcome) (s2 : DBState),
      wf s → taskInv s →
      (∀ i ∈ getOrderLineItems s oid,
        findBy Task.variantId i.variantId s.tasks = none →
        sumQty s i.variantId = 0 ∧ sumFul s i.variantId = 0) →
      unarchiveOrder s oid = .ok (r, s2) → taskInv s2 ∧ wf s2) := by
  refine ⟨?_, ?_, ?_, ?_⟩
  · intro s v q rep s2 hwf hinv hq h
    exact markMade_preserves hwf hinv hq h
  · intro s oid r s2 hwf hinv h
    exact archiveOrder_preserves hwf hinv h
  · intro s v hwf hinv
    exact resetTaskAndOrders_preserves hwf hinv
  · intro s oid r s2 hwf hinv hside h
    exact unarchiveOrder_preserves hwf hinv hside h

/-- Witness for C1 at a concrete input (the reset conjunct). -/
theorem C1_witness :
    wf s0 ∧ taskInv s0 ∧
    (taskInv (resetTaskAndOrders s0 "V") ∧ wf (resetTaskAndOrders s0 "V")) :=
  ⟨by decide, by decide,
   C1_invariant_preservation.2.2.1 s0 "V" (by decide) (by decide)⟩

/-- Counterexample to C1 as stated: reconciliation is a core operation, yet
running the sync pipeline on an invariant-satisfying state with a stale task
(variant `W`, no remaining line items) leaves that task at `totalQuantity 4`
while the sums are `0`, breaking the invariant. -/
theorem C1_counterexample :
    taskInv c1s ∧ wf c1s ∧ ¬ taskInv (syncShopify c1s [] []) := by
  decide

/-- C4: archiving then unarchiving an order leaves every line item unchanged,
stores the status derived from the stored counters back on the order, keeps
the invariant, and is idempotent, so three cycles equal one; on the 5-of-5
example the restored status is `fulfilled`. -/
theorem C4_archive_unarchive_roundtrip {s : DBState} {oid : String} {o : Order}
    (hwf : wf s) (hinv : taskInv s)
    (hfind : findBy Order.orderId oid s.orders = some o)
    (hstat : o.status ≠ "archived")
    (htasks : ∀ i ∈ getOrderLineItems s oid,
      (findBy Task.variantId i.variantId s.tasks).isSome) :
    (archiveUnarchiveCycle s oid).lineItems = s.lineItems ∧
    (archiveUnarchiveCycle s oid).orders = updWhere Order.orderId oid
      (fun x => { x with status := deriveOrderStatus x.fulfilledItems x.totalItems })
      s.orders ∧
    taskInv (archiveUnarchiveCycle s oid) ∧ wf (archiveUnarchiveCycle s oid) ∧
    archiveUnarchiveCycle (archiveUnarchiveCycle
      (archiveUnarchiveCycle s oid) oid) oid = archiveUnarchiveCycle s oid ∧
    (findBy Order.orderId "F" (archiveUnarchiveCycle c4s "F").orders).map
      Order.status = some "fulfilled" := by
  obtain ⟨h1, h2, h3, h4, _, h6⟩ := cycle_roundtrip hwf hinv hfind hstat htasks
  refine ⟨h1, h2, h3, h4, ?_, by decide⟩
  rw [h6, h6]

/-- Witness for C4 at a concrete input. -/
theorem C4_witness :
    wf c4s ∧ taskInv c4s ∧
    findBy Order.orderId "F" c4s.orders = some c4Ord ∧
    (archiveUnarchiveCycle c4s "F").lineItems = c4s.lineItems :=
  ⟨by decide, by decide, by decide,
   (@C4_archive_unarchive_roundtrip c4s "F" c4Ord (by decide) (by decide)
     (by decide) (by decide) (by decide)).1⟩

/-- C5: on a key conflict each upsert rewrites only the non-progress fields
(`madeQuantity`, `fulfilledItems` and the order status, and
`fulfilledQuantity` are kept); on a missing key the new row is appended; the
keys are `variantId`, `orderId` and `lineItemId`. -/
theorem C5_progress_preserving_upserts :
    (∀ (s : DBState) (a t1 : Task),
      findBy Task.variantId a.variantId s.tasks = some t1 →
      ∃ t2, findBy Task.variantId a.variantId (upsertTask s a).tasks = some t2 ∧
        t2.madeQuantity = t1.madeQuantity ∧ t2.status = t1.status ∧
        t2.totalQuantity = a.totalQuantity ∧
        t2.variantTitle = a.variantTitle ∧ t2.productTitle = a.productTitle) ∧
    (∀ (s : DBState) (a : Task),
      findBy Task.variantId a.variantId s.tasks = none →
      (upsertTask s a).tasks = s.tasks ++ [a]) ∧
    (∀ (s : DBState) (od o1 : Order),
      findBy Order.orderId od.orderId s.orders = some o1 →
      ∃ o2, findBy Order.orderId od.orderId (upsertOrder s od).orders = some o2 ∧
        o2.fulfilledItems = o1.fulfilledItems ∧ o2.status = o1.status ∧
        o2.orderName = od.orderName ∧ o2.orderDate = od.orderDate ∧
        o2.totalItems = od.totalItems) ∧
    (∀ (s : DBState) (od : Order),
      findBy Order.orderId od.orderId s.orders = none →
      (upsertOrder s od).orders = s.orders ++ [od]) ∧
    (∀ (s : DBState) (li x1 : LineItem),
      findBy LineItem.lineItemId li.lineItemId s.lineItems = some x1 →
      ∃ x2, findBy LineItem.lineItemId li.lineItemId
          (upsertOrderLineItem s li).lineItems = some x2 ∧
        x2.fulfilledQuantity = x1.fulfilledQuantity ∧ x2.quantity = li.quantity) ∧
    (∀ (s : DBState) (li : LineItem),
      findBy LineItem.lineItemId li.lineItemId s.lineItems = none →
      (upsertOrderLineItem s li).lineItems = s.lineItems ++ [li]) := by
  refine ⟨?_, ?_, ?_, ?_, ?_, ?_⟩
  · intro s a t1 hfind
    exact ⟨_, (upsertTask_conflict hfind).1, rfl, rfl, rfl, rfl, rfl⟩
  · intro s a hfind
    exact (upsertTask_insert hfind).1
  · intro s od o1 hfind
    exact ⟨_, (upsertOrder_conflict hfind).1, rfl, rfl, rfl, rfl, rfl⟩
  · intro s od hfind
    exact (upsertOrder_insert hfind).1
  · intro s li x1 hfind
    exact ⟨_, (upsertOrderLineItem_conflict hfind).1, rfl, rfl⟩
  · intro s li hfind
    exact (upsertOrderLineItem_insert hfind).1

/-- Witness for C5 at a concrete input. -/
theorem C5_witness :
    findBy Task.variantId
      (Task.variantId { t0 with totalQuantity := 7 }) s0.tasks = some t0 ∧
    ∃ t2, findBy Task.variantId (Task.variantId { t0 with totalQuantity := 7 })
        (upsertTask s0 { t0 with totalQuantity := 7 }).tasks = some t2 ∧
      t2.madeQuantity = t0.madeQuantity ∧ t2.status = t0.status ∧
      t2.totalQuantity = Task.totalQuantity { t0 with totalQuantity := 7 } ∧
      t2.variantTitle = Task.variantTitle { t0 with totalQuantity := 7 } ∧
      t2.productTitle = Task.productTitle { t0 with totalQuantity := 7 } :=
  ⟨by decide, C5_progress_preserving_upserts.1 s0
    { t0 with totalQuantity := 7 } t0 (by decide)⟩

/-- C6: the skip set is exactly the archived or progressed order ids; the
safe clear keeps exactly the orders that are archived or progressed and the
line items whose parent is not a deleted order; through the whole sync an
order with progress keeps its counters, while a zero-progress order is
removed by the clear step. -/
theorem C6_reconciliation_skip_and_clear :
    (∀ (s : DBState) (oid : String), oid ∈ getOrderIdsToSkipDuringSync s ↔
      ∃ o ∈ s.orders, o.orderId = oid ∧
        (o.status = "archived" ∨ 0 < o.fulfilledItems)) ∧
    (∀ (s : DBState) (o : Order), o ∈ (clearOrdersWithoutProgress s).2.orders ↔
      o ∈ s.orders ∧ ¬(o.status ≠ "archived" ∧ o.fulfilledItems = 0)) ∧
    (∀ (s : DBState) (li : LineItem),
      li ∈ (clearOrdersWithoutProgress s).2.lineItems ↔
      li ∈ s.lineItems ∧ ¬∃ o ∈ s.orders, o.orderId = li.orderId ∧
        o.status ≠ "archived" ∧ o.fulfilledItems = 0) ∧
    (∀ (s : DBState) (L : List SyncOrder) (A : List AggregatedVariant)
      (oid : String) (o : Order), (s.orders.map Order.orderId).Nodup →
      findBy Order.orderId oid s.orders = some o → o.status ≠ "archived" →
      0 < o.fulfilledItems →
      ∃ o2, findBy Order.orderId oid (syncShopify s L A).orders = some o2 ∧
        o2.fulfilledItems = o.fulfilledItems ∧ o2.totalItems = o.totalItems) ∧
    (∀ (s : DBState) (oid : String) (o : Order),
      (s.orders.map Order.orderId).Nodup →
      findBy Order.orderId oid s.orders = some o → o.status ≠ "archived" →
      o.fulfilledItems = 0 →
      findBy Order.orderId oid (clearOrdersWithoutProgress s).2.orders = none) := by
  refine ⟨skip_mem, clear_orders_mem, clear_items_mem, ?_, ?_⟩
  · intro s L A oid o h1 h2 h3 h4
    exact sync_preserves_progress h1 h2 h3 h4
  · intro s oid o h1 h2 h3 h4
    exact clear_deletes_zero h1 h2 h3 h4

/-- Witness for C6 at a concrete input (the progressed order survives). -/
theorem C6_witness :
    (c1s.orders.map Order.orderId).Nodup ∧
    findBy Order.orderId "A" c1s.orders = some c1OrdA ∧
    ∃ o2, findBy Order.orderId "A" (syncShopify c1s [] []).orders = some o2 ∧
      o2.fulfilledItems = c1OrdA.fulfilledItems ∧
      o2.totalItems = c1OrdA.totalItems :=
  ⟨by decide, by decide,
   C6_reconciliation_skip_and_clear.2.2.2.1 c1s [] [] "A" c1OrdA (by decide)
     (by decide) (by decide) (by decide)⟩

/-- C9: under unique order ids and status-consistent orders, one allocation
call reports each order id at most once; every reported order was not
fulfilled before the call and is fulfilled after it; and every order that
transitioned into fulfilled during the call is reported. -/
theorem C9_newly_fulfilled_report {s : DBState} {v : String} {q : Int}
    (hndO : (s.orders.map Order.orderId).Nodup)
    (hcons : ordersConsistent s) :
    ((allocateMadeQuantityToOrders s v q).1.map FulfilledOrderRef.orderId).Nodup ∧
    (∀ ref ∈ (allocateMadeQuantityToOrders s v q).1, ∃ o,
      findBy Order.orderId ref.orderId s.orders = some o ∧
      o.orderName = ref.orderName ∧ o.status ≠ "fulfilled" ∧
      ∃ o2, findBy Order.orderId ref.orderId
        (allocateMadeQuantityToOrders s v q).2.orders = some o2 ∧
        o2.status = "fulfilled") ∧
    (∀ oid o o2, findBy Order.orderId oid s.orders = some o →
      o.status ≠ "fulfilled" →
      findBy Order.orderId oid
        (allocateMadeQuantityToOrders s v q).2.orders = some o2 →
      o2.status = "fulfilled" →
      ∃ ref ∈ (allocateMadeQuantityToOrders s v q).1, ref.orderId = oid) := by
  have hq1 : (allocateMadeQuantityToOrders s v q).1 =
      planReport s.orders (allocPlan s v q) := by
    rw [allocate_eq]
  have hq2 : (allocateMadeQuantityToOrders s v q).2.orders =
      applyPlanOrders (allocPlan s v q) s.orders := by
    rw [allocate_eq]
  have hparch : ∀ p ∈ allocPlan s v q,
      anyNonArchived s.orders p.1.orderId = true := by
    intro p hp
    exact (allocItems_mem.1 (fifoPlan_mem hp).1).2.2
  have hpos : ∀ p ∈ allocPlan s v q, 0 ≤ p.2 := by
    intro p hp
    exact le_of_lt (fifoPlan_mem hp).2.1
  have hs := planReport_spec (allocPlan s v q) s.orders hndO hcons hparch hpos
  rw [hq1, hq2]
  exact hs

/-- Witness for C9 at a concrete input. -/
theorem C9_witness :
    (s0.orders.map Order.orderId).Nodup ∧ ordersConsistent s0 ∧
    ((allocateMadeQuantityToOrders s0 "V" 3).1.map
      FulfilledOrderRef.orderId).Nodup :=
  ⟨by decide, by decide,
   (@C9_newly_fulfilled_report s0 "V" 3 (by decide) (by decide)).1⟩

end ShopInv
